import Mathlib

/-!
# Tetris rules engine: shallow embedding and verified properties

Embedding of `src/list.c`, `src/pieces.c`, `src/game.c`, `handle_input` of
`src/main.c` and the descent of `render_ghost_piece` of `src/render.c`.

Modelling conventions.
* C `int` is `Int`.  Signed overflow is undefined behaviour in C, so the model
  describes the executions in which no arithmetic overflows.  C integer
  division and remainder truncate toward zero: `Int.tdiv`, `Int.tmod`.
* A linked list of `Block` nodes is a `List Block` in link order (`head` first);
  the `count` field of `BlockList` is kept as a separate field, as in C.
* `malloc` is assumed to succeed and every pointer handed to a function is
  non-null, so the `NULL` guards of the C functions are never taken.
* `float` values are exact rationals (`ℚ`).  For the piece centre this is exact
  as long as coordinates are small (all sums are multiples of 1/4 far below
  2^24); for the timers it is an idealisation.  The conversion `(int)f`
  truncates toward zero (`c_trunc`).
* `rand()` is an oracle: every function that spawns a piece takes the kind(s)
  of the spawned piece(s) as extra argument(s).
* A loop whose termination depends on the data takes a fuel argument and
  returns `none` when the fuel runs out; undefined behaviour (reading the
  point table out of range) is `none` as well.
-/

namespace Tetris

/-! ## list.h / list.c -/

/-- SDL colour: four 8-bit channels. -/
structure SDL_Color where
  r : Nat
  g : Nat
  b : Nat
  a : Nat
deriving DecidableEq, Repr

/-- A node of the linked list, without its `next` pointer (the link order is the
order of the enclosing `List`). -/
structure Block where
  x : Int
  y : Int
  color : SDL_Color
deriving DecidableEq, Repr

/-- The list header: `head` is the chain of nodes, `count` the stored counter. -/
structure BlockList where
  head : List Block
  count : Int
deriving DecidableEq, Repr

/-- The function `list_create`: empty chain, counter 0. -/
def list_create : BlockList :=
  { head := [], count := 0 }

/-- The function `list_add`: a new node is linked after the last one and the
counter is incremented (the C return value is `true`, allocation succeeding). -/
def list_add (list : BlockList) (x y : Int) (color : SDL_Color) : BlockList :=
  { head := list.head ++ [{ x := x, y := y, color := color }], count := list.count + 1 }

/-- The scan of `list_find` over the chain: the first node at `(x, y)`. -/
def find_node (x y : Int) : List Block → Option Block
  | [] => none
  | current :: next =>
    if current.x = x ∧ current.y = y then some current else find_node x y next

/-- The function `list_find`: the first node at `(x, y)`, or `none` for `NULL`. -/
def list_find (list : BlockList) (x y : Int) : Option Block :=
  find_node x y list.head

/-- The scan of `list_remove`: unlink the first node at `(x, y)`; `none` when
the scan reaches the end of the chain without a match. -/
def remove_node (x y : Int) : List Block → Option (List Block)
  | [] => none
  | current :: next =>
    if current.x = x ∧ current.y = y then some next
    else
      match remove_node x y next with
      | some rest => some (current :: rest)
      | none => none

/-- The function `list_remove`: unlinks the first node at `(x, y)` and decrements
the counter; returns whether a node was found. -/
def list_remove (list : BlockList) (x y : Int) : Bool × BlockList :=
  match remove_node x y list.head with
  | some chain => (true, { head := chain, count := list.count - 1 })
  | none => (false, list)

/-- The function `list_clear`: frees every node, resets head and counter. -/
def list_clear (_list : BlockList) : BlockList :=
  { head := [], count := 0 }

/-- The function `list_is_empty`. -/
def list_is_empty (list : BlockList) : Bool :=
  list.head.isEmpty

/-- The function `list_copy`: a fresh list to which every node is added in order. -/
def list_copy (list : BlockList) : BlockList :=
  list.head.foldl (fun new_list current => list_add new_list current.x current.y current.color)
    list_create

/-- The function `list_count`: the stored counter. -/
def list_count (list : BlockList) : Int :=
  list.count

/-! ## pieces.h / pieces.c -/

/-- The enumeration `PieceType` (without the sentinel `PIECE_COUNT`). -/
inductive PieceType where
  | PIECE_I
  | PIECE_O
  | PIECE_T
  | PIECE_S
  | PIECE_Z
  | PIECE_J
  | PIECE_L
deriving DecidableEq, Repr

open PieceType

/-- The structure `Piece`. -/
structure Piece where
  blocks : BlockList
  type : PieceType
  rotation : Int
deriving DecidableEq, Repr

/-- The function `piece_get_color`. -/
def piece_get_color : PieceType → SDL_Color
  | PIECE_I => { r := 0, g := 255, b := 255, a := 255 }
  | PIECE_O => { r := 255, g := 255, b := 0, a := 255 }
  | PIECE_T => { r := 128, g := 0, b := 128, a := 255 }
  | PIECE_S => { r := 0, g := 255, b := 0, a := 255 }
  | PIECE_Z => { r := 255, g := 0, b := 0, a := 255 }
  | PIECE_J => { r := 0, g := 0, b := 255, a := 255 }
  | PIECE_L => { r := 255, g := 165, b := 0, a := 255 }

/-- The four `list_add` calls of one `switch` case of `piece_create`. -/
def add_four (color : SDL_Color) (p0 p1 p2 p3 : Int × Int) : BlockList :=
  list_add (list_add (list_add (list_add list_create p0.1 p0.2 color) p1.1 p1.2 color)
    p2.1 p2.2 color) p3.1 p3.2 color

/-- The function `piece_create`. -/
def piece_create (type : PieceType) : Piece :=
  let color := piece_get_color type
  let start_x : Int := 4
  let start_y : Int := 0
  let blocks :=
    match type with
    | PIECE_I => add_four color (start_x - 1, start_y) (start_x, start_y)
        (start_x + 1, start_y) (start_x + 2, start_y)
    | PIECE_O => add_four color (start_x, start_y) (start_x + 1, start_y)
        (start_x, start_y + 1) (start_x + 1, start_y + 1)
    | PIECE_T => add_four color (start_x, start_y) (start_x - 1, start_y + 1)
        (start_x, start_y + 1) (start_x + 1, start_y + 1)
    | PIECE_S => add_four color (start_x, start_y) (start_x + 1, start_y)
        (start_x - 1, start_y + 1) (start_x, start_y + 1)
    | PIECE_Z => add_four color (start_x - 1, start_y) (start_x, start_y)
        (start_x, start_y + 1) (start_x + 1, start_y + 1)
    | PIECE_J => add_four color (start_x - 1, start_y) (start_x - 1, start_y + 1)
        (start_x, start_y + 1) (start_x + 1, start_y + 1)
    | PIECE_L => add_four color (start_x + 1, start_y) (start_x - 1, start_y + 1)
        (start_x, start_y + 1) (start_x + 1, start_y + 1)
  { blocks := blocks, type := type, rotation := 0 }

/-- The function `piece_move`: adds `(dx, dy)` to every node. -/
def piece_move (piece : Piece) (dx dy : Int) : Piece :=
  { piece with
    blocks := { piece.blocks with
      head := piece.blocks.head.map (fun current =>
        { current with x := current.x + dx, y := current.y + dy }) } }

/-- The function `piece_get_center`: the sums of the coordinates divided by the
number of nodes visited (`0 / 0` is taken as `0`; C yields NaN there). -/
def piece_get_center (piece : Piece) : ℚ × ℚ :=
  let sum_x : ℚ := (piece.blocks.head.map (fun current => (current.x : ℚ))).sum
  let sum_y : ℚ := (piece.blocks.head.map (fun current => (current.y : ℚ))).sum
  let count : Int := piece.blocks.head.length
  (sum_x / (count : ℚ), sum_y / (count : ℚ))

/-- The C conversion `(int)f` of a float to an integer: truncation toward zero. -/
def c_trunc (f : ℚ) : Int :=
  Int.tdiv f.num (f.den : Int)

/-- The function `piece_rotate`: nothing for the O kind; otherwise every node is
moved to the truncated image of the quarter turn about the centre computed
beforehand, and the rotation counter advances modulo 4. -/
def piece_rotate (piece : Piece) : Piece :=
  if piece.type = PIECE_O then piece
  else
    let cx := (piece_get_center piece).1
    let cy := (piece_get_center piece).2
    { blocks := { piece.blocks with
        head := piece.blocks.head.map (fun current =>
          let old_x := current.x
          let old_y := current.y
          { current with
            x := c_trunc (cx - ((old_y : ℚ) - cy)),
            y := c_trunc (cy + ((old_x : ℚ) - cx)) }) },
      type := piece.type,
      rotation := Int.tmod (piece.rotation + 1) 4 }

/-- The function `piece_copy`. -/
def piece_copy (piece : Piece) : Piece :=
  { type := piece.type, rotation := piece.rotation, blocks := list_copy piece.blocks }

/-! ## game.h / game.c -/

/-- Grid width in columns (`GRID_WIDTH`). -/
def GRID_WIDTH : Int := 10

/-- Grid height in rows (`GRID_HEIGHT`). -/
def GRID_HEIGHT : Int := 20

/-- The structure `GameState`. -/
structure GameState where
  fixed_blocks : BlockList
  current_piece : Piece
  next_piece : Piece
  score : Int
  level : Int
  lines_cleared : Int
  game_over : Bool
  paused : Bool
  fall_timer : ℚ
  fall_speed : ℚ
deriving DecidableEq, Repr

/-- The function `game_init`; `type1` and `type2` are the kinds drawn by the two
calls of `piece_create_random`. -/
def game_init (type1 type2 : PieceType) : GameState :=
  { fixed_blocks := list_create,
    current_piece := piece_create type1,
    next_piece := piece_create type2,
    score := 0,
    level := 1,
    lines_cleared := 0,
    game_over := false,
    paused := false,
    fall_timer := 0,
    fall_speed := 1 }

/-- The `while` loop of `game_check_collision` over the nodes of the piece. -/
def collision_loop (fixed_blocks : BlockList) (dx dy : Int) : List Block → Bool
  | [] => false
  | current :: next =>
    let new_x := current.x + dx
    let new_y := current.y + dy
    if new_x < 0 ∨ new_x ≥ GRID_WIDTH then true
    else if new_y ≥ GRID_HEIGHT then true
    else if new_y ≥ 0 then
      if (list_find fixed_blocks new_x new_y).isSome then true
      else collision_loop fixed_blocks dx dy next
    else collision_loop fixed_blocks dx dy next

/-- The function `game_check_collision`. -/
def game_check_collision (piece : Piece) (fixed_blocks : BlockList) (dx dy : Int) : Bool :=
  collision_loop fixed_blocks dx dy piece.blocks.head

/-- The counting loop of `game_check_lines`: the number of nodes on row `y`. -/
def count_row (y : Int) : List Block → Int
  | [] => 0
  | current :: next =>
    if current.y = y then count_row y next + 1 else count_row y next

/-- The removal loop of `game_check_lines` for a full row `y`.  `visited` is the
part of the chain before `current`, as it stands now, `pending` is `current`
and the nodes after it, `count` is the list counter.  For a node on row `y`,
`list_remove(list, current->x, current->y)` unlinks the first node of the whole
chain at that position: a visited node if there is one, otherwise `current`
itself (`list_remove_at_current`).  A node above the row is moved down one row. -/
def clear_row_loop (y : Int) : List Block → List Block → Int → List Block × Int
  | visited, [], count => (visited, count)
  | visited, current :: next, count =>
    if current.y = y then
      match remove_node current.x current.y visited with
      | some visited' => clear_row_loop y (visited' ++ [current]) next (count - 1)
      | none => clear_row_loop y visited next (count - 1)
    else if current.y < y then
      clear_row_loop y (visited ++ [{ current with y := current.y + 1 }]) next count
    else
      clear_row_loop y (visited ++ [current]) next count

/-- The body of `if (count == GRID_WIDTH)` in `game_check_lines`, without the
counter updates: the removal loop run from the head of the list. -/
def clear_row (list : BlockList) (y : Int) : BlockList :=
  { head := (clear_row_loop y [] list.head list.count).1,
    count := (clear_row_loop y [] list.head list.count).2 }

/-- The `for` loop of `game_check_lines`, one unit of fuel per test of `y >= 0`.
After a full row the index is incremented and then decremented by the loop
header, so the same row is examined again. -/
def check_lines_loop : Nat → GameState → Int → Int → Option (Int × GameState)
  | 0, _, _, _ => none
  | fuel + 1, game, y, lines_removed =>
    if y ≥ 0 then
      let count := count_row y game.fixed_blocks.head
      if count = GRID_WIDTH then
        check_lines_loop fuel { game with fixed_blocks := clear_row game.fixed_blocks y }
          (y + 1 - 1) (lines_removed + 1)
      else
        check_lines_loop fuel game (y - 1) lines_removed
    else some (lines_removed, game)

/-- The function `game_check_lines`: the number of removed lines and the new
state.  The fuel covers one test per row plus one per removed node. -/
def game_check_lines (game : GameState) : Option (Int × GameState) :=
  check_lines_loop (GRID_HEIGHT.toNat + 1 + game.fixed_blocks.head.length) game
    (GRID_HEIGHT - 1) 0

/-- The first loop of `game_fix_piece`: every node of the current piece is added
to the fixed blocks, in order. -/
def transfer_blocks (game : GameState) : GameState :=
  { game with
    fixed_blocks := game.current_piece.blocks.head.foldl
      (fun list current => list_add list current.x current.y current.color) game.fixed_blocks }

/-- The point table of `game_fix_piece`. -/
def points : List Int := [0, 40, 100, 300, 1200]

/-- The scoring block of `game_fix_piece` (`if (lines > 0) ...`): the score grows
by the table entry times the level before the update, then the level and the
fall speed are recomputed.  Reading the table out of range is `none`. -/
def apply_score (game : GameState) (lines : Int) : Option GameState :=
  if lines > 0 then
    match points[lines.toNat]? with
    | some p =>
      let lines_cleared := game.lines_cleared + lines
      let level := 1 + Int.tdiv lines_cleared 10
      some { game with
        score := game.score + p * game.level,
        lines_cleared := lines_cleared,
        level := level,
        fall_speed := 1 / (level : ℚ) }
    | none => none
  else some game

/-- The end of `game_fix_piece`: the next piece becomes the current one, a piece
of kind `type` becomes the next one, the game is over if the new current piece
collides where it stands, and the fall timer is reset. -/
def spawn_next (game : GameState) (type : PieceType) : GameState :=
  let game1 := { game with
    current_piece := game.next_piece,
    next_piece := piece_create type }
  let game2 :=
    if game_check_collision game1.current_piece game1.fixed_blocks 0 0 then
      { game1 with game_over := true }
    else game1
  { game2 with fall_timer := 0 }

/-- The function `game_fix_piece`; `type` is the kind drawn by
`piece_create_random`.  The result is `none` when `points[lines]` is read out of
range (or the line loop runs out of fuel). -/
def game_fix_piece (game : GameState) (type : PieceType) : Option GameState :=
  match game_check_lines (transfer_blocks game) with
  | none => none
  | some (lines, game1) =>
    match apply_score game1 lines with
    | none => none
    | some game2 => some (spawn_next game2 type)

/-- The function `game_move_piece`; `type` is the kind spawned if the piece is
fixed. -/
def game_move_piece (game : GameState) (dx dy : Int) (type : PieceType) :
    Option (Bool × GameState) :=
  if game.game_over ∨ game.paused then some (false, game)
  else if ¬ game_check_collision game.current_piece game.fixed_blocks dx dy then
    some (true, { game with current_piece := piece_move game.current_piece dx dy })
  else if dy > 0 then
    match game_fix_piece game type with
    | some game' => some (false, game')
    | none => none
  else some (false, game)

/-- The function `game_rotate_piece`. -/
def game_rotate_piece (game : GameState) : Bool × GameState :=
  if game.game_over ∨ game.paused then (false, game)
  else
    let test_piece := piece_rotate (piece_copy game.current_piece)
    if ¬ game_check_collision test_piece game.fixed_blocks 0 0 then
      (true, { game with current_piece := piece_rotate game.current_piece })
    else if ¬ game_check_collision test_piece game.fixed_blocks 1 0 then
      (true, { game with current_piece := piece_move (piece_rotate game.current_piece) 1 0 })
    else if ¬ game_check_collision test_piece game.fixed_blocks (-1) 0 then
      (true, { game with current_piece := piece_move (piece_rotate game.current_piece) (-1) 0 })
    else (false, game)

/-- The function `game_update`. -/
def game_update (game : GameState) (delta_time : ℚ) (type : PieceType) : Option GameState :=
  if game.game_over ∨ game.paused then some game
  else
    let game1 := { game with fall_timer := game.fall_timer + delta_time }
    if game1.fall_timer ≥ game1.fall_speed then
      match game_move_piece game1 0 1 type with
      | some (_, game2) => some { game2 with fall_timer := 0 }
      | none => none
    else some game1

/-- Fuel for the descent loops: a piece whose first node is at row `y` descends
fewer than `GRID_HEIGHT - y` rows; a piece without nodes never collides. -/
def descent_fuel (piece : Piece) : Nat :=
  match piece.blocks.head with
  | [] => 0
  | first :: _ => (GRID_HEIGHT - first.y).toNat + 1

/-- The `while` loop of `game_drop_piece`, one unit of fuel per test. -/
def drop_loop : Nat → GameState → Option GameState
  | 0, _ => none
  | fuel + 1, game =>
    if ¬ game_check_collision game.current_piece game.fixed_blocks 0 1 then
      drop_loop fuel { game with
        current_piece := piece_move game.current_piece 0 1,
        score := game.score + 2 }
    else some game

/-- The function `game_drop_piece`. -/
def game_drop_piece (game : GameState) (type : PieceType) : Option GameState :=
  if game.game_over ∨ game.paused then some game
  else
    match drop_loop (descent_fuel game.current_piece) game with
    | some game' => game_fix_piece game' type
    | none => none

/-- The function `game_toggle_pause`. -/
def game_toggle_pause (game : GameState) : GameState :=
  { game with paused := !game.paused }

/-- The function `game_reset`. -/
def game_reset (game : GameState) (type1 type2 : PieceType) : GameState :=
  { fixed_blocks := list_clear game.fixed_blocks,
    current_piece := piece_create type1,
    next_piece := piece_create type2,
    score := 0,
    level := 1,
    lines_cleared := 0,
    game_over := false,
    paused := false,
    fall_timer := 0,
    fall_speed := 1 }

/-- The first loop of `game_get_ghost_y`: the least row of the piece, starting
from `GRID_HEIGHT`. -/
def min_y_loop (min_y : Int) : List Block → Int
  | [] => min_y
  | current :: next =>
    if current.y < min_y then min_y_loop current.y next else min_y_loop min_y next

/-- The second loop of `game_get_ghost_y`, one unit of fuel per test. -/
def ghost_loop (piece : Piece) (fixed_blocks : BlockList) : Nat → Int → Option Int
  | 0, _ => none
  | fuel + 1, ghost_offset =>
    if ¬ game_check_collision piece fixed_blocks 0 (ghost_offset + 1) then
      ghost_loop piece fixed_blocks fuel (ghost_offset + 1)
    else some ghost_offset

/-- The function `game_get_ghost_y`. -/
def game_get_ghost_y (game : GameState) : Option Int :=
  let min_y := min_y_loop GRID_HEIGHT game.current_piece.blocks.head
  match ghost_loop game.current_piece game.fixed_blocks (descent_fuel game.current_piece) 0 with
  | some ghost_offset => some (min_y + ghost_offset)
  | none => none

/-! ## Sessions -/

/-- The commands of the engine, each with the kinds its spawns draw. -/
inductive Command where
  | move (dx dy : Int) (type : PieceType)
  | rotate
  | hardDrop (type : PieceType)
  | tick (delta_time : ℚ) (type : PieceType)
  | togglePause
  | reset (type1 type2 : PieceType)

/-- The state after one command, when the command returns. -/
def run_command (game : GameState) : Command → Option GameState
  | Command.move dx dy type => (game_move_piece game dx dy type).map Prod.snd
  | Command.rotate => some (game_rotate_piece game).2
  | Command.hardDrop type => game_drop_piece game type
  | Command.tick delta_time type => game_update game delta_time type
  | Command.togglePause => some (game_toggle_pause game)
  | Command.reset type1 type2 => some (game_reset game type1 type2)

/-- The states a session can be in: those of `game_init` and those a command
leads to from such a state. -/
inductive Reachable : GameState → Prop where
  | init (type1 type2 : PieceType) : Reachable (game_init type1 type2)
  | step (game game' : GameState) (command : Command) :
      Reachable game → run_command game command = some game' → Reachable game'

/-- Run a list of commands in order. -/
def run_commands (game : GameState) : List Command → Option GameState
  | [] => some game
  | command :: rest =>
    match run_command game command with
    | some game' => run_commands game' rest
    | none => none


/-! ## Specification-level notions and sample sessions -/

/-- The positions of the nodes of a chain, in link order. -/
def positions (chain : List Block) : List (Int × Int) :=
  chain.map (fun b => (b.x, b.y))

/-- The level invariant in the form the code maintains it: the line total is
not negative and the level is one more than its truncated tenth. -/
def LevelInv (game : GameState) : Prop :=
  0 ≤ game.lines_cleared ∧ game.level = 1 + Int.tdiv game.lines_cleared 10

/-- The rotation as the specification words it: every node goes to the rounded
image of the quarter turn about the exact mean of the nodes, and the rotation
counter advances modulo 4. -/
def piece_rotate_rounded (piece : Piece) : Piece :=
  let cx := (piece_get_center piece).1
  let cy := (piece_get_center piece).2
  { blocks := { piece.blocks with
      head := piece.blocks.head.map (fun current =>
        { current with
          x := round (cx - ((current.y : ℚ) - cy)),
          y := round (cy + ((current.x : ℚ) - cx)) }) },
    type := piece.type,
    rotation := (piece.rotation + 1) % 4 }

/-- A list header over the given nodes with a consistent counter. -/
def block_list (chain : List Block) : BlockList :=
  { head := chain, count := chain.length }

/-- Nodes of one colour at the given positions. -/
def blocks_at (color : SDL_Color) (cells : List (Int × Int)) : List Block :=
  cells.map (fun p => { x := p.1, y := p.2, color := color })

/-- A colour for landed blocks in sample grids. -/
def grey : SDL_Color := { r := 128, g := 128, b := 128, a := 255 }

/-- An active session at level 1 with the given grid and current piece. -/
def session_with (grid : List Block) (piece : Piece) : GameState :=
  { game_init PIECE_O PIECE_I with fixed_blocks := block_list grid, current_piece := piece }

/-- A T piece resting on the floor of the empty grid. -/
def landed_state : GameState :=
  session_with [] (piece_move (piece_create PIECE_T) 0 18)

/-- A T piece standing against the left wall (stem to the left), with a fixed
block at `(0, 0)` in the way of its rotation in place. -/
def kick_state : GameState :=
  session_with (blocks_at grey [(0, 0)])
    { blocks := block_list
        (blocks_at (piece_get_color PIECE_T) [(1, 0), (1, 1), (1, 2), (0, 1)]),
      type := PIECE_T, rotation := 1 }

/-- An I piece lying on the bottom row: its rotation leaves the grid downward. -/
def stuck_state : GameState :=
  session_with []
    { blocks := block_list
        (blocks_at (piece_get_color PIECE_I) [(3, 19), (4, 19), (5, 19), (6, 19)]),
      type := PIECE_I, rotation := 0 }

/-- Four rows from completion at level 3: rows 16-19 hold columns 0-8 and an
upright I piece stands in column 9. -/
def tetris_state : GameState :=
  { session_with
      (blocks_at grey ((List.range 4).flatMap
        (fun r => (List.range 9).map (fun c => ((c : Int), (16 + r : Int))))))
      { blocks := block_list
          (blocks_at (piece_get_color PIECE_I) [(9, 16), (9, 17), (9, 18), (9, 19)]),
        type := PIECE_I, rotation := 1 } with
    level := 3, lines_cleared := 20, fall_speed := 1 / 3 }

/-- A play that completes the bottom row: two I pieces dropped side by side and
an O piece dropped in the last two columns. -/
def line_play : List Command :=
  [Command.move (-1) 0 PIECE_T, Command.move (-1) 0 PIECE_T, Command.move (-1) 0 PIECE_T,
   Command.hardDrop PIECE_O,
   Command.move 1 0 PIECE_T, Command.hardDrop PIECE_T,
   Command.move 1 0 PIECE_T, Command.move 1 0 PIECE_T, Command.move 1 0 PIECE_T,
   Command.move 1 0 PIECE_T, Command.hardDrop PIECE_L]

/-- The session after `line_play` from a start with two I pieces. -/
def line_state : GameState :=
  (run_commands (game_init PIECE_I PIECE_I) line_play).getD (game_init PIECE_I PIECE_I)

/-- The session after rotating the first piece, a T, once and dropping it. -/
def dup_state : GameState :=
  (run_commands (game_init PIECE_T PIECE_O) [Command.rotate, Command.hardDrop PIECE_I]).getD
    (game_init PIECE_T PIECE_O)

/-! ### Line clearing on positions -/

/-- The number of cells on row `y`. -/
def row_count (cells : List (Int × Int)) (y : Int) : Nat :=
  cells.countP (fun p => p.2 = y)

/-- The number of rows `q` with `t < q < n` that hold exactly ten cells. -/
def full_rows_between (cells : List (Int × Int)) (n : Nat) (t : Int) : Nat :=
  ((List.range n).filter (fun (q : Nat) => t < (q : Int) ∧ row_count cells (q : Int) = 10)).length

/-- The number of rows of the grid, `0 <= q < 20`, that hold exactly ten cells. -/
def full_row_total (cells : List (Int × Int)) : Nat :=
  ((List.range 20).filter (fun (q : Nat) => row_count cells (q : Int) = 10)).length

/-- The number of full rows of the grid with index greater than `y`. -/
def full_rows_above (cells : List (Int × Int)) (y : Int) : Nat :=
  ((List.range 20).filter (fun (q : Nat) => y < (q : Int) ∧ row_count cells (q : Int) = 10)).length

/-- The effect of clearing row `y` on one cell above or below it: a cell above
the row moves down one row. -/
def shift_down (y : Int) (p : Int × Int) : Int × Int :=
  if p.2 < y then (p.1, p.2 + 1) else p

/-- The cells left by clearing row `y`: those off the row, the ones above it
moved down one row. -/
def kept_cells (y : Int) (cells : List (Int × Int)) : List (Int × Int) :=
  (cells.filter (fun p => p.2 ≠ y)).map (shift_down y)

/-- The cells left by clearing the full rows below row `n`: a cell of a full row
below `n` goes, a cell of another row below `n` moves down by the number of full
rows between it and `n`, the cells from row `n` on stay. -/
def collapse (cells : List (Int × Int)) (n : Nat) : List (Int × Int) :=
  (cells.filter (fun p => ¬ (p.2 < (n : Int) ∧ row_count cells p.2 = 10))).map
    (fun p => if p.2 < (n : Int) then (p.1, p.2 + (full_rows_between cells n p.2 : Int)) else p)

/-- Rows 18 and 19 full, two blocks on row 17 and one on row 16. -/
def cascade_state : GameState :=
  session_with
    (blocks_at grey
      ([(2, 16), (0, 17), (5, 17)] ++ (List.range 10).map (fun (c : Nat) => ((c : Int), (18 : Int)))
        ++ (List.range 10).map (fun (c : Nat) => ((c : Int), (19 : Int)))))
    (piece_create PIECE_T)

/-! ### More sample sessions and notions for the descent -/

/-- The spawn cells of each kind as the specification lists them, around the
anchor `(4, 0)`. -/
def spawn_layout : PieceType → List (Int × Int)
  | PIECE_I => [(3, 0), (4, 0), (5, 0), (6, 0)]
  | PIECE_O => [(4, 0), (5, 0), (4, 1), (5, 1)]
  | PIECE_T => [(4, 0), (3, 1), (4, 1), (5, 1)]
  | PIECE_S => [(4, 0), (5, 0), (3, 1), (4, 1)]
  | PIECE_Z => [(3, 0), (4, 0), (4, 1), (5, 1)]
  | PIECE_J => [(3, 0), (3, 1), (4, 1), (5, 1)]
  | PIECE_L => [(5, 0), (3, 1), (4, 1), (5, 1)]

/-- A session that is over. -/
def over_state : GameState :=
  { landed_state with game_over := true }

/-- A paused session. -/
def paused_state : GameState :=
  { landed_state with paused := true }

/-- An upright I piece whose top cell is above the grid, over a grid with an
entry at that very position `(4, -1)`. -/
def above_state : GameState :=
  session_with (blocks_at grey [(4, -1)])
    { blocks := block_list
        (blocks_at (piece_get_color PIECE_I) [(4, -1), (4, 0), (4, 1), (4, 2)]),
      type := PIECE_I, rotation := 1 }

/-- A freshly spawned O piece standing on a fixed block at `(4, 1)`. -/
def overlap_state : GameState :=
  session_with (blocks_at grey [(4, 1)]) (piece_create PIECE_O)

/-- A session whose next piece will collide where it spawns: the grid holds a
block at `(4, 0)`. -/
def blocked_spawn_state : GameState :=
  session_with (blocks_at grey [(4, 0)]) (piece_move (piece_create PIECE_O) 3 18)

/-- The session after `j` steps of the descent loop of `game_drop_piece`. -/
def descended (game : GameState) (j : Int) : GameState :=
  { game with
    current_piece := piece_move game.current_piece 0 j,
    score := game.score + 2 * j }

/-! ### main.c: the input layer -/

/-- The key codes `handle_input` tells apart; every other key is `SDLK_other`. -/
inductive SDL_Keycode where
  | SDLK_LEFT
  | SDLK_RIGHT
  | SDLK_DOWN
  | SDLK_UP
  | SDLK_SPACE
  | SDLK_w
  | SDLK_x
  | SDLK_p
  | SDLK_r
  | SDLK_ESCAPE
  | SDLK_other
deriving DecidableEq, Repr

/-- The events `handle_input` tells apart: quit, key down with its key code, and
any other event. -/
inductive SDL_Event where
  | SDL_QUIT
  | SDL_KEYDOWN (sym : SDL_Keycode)
  | SDL_other_event
deriving DecidableEq, Repr

open SDL_Keycode SDL_Event

/-- The function `handle_input` of main.c; `running` is the flag of the renderer,
`type1` and `type2` are the kinds drawn if the command spawns.  In a session that
is over only the keys R and ESC act. -/
def handle_input (event : SDL_Event) (game : GameState) (running : Bool)
    (type1 type2 : PieceType) : Option (GameState × Bool) :=
  match event with
  | SDL_QUIT => some (game, false)
  | SDL_KEYDOWN key =>
    if game.game_over then
      if key = SDLK_r then some (game_reset game type1 type2, running)
      else if key = SDLK_ESCAPE then some (game, false)
      else some (game, running)
    else
      match key with
      | SDLK_LEFT =>
        match game_move_piece game (-1) 0 type1 with
        | some (_, game') => some (game', running)
        | none => none
      | SDLK_RIGHT =>
        match game_move_piece game 1 0 type1 with
        | some (_, game') => some (game', running)
        | none => none
      | SDLK_DOWN =>
        match game_move_piece game 0 1 type1 with
        | some (true, game') => some ({ game' with score := game'.score + 1 }, running)
        | some (false, game') => some (game', running)
        | none => none
      | SDLK_UP => some ((game_rotate_piece game).2, running)
      | SDLK_SPACE => some ((game_rotate_piece game).2, running)
      | SDLK_w =>
        match game_drop_piece game type1 with
        | some game' => some (game', running)
        | none => none
      | SDLK_x =>
        match game_drop_piece game type1 with
        | some game' => some (game', running)
        | none => none
      | SDLK_p => some (game_toggle_pause game, running)
      | SDLK_r => some (game_reset game type1 type2, running)
      | SDLK_ESCAPE => some (game, false)
      | SDLK_other => some (game, running)
  | SDL_other_event => some (game, running)

/-- A piece of four cells all below the floor, on the empty grid. -/
def sunk_state : GameState :=
  session_with []
    { blocks := block_list
        (blocks_at (piece_get_color PIECE_I) [(3, 25), (4, 25), (5, 25), (6, 25)]),
      type := PIECE_I, rotation := 0 }

/-! ### Notions and sample sessions for pieces, colours and invariants -/

/-- Two cells share an edge. -/
def adjacent (p q : Int × Int) : Bool :=
  (p.1 = q.1 ∧ (p.2 - q.2 = 1 ∨ q.2 - p.2 = 1)) ∨
  (p.2 = q.2 ∧ (p.1 - q.1 = 1 ∨ q.1 - p.1 = 1))

/-- The cells of `cells` that are reached or share an edge with a reached cell. -/
def grow (cells reached : List (Int × Int)) : List (Int × Int) :=
  cells.filter (fun c => reached.contains c || reached.any (adjacent c))

/-- Every cell can be reached from the first one through shared edges. -/
def edge_connected (cells : List (Int × Int)) : Bool :=
  match cells with
  | [] => true
  | first :: _ => cells.all (fun c => ((grow cells)^[cells.length] [first]).contains c)

/-- A red colour for sample grids. -/
def red : SDL_Color := { r := 255, g := 0, b := 0, a := 255 }

/-- A full bottom row of grey blocks, preceded in the list by a red block that
lies right above it at `(3, 18)`. -/
def swap_state : GameState :=
  session_with
    ({ x := 3, y := 18, color := red } ::
      blocks_at grey ((List.range 10).map (fun (c : Nat) => ((c : Int), (19 : Int)))))
    (piece_create PIECE_T)

/-- Every entry of a grid lies between the side walls and above the floor. -/
def GridInBounds (chain : List Block) : Prop :=
  ∀ b ∈ chain, 0 ≤ b.x ∧ b.x < 10 ∧ b.y < 20

/-- The play invariant: the grid is in bounds, and while the session is not over
the current piece does not collide where it stands. -/
def PlayInv (game : GameState) : Prop :=
  GridInBounds game.fixed_blocks.head ∧
  (game.game_over = false →
    game_check_collision game.current_piece game.fixed_blocks 0 0 = false)

/-- A play that ends with a double line clear under an overhang: an O piece in
columns 0-1, an I piece laid on it across columns 0-3, an O piece slid under the
I piece into columns 2-3, then three O pieces dropped in columns 4-9. -/
def tuck_play : List Command :=
  List.replicate 4 (Command.move (-1) 0 PIECE_O) ++ [Command.hardDrop PIECE_O] ++
  List.replicate 3 (Command.move (-1) 0 PIECE_O) ++ [Command.hardDrop PIECE_O] ++
  List.replicate 18 (Command.move 0 1 PIECE_O) ++
  List.replicate 2 (Command.move (-1) 0 PIECE_O) ++ [Command.hardDrop PIECE_O] ++
  [Command.hardDrop PIECE_O] ++
  List.replicate 2 (Command.move 1 0 PIECE_O) ++ [Command.hardDrop PIECE_T] ++
  List.replicate 4 (Command.move 1 0 PIECE_O) ++ [Command.hardDrop PIECE_T]

/-- The session after `tuck_play` from a start with an O piece followed by an I
piece. -/
def tuck_state : GameState :=
  (run_commands (game_init PIECE_O PIECE_I) tuck_play).getD (game_init PIECE_O PIECE_I)

/-- The session of `tuck_play` before its last command. -/
def tuck_before : GameState :=
  (run_commands (game_init PIECE_O PIECE_I) tuck_play.dropLast).getD (game_init PIECE_O PIECE_I)

/-- The session of `tuck_play` at the moment its last piece is handed to line
clearing: the piece dropped 18 rows and its cells added to the grid. -/
def tuck_full : GameState :=
  transfer_blocks (descended tuck_before 18)

/-! ### render.c: the ghost piece -/

/-- The descent loop of `render_ghost_piece` (render.c) on the copy `ghost`, one
unit of fuel per test. -/
def ghost_descent (fixed_blocks : BlockList) : Nat → Piece → Option Piece
  | 0, _ => none
  | fuel + 1, ghost =>
    if ¬ game_check_collision ghost fixed_blocks 0 1 then
      ghost_descent fixed_blocks fuel (piece_move ghost 0 1)
    else some ghost

/-- The function `render_ghost_piece` (render.c) up to the drawing calls: the
nodes of the descended copy that get an outline, those with `y >= 0`. -/
def render_ghost_piece (game : GameState) : Option (List Block) :=
  match ghost_descent game.fixed_blocks (descent_fuel game.current_piece)
      (piece_copy game.current_piece) with
  | some ghost => some (ghost.blocks.head.filter (fun current => current.y ≥ 0))
  | none => none

/-! ### Notions and sample sessions for line counts, game over and descents -/

/-- The number of cells that lie on a full row with index at most `y`. -/
def full_row_cells (cells : List (Int × Int)) (y : Int) : Nat :=
  cells.countP (fun p => p.2 ≤ y ∧ row_count cells p.2 = 10)

/-- Whether a command is the reset. -/
def is_reset : Command → Bool
  | Command.reset _ _ => true
  | _ => false

/-- The steps in which the code reaches `game_fix_piece`: in a session in play, a
move with `dy > 0` that collides, a hard drop, or a tick that reaches the fall
interval while the piece collides one row down. -/
def fix_step (game : GameState) : Command → Prop
  | Command.move dx dy _ =>
    game.game_over = false ∧ game.paused = false ∧
    game_check_collision game.current_piece game.fixed_blocks dx dy = true ∧ dy > 0
  | Command.hardDrop _ => game.game_over = false ∧ game.paused = false
  | Command.tick delta_time _ =>
    game.game_over = false ∧ game.paused = false ∧
    game.fall_timer + delta_time ≥ game.fall_speed ∧
    game_check_collision game.current_piece game.fixed_blocks 0 1 = true
  | _ => False

/-- The descent as the specification words it: `game_move_piece(game, 0, 1)` is
repeated until it first returns false, one unit of fuel per call. -/
def repeated_descent (type : PieceType) : Nat → GameState → Option GameState
  | 0, _ => none
  | fuel + 1, game =>
    match game_move_piece game 0 1 type with
    | some (true, game') => repeated_descent type fuel game'
    | some (false, game') => some game'
    | none => none

/-- The session with `bonus` more points. -/
def add_score (bonus : Int) (game : GameState) : GameState :=
  { game with score := game.score + bonus }

/-- The session with the current piece `j` rows further down. -/
def lowered (game : GameState) (j : Int) : GameState :=
  { game with current_piece := piece_move game.current_piece 0 j }

/-- The session after moving the first piece, a T, three columns to the left:
it stands against the left wall on rows 0 and 1 of the empty grid. -/
def wall_state : GameState :=
  (run_commands (game_init PIECE_T PIECE_O)
    [Command.move (-1) 0 PIECE_I, Command.move (-1) 0 PIECE_I, Command.move (-1) 0 PIECE_I]).getD
    (game_init PIECE_T PIECE_O)

/-- The scan of `list_find` succeeds exactly when some node of the chain is at
the position sought. -/
theorem find_node_isSome_iff (x y : Int) (chain : List Block) :
    (find_node x y chain).isSome = true ↔ ∃ e ∈ chain, e.x = x ∧ e.y = y := by
  induction chain with
  | nil => simp [find_node]
  | cons current next ih =>
    by_cases h : current.x = x ∧ current.y = y
    · simp [find_node, h]
    · simp only [find_node, h, if_false, ih, List.mem_cons]
      constructor
      · rintro ⟨e, he, hxy⟩
        exact ⟨e, Or.inr he, hxy⟩
      · rintro ⟨e, he | he, hxy⟩
        · exact absurd (he ▸ hxy) h
        · exact ⟨e, he, hxy⟩

/-- The scan of `list_remove` over a concatenation: the first match of the front
part if there is one, otherwise the first match of the back part. -/
theorem remove_node_append (x y : Int) (front back : List Block) :
    remove_node x y (front ++ back) =
      match remove_node x y front with
      | some front' => some (front' ++ back)
      | none =>
        match remove_node x y back with
        | some back' => some (front ++ back')
        | none => none := by
  induction front with
  | nil =>
    simp only [List.nil_append, remove_node]
    cases remove_node x y back <;> rfl
  | cons current next ih =>
    rw [List.cons_append, remove_node, remove_node]
    by_cases h : current.x = x ∧ current.y = y
    · rw [if_pos h, if_pos h]
    · rw [if_neg h, if_neg h, ih]
      cases remove_node x y next with
      | some rest => rfl
      | none =>
        cases remove_node x y back <;> rfl

/-- The call `list_remove(list, current->x, current->y)` of the removal loop, on
the chain `visited ++ current :: next`: it succeeds, lowers the counter, and
unlinks the first visited node at the position of `current` if there is one,
otherwise `current` itself.  This is the step `clear_row_loop` takes. -/
theorem list_remove_at_current (visited next : List Block) (current : Block) (count : Int) :
    list_remove { head := visited ++ current :: next, count := count } current.x current.y =
      (true,
        { head :=
            (match remove_node current.x current.y visited with
              | some visited' => visited' ++ [current]
              | none => visited) ++ next,
          count := count - 1 }) := by
  unfold list_remove
  simp only [remove_node_append]
  cases remove_node current.x current.y visited with
  | some visited' => simp
  | none => simp [remove_node]

/-! ### Pieces -/

/-- Moving a piece by `(0, 0)` leaves it as it is. -/
theorem piece_move_zero (piece : Piece) : piece_move piece 0 0 = piece := by
  unfold piece_move
  have hid : (fun current : Block =>
      { current with x := current.x + 0, y := current.y + 0 }) = id := by
    funext b; simp
  rw [hid, List.map_id]

/-! ### Collision -/

/-- One iteration of the collision loop. -/
theorem collision_loop_cons (fixed_blocks : BlockList) (dx dy : Int) (current : Block)
    (next : List Block) :
    collision_loop fixed_blocks dx dy (current :: next) =
      if current.x + dx < 0 ∨ current.x + dx ≥ GRID_WIDTH then true
      else if current.y + dy ≥ GRID_HEIGHT then true
      else if current.y + dy ≥ 0 then
        if (list_find fixed_blocks (current.x + dx) (current.y + dy)).isSome then true
        else collision_loop fixed_blocks dx dy next
      else collision_loop fixed_blocks dx dy next := rfl

/-- The collision loop reports a collision exactly when some node, once shifted,
is beyond a side wall, at or below the floor, or on a fixed block of a visible
row. -/
theorem collision_loop_iff (fixed_blocks : BlockList) (dx dy : Int) (cells : List Block) :
    collision_loop fixed_blocks dx dy cells = true ↔
      ∃ b ∈ cells, b.x + dx < 0 ∨ b.x + dx ≥ GRID_WIDTH ∨ b.y + dy ≥ GRID_HEIGHT ∨
        (b.y + dy ≥ 0 ∧ ∃ e ∈ fixed_blocks.head, e.x = b.x + dx ∧ e.y = b.y + dy) := by
  induction cells with
  | nil => simp [collision_loop]
  | cons current next ih =>
    have hfind := find_node_isSome_iff (current.x + dx) (current.y + dy) fixed_blocks.head
    rw [collision_loop_cons, List.exists_mem_cons_iff, ← ih, list_find]
    by_cases h1 : current.x + dx < 0 ∨ current.x + dx ≥ GRID_WIDTH
    · rw [if_pos h1]
      exact iff_of_true rfl (Or.inl (h1.elim Or.inl (fun h => Or.inr (Or.inl h))))
    · rw [if_neg h1]
      by_cases h2 : current.y + dy ≥ GRID_HEIGHT
      · rw [if_pos h2]
        exact iff_of_true rfl (Or.inl (Or.inr (Or.inr (Or.inl h2))))
      · rw [if_neg h2]
        by_cases h3 : current.y + dy ≥ 0
        · rw [if_pos h3]
          by_cases h4 :
              (find_node (current.x + dx) (current.y + dy) fixed_blocks.head).isSome = true
          · rw [if_pos h4]
            exact iff_of_true rfl (Or.inl (Or.inr (Or.inr (Or.inr ⟨h3, hfind.mp h4⟩))))
          · rw [if_neg h4]
            constructor
            · exact Or.inr
            · rintro ((h | h | h | ⟨_, h⟩) | h)
              · exact absurd (Or.inl h) h1
              · exact absurd (Or.inr h) h1
              · exact absurd h h2
              · exact absurd (hfind.mpr h) h4
              · exact h
        · rw [if_neg h3]
          constructor
          · exact Or.inr
          · rintro ((h | h | h | ⟨h, _⟩) | h)
            · exact absurd (Or.inl h) h1
            · exact absurd (Or.inr h) h1
            · exact absurd h h2
            · exact absurd h h3
            · exact h

/-- Claim C1: `game_check_collision` is true exactly when some cell `(x, y)` of
the piece has `x + dx < 0`, or `x + dx >= 10`, or `y + dy >= 20`, or
`y + dy >= 0` with a grid entry at `(x + dx, y + dy)`.  A cell whose shifted row
is negative is tested against the side walls only. -/
theorem check_collision_iff (piece : Piece) (grid : BlockList) (dx dy : Int) :
    game_check_collision piece grid dx dy = true ↔
      ∃ b ∈ piece.blocks.head,
        b.x + dx < 0 ∨ b.x + dx ≥ 10 ∨ b.y + dy ≥ 20 ∨
          (b.y + dy ≥ 0 ∧ ∃ e ∈ grid.head, e.x = b.x + dx ∧ e.y = b.y + dy) :=
  collision_loop_iff grid dx dy piece.blocks.head

/-! ### Moving -/

/-- The three outcomes of `game_move_piece`: nothing happens, the piece is
translated, or the piece is fixed. -/
theorem move_piece_cases (game : GameState) (dx dy : Int) (type : PieceType) :
    game_move_piece game dx dy type = some (false, game) ∨
    game_move_piece game dx dy type =
      some (true, { game with current_piece := piece_move game.current_piece dx dy }) ∨
    game_move_piece game dx dy type =
      (game_fix_piece game type).map (fun game' => (false, game')) := by
  unfold game_move_piece
  by_cases h1 : game.game_over = true ∨ game.paused = true
  · rw [if_pos h1]; exact Or.inl rfl
  · rw [if_neg h1]
    by_cases h2 : ¬ game_check_collision game.current_piece game.fixed_blocks dx dy = true
    · rw [if_pos h2]; exact Or.inr (Or.inl rfl)
    · rw [if_neg h2]
      by_cases h3 : dy > 0
      · rw [if_pos h3]
        refine Or.inr (Or.inr ?_)
        cases game_fix_piece game type <;> rfl
      · rw [if_neg h3]; exact Or.inl rfl

/-- Claim C2: in a session that is neither over nor paused, a move to an offset
at which the active piece does not collide returns true, adds `(dx, dy)` to every
cell of the active piece and leaves the grid, the preview piece, score, level,
line total, flags and timers unchanged. -/
theorem move_piece_free (game : GameState) (dx dy : Int) (type : PieceType)
    (hover : game.game_over = false) (hpaused : game.paused = false)
    (hfree : game_check_collision game.current_piece game.fixed_blocks dx dy = false) :
    ∃ game', game_move_piece game dx dy type = some (true, game') ∧
      game'.current_piece.blocks.head = game.current_piece.blocks.head.map
        (fun b => { x := b.x + dx, y := b.y + dy, color := b.color }) ∧
      game'.current_piece.blocks.count = game.current_piece.blocks.count ∧
      game'.current_piece.type = game.current_piece.type ∧
      game'.current_piece.rotation = game.current_piece.rotation ∧
      game'.fixed_blocks = game.fixed_blocks ∧
      game'.next_piece = game.next_piece ∧
      game'.score = game.score ∧
      game'.level = game.level ∧
      game'.lines_cleared = game.lines_cleared ∧
      game'.game_over = game.game_over ∧
      game'.paused = game.paused ∧
      game'.fall_timer = game.fall_timer ∧
      game'.fall_speed = game.fall_speed := by
  refine ⟨{ game with current_piece := piece_move game.current_piece dx dy }, ?_, ?_⟩
  · simp [game_move_piece, hover, hpaused, hfree]
  · simp [piece_move]

/-- Claim C2 at a concrete session: the freshly spawned T piece moves one column
to the right. -/
theorem move_piece_free_witness :
    ∃ game', game_move_piece (game_init PIECE_T PIECE_O) 1 0 PIECE_I = some (true, game') ∧
      game'.current_piece.blocks.head = (game_init PIECE_T PIECE_O).current_piece.blocks.head.map
        (fun b => { x := b.x + 1, y := b.y + 0, color := b.color }) ∧
      game'.current_piece.blocks.count = (game_init PIECE_T PIECE_O).current_piece.blocks.count ∧
      game'.current_piece.type = (game_init PIECE_T PIECE_O).current_piece.type ∧
      game'.current_piece.rotation = (game_init PIECE_T PIECE_O).current_piece.rotation ∧
      game'.fixed_blocks = (game_init PIECE_T PIECE_O).fixed_blocks ∧
      game'.next_piece = (game_init PIECE_T PIECE_O).next_piece ∧
      game'.score = (game_init PIECE_T PIECE_O).score ∧
      game'.level = (game_init PIECE_T PIECE_O).level ∧
      game'.lines_cleared = (game_init PIECE_T PIECE_O).lines_cleared ∧
      game'.game_over = (game_init PIECE_T PIECE_O).game_over ∧
      game'.paused = (game_init PIECE_T PIECE_O).paused ∧
      game'.fall_timer = (game_init PIECE_T PIECE_O).fall_timer ∧
      game'.fall_speed = (game_init PIECE_T PIECE_O).fall_speed :=
  move_piece_free (game_init PIECE_T PIECE_O) 1 0 PIECE_I rfl rfl (by decide)

/-- Claim C3: in a session that is neither over nor paused, a move with `dy > 0`
to an offset at which the active piece collides returns false, and the session
it leaves is the one `game_fix_piece` produces from the unmoved session. -/
theorem move_piece_blocked_down (game : GameState) (dx dy : Int) (type : PieceType)
    (hover : game.game_over = false) (hpaused : game.paused = false)
    (hblocked : game_check_collision game.current_piece game.fixed_blocks dx dy = true)
    (hdy : dy > 0) :
    game_move_piece game dx dy type =
      (game_fix_piece game type).map (fun game' => (false, game')) := by
  simp only [game_move_piece, hover, hpaused, hblocked, hdy]
  cases game_fix_piece game type <;> simp

/-- Claim C3 at a concrete session: a T piece resting on the floor is fixed by a
downward move, and the fix returns a session. -/
theorem move_piece_blocked_down_witness :
    game_check_collision landed_state.current_piece landed_state.fixed_blocks 0 1 = true ∧
    (game_fix_piece landed_state PIECE_I).isSome = true ∧
    game_move_piece landed_state 0 1 PIECE_I =
      (game_fix_piece landed_state PIECE_I).map (fun game' => (false, game')) :=
  ⟨by decide, by decide!,
    move_piece_blocked_down landed_state 0 1 PIECE_I rfl rfl (by decide) (by decide)⟩

/-! ### Fixing and scoring -/

/-- The line loop changes nothing but the fixed blocks. -/
theorem check_lines_loop_frame (fuel : Nat) :
    ∀ (game : GameState) (y lines_removed k : Int) (game' : GameState),
      check_lines_loop fuel game y lines_removed = some (k, game') →
      game' = { game with fixed_blocks := game'.fixed_blocks } := by
  induction fuel with
  | zero => intro game y r k game' h; simp [check_lines_loop] at h
  | succ fuel ih =>
    intro game y r k game' h
    unfold check_lines_loop at h
    by_cases hy : y ≥ 0
    · rw [if_pos hy] at h
      by_cases hc : count_row y game.fixed_blocks.head = GRID_WIDTH
      · simp only [hc, if_true] at h
        have := ih _ _ _ _ _ h
        rw [this]
      · simp only [hc, if_false] at h
        exact ih _ _ _ _ _ h
    · rw [if_neg hy] at h
      simp only [Option.some.injEq, Prod.mk.injEq] at h
      rw [← h.2]

/-- The function `game_check_lines` changes nothing but the fixed blocks. -/
theorem check_lines_frame (game : GameState) (k : Int) (game' : GameState)
    (h : game_check_lines game = some (k, game')) :
    game' = { game with fixed_blocks := game'.fixed_blocks } :=
  check_lines_loop_frame _ _ _ _ _ _ h

/-- The fields of the session after `spawn_next`. -/
theorem spawn_next_fields (game : GameState) (type : PieceType) :
    (spawn_next game type).fixed_blocks = game.fixed_blocks ∧
    (spawn_next game type).current_piece = game.next_piece ∧
    (spawn_next game type).next_piece = piece_create type ∧
    (spawn_next game type).score = game.score ∧
    (spawn_next game type).level = game.level ∧
    (spawn_next game type).lines_cleared = game.lines_cleared ∧
    (spawn_next game type).paused = game.paused ∧
    (spawn_next game type).fall_timer = 0 ∧
    (spawn_next game type).fall_speed = game.fall_speed ∧
    (spawn_next game type).game_over =
      (game_check_collision game.next_piece game.fixed_blocks 0 0 || game.game_over) := by
  unfold spawn_next
  cases h : game_check_collision game.next_piece game.fixed_blocks 0 0 <;> simp [h]

/-- Claim C5: when fixing the active piece clears `n` rows, `0 <= n <= 4`, the
score becomes `S + T[n] * L` with `T = {0, 40, 100, 300, 1200}` and `L` the level
before the fix, and the line total grows by exactly `n`. -/
theorem fix_piece_score (game : GameState) (type : PieceType) (n : Int) (game1 : GameState)
    (hclear : game_check_lines (transfer_blocks game) = some (n, game1))
    (hn0 : 0 ≤ n) (hn4 : n ≤ 4) :
    ∃ game' t, game_fix_piece game type = some game' ∧
      ([0, 40, 100, 300, 1200] : List Int)[n.toNat]? = some t ∧
      game'.score = game.score + t * game.level ∧
      game'.lines_cleared = game.lines_cleared + n := by
  have hfr := check_lines_frame _ _ _ hclear
  have hs : game1.score = game.score := by rw [hfr]; rfl
  have hl : game1.level = game.level := by rw [hfr]; rfl
  have hc : game1.lines_cleared = game.lines_cleared := by rw [hfr]; rfl
  have hscore : ∃ game2 t, apply_score game1 n = some game2 ∧
      ([0, 40, 100, 300, 1200] : List Int)[n.toNat]? = some t ∧
      game2.score = game.score + t * game.level ∧
      game2.lines_cleared = game.lines_cleared + n := by
    unfold apply_score
    interval_cases n
    · exact ⟨game1, 0, rfl, rfl, by rw [hs]; simp, by rw [hc]; simp⟩
    · exact ⟨_, 40, rfl, rfl, by show game1.score + 40 * game1.level = _; rw [hs, hl],
        by show game1.lines_cleared + 1 = _; rw [hc]⟩
    · exact ⟨_, 100, rfl, rfl, by show game1.score + 100 * game1.level = _; rw [hs, hl],
        by show game1.lines_cleared + 2 = _; rw [hc]⟩
    · exact ⟨_, 300, rfl, rfl, by show game1.score + 300 * game1.level = _; rw [hs, hl],
        by show game1.lines_cleared + 3 = _; rw [hc]⟩
    · exact ⟨_, 1200, rfl, rfl, by show game1.score + 1200 * game1.level = _; rw [hs, hl],
        by show game1.lines_cleared + 4 = _; rw [hc]⟩
  obtain ⟨game2, t, h2, ht, hsc, hlc⟩ := hscore
  have hf := spawn_next_fields game2 type
  refine ⟨spawn_next game2 type, t, ?_, ht, ?_, ?_⟩
  · unfold game_fix_piece
    rw [hclear]
    simp only [h2]
  · rw [hf.2.2.2.1]; exact hsc
  · rw [hf.2.2.2.2.2.1]; exact hlc

/-- Claim C5 at a concrete session: completing four rows at level 3 adds
`1200 * 3` to the score and 4 to the line total. -/
theorem fix_piece_score_witness :
    game_check_lines (transfer_blocks tetris_state)
      = some (4, { tetris_state with fixed_blocks := { head := [], count := 0 } }) ∧
    tetris_state.level = 3 ∧
    ∃ game' t, game_fix_piece tetris_state PIECE_T = some game' ∧
      ([0, 40, 100, 300, 1200] : List Int)[(4 : Int).toNat]? = some t ∧
      game'.score = tetris_state.score + t * tetris_state.level ∧
      game'.lines_cleared = tetris_state.lines_cleared + 4 :=
  ⟨by decide!, rfl,
    fix_piece_score tetris_state PIECE_T 4
      { tetris_state with fixed_blocks := { head := [], count := 0 } } (by decide!) (by decide) (by decide)⟩

/-! ### The level invariant -/

/-- The scoring block keeps the level invariant. -/
theorem apply_score_level (game game' : GameState) (lines : Int)
    (hinv : LevelInv game) (h : apply_score game lines = some game') : LevelInv game' := by
  unfold apply_score at h
  by_cases hl : lines > 0
  · rw [if_pos hl] at h
    cases hp : points[lines.toNat]? with
    | none => simp [hp] at h
    | some p =>
      simp only [hp, Option.some.injEq] at h
      rw [← h]
      exact ⟨by show 0 ≤ game.lines_cleared + lines; have := hinv.1; omega, rfl⟩
  · rw [if_neg hl] at h
    simp only [Option.some.injEq] at h
    rw [← h]; exact hinv

/-- Fixing a piece keeps the level invariant. -/
theorem fix_piece_level (game game' : GameState) (type : PieceType)
    (hinv : LevelInv game) (h : game_fix_piece game type = some game') : LevelInv game' := by
  unfold game_fix_piece at h
  cases hcl : game_check_lines (transfer_blocks game) with
  | none => simp [hcl] at h
  | some res =>
    obtain ⟨lines, game1⟩ := res
    have hfr := check_lines_frame _ _ _ hcl
    have hinv1 : LevelInv game1 := by
      rw [hfr]; exact hinv
    simp only [hcl] at h
    cases hsc : apply_score game1 lines with
    | none => simp [hsc] at h
    | some game2 =>
      simp only [hsc, Option.some.injEq] at h
      have hinv2 := apply_score_level _ _ _ hinv1 hsc
      have hf := spawn_next_fields game2 type
      rw [← h]
      exact ⟨by rw [hf.2.2.2.2.2.1]; exact hinv2.1, by rw [hf.2.2.2.2.1, hf.2.2.2.2.2.1]; exact hinv2.2⟩

/-- Moving keeps the level invariant. -/
theorem move_piece_level (game game' : GameState) (dx dy : Int) (type : PieceType) (b : Bool)
    (hinv : LevelInv game) (h : game_move_piece game dx dy type = some (b, game')) :
    LevelInv game' := by
  rcases move_piece_cases game dx dy type with hc | hc | hc
  · rw [hc] at h
    simp only [Option.some.injEq, Prod.mk.injEq] at h; rw [← h.2]; exact hinv
  · rw [hc] at h
    simp only [Option.some.injEq, Prod.mk.injEq] at h; rw [← h.2]; exact hinv
  · rw [hc] at h
    cases hf : game_fix_piece game type with
    | none => simp [hf] at h
    | some g =>
      simp only [hf, Option.map_some', Option.some.injEq, Prod.mk.injEq] at h
      rw [← h.2]; exact fix_piece_level _ _ _ hinv hf

/-- The outcomes of `game_rotate_piece`: the session is unchanged, or only the
current piece changes. -/
theorem rotate_piece_cases (game : GameState) :
    game_rotate_piece game = (false, game) ∨
    ∃ d : Int, game_rotate_piece game =
      (true, { game with current_piece := piece_move (piece_rotate game.current_piece) d 0 }) ∨
      game_rotate_piece game =
      (true, { game with current_piece := piece_rotate game.current_piece }) := by
  unfold game_rotate_piece
  by_cases h1 : game.game_over = true ∨ game.paused = true
  · rw [if_pos h1]; exact Or.inl rfl
  · rw [if_neg h1]
    dsimp only
    by_cases h2 : ¬ game_check_collision (piece_rotate (piece_copy game.current_piece))
        game.fixed_blocks 0 0 = true
    · rw [if_pos h2]; exact Or.inr ⟨0, Or.inr rfl⟩
    · rw [if_neg h2]
      by_cases h3 : ¬ game_check_collision (piece_rotate (piece_copy game.current_piece))
          game.fixed_blocks 1 0 = true
      · rw [if_pos h3]; exact Or.inr ⟨1, Or.inl rfl⟩
      · rw [if_neg h3]
        by_cases h4 : ¬ game_check_collision (piece_rotate (piece_copy game.current_piece))
            game.fixed_blocks (-1) 0 = true
        · rw [if_pos h4]; exact Or.inr ⟨-1, Or.inl rfl⟩
        · rw [if_neg h4]; exact Or.inl rfl

/-- Rotating keeps the level invariant. -/
theorem rotate_piece_level (game : GameState) (hinv : LevelInv game) :
    LevelInv (game_rotate_piece game).2 := by
  rcases rotate_piece_cases game with hc | ⟨d, hc | hc⟩ <;> rw [hc] <;> exact hinv

/-- The descent loop keeps the level invariant. -/
theorem drop_loop_level (fuel : Nat) : ∀ (game game' : GameState),
    LevelInv game → drop_loop fuel game = some game' → LevelInv game' := by
  induction fuel with
  | zero => intro game game' _ h; simp [drop_loop] at h
  | succ fuel ih =>
    intro game game' hinv h
    unfold drop_loop at h
    by_cases h1 : ¬ game_check_collision game.current_piece game.fixed_blocks 0 1 = true
    · rw [if_pos h1] at h
      exact ih _ _ (show LevelInv { game with
        current_piece := piece_move game.current_piece 0 1,
        score := game.score + 2 } from hinv) h
    · rw [if_neg h1] at h
      simp only [Option.some.injEq] at h; rw [← h]; exact hinv

/-- A hard drop keeps the level invariant. -/
theorem drop_piece_level (game game' : GameState) (type : PieceType)
    (hinv : LevelInv game) (h : game_drop_piece game type = some game') : LevelInv game' := by
  unfold game_drop_piece at h
  by_cases h1 : game.game_over = true ∨ game.paused = true
  · rw [if_pos h1] at h
    simp only [Option.some.injEq] at h; rw [← h]; exact hinv
  · rw [if_neg h1] at h
    cases hd : drop_loop (descent_fuel game.current_piece) game with
    | none => simp [hd] at h
    | some g =>
      simp only [hd] at h
      exact fix_piece_level _ _ _ (drop_loop_level _ _ _ hinv hd) h

/-- A tick keeps the level invariant. -/
theorem update_level (game game' : GameState) (delta_time : ℚ) (type : PieceType)
    (hinv : LevelInv game) (h : game_update game delta_time type = some game') :
    LevelInv game' := by
  unfold game_update at h
  by_cases h1 : game.game_over = true ∨ game.paused = true
  · rw [if_pos h1] at h
    simp only [Option.some.injEq] at h; rw [← h]; exact hinv
  · rw [if_neg h1] at h
    dsimp only at h
    by_cases h2 : game.fall_timer + delta_time ≥ game.fall_speed
    · rw [if_pos h2] at h
      cases hm : game_move_piece { game with fall_timer := game.fall_timer + delta_time } 0 1 type with
      | none => simp [hm] at h
      | some res =>
        obtain ⟨b, g⟩ := res
        simp only [hm, Option.some.injEq] at h
        have := move_piece_level _ _ _ _ _ _
          (show LevelInv { game with fall_timer := game.fall_timer + delta_time } from hinv) hm
        rw [← h]; exact this
    · rw [if_neg h2] at h
      simp only [Option.some.injEq] at h; rw [← h]; exact hinv

/-- Every command keeps the level invariant. -/
theorem run_command_level (game game' : GameState) (command : Command)
    (hinv : LevelInv game) (h : run_command game command = some game') : LevelInv game' := by
  cases command with
  | move dx dy type =>
    simp only [run_command, Option.map_eq_some'] at h
    obtain ⟨⟨b, g⟩, hm, hg⟩ := h
    subst hg
    exact move_piece_level _ _ _ _ _ _ hinv hm
  | rotate =>
    simp only [run_command, Option.some.injEq] at h
    rw [← h]; exact rotate_piece_level _ hinv
  | hardDrop type => exact drop_piece_level _ _ _ hinv h
  | tick delta_time type => exact update_level _ _ _ _ hinv h
  | togglePause =>
    simp only [run_command, Option.some.injEq] at h
    rw [← h]; exact hinv
  | reset type1 type2 =>
    simp only [run_command, Option.some.injEq] at h
    rw [← h]; exact ⟨le_refl _, rfl⟩

/-- Every reachable session satisfies the level invariant. -/
theorem reachable_level (game : GameState) (h : Reachable game) : LevelInv game := by
  induction h with
  | init type1 type2 => exact ⟨le_refl _, rfl⟩
  | step game game' command _ hrun ih => exact run_command_level _ _ _ ih hrun

/-- A session reached by running a list of commands from a reachable session is
reachable. -/
theorem reachable_run_commands (commands : List Command) :
    ∀ (game game' : GameState), Reachable game →
      run_commands game commands = some game' → Reachable game' := by
  induction commands with
  | nil =>
    intro game game' hr h
    simp only [run_commands, Option.some.injEq] at h
    rw [← h]; exact hr
  | cons command rest ih =>
    intro game game' hr h
    unfold run_commands at h
    cases hc : run_command game command with
    | none => simp [hc] at h
    | some game1 =>
      simp only [hc] at h
      exact ih game1 game' (Reachable.step game game1 command hr hc) h

/-- Claim C6: in every session reachable from `game_init` by move, rotate, hard
drop, tick, pause toggle and reset commands, the level equals
`1 + floor(lines_cleared / 10)` and is at least 1. -/
theorem level_invariant (game : GameState) (h : Reachable game) :
    game.level = 1 + ⌊(game.lines_cleared : ℚ) / 10⌋ ∧ game.level ≥ 1 := by
  obtain ⟨h0, hl⟩ := reachable_level game h
  have hdiv : Int.tdiv game.lines_cleared 10 = game.lines_cleared / 10 :=
    Int.tdiv_eq_ediv h0 (by decide)
  have hfloor : ⌊(game.lines_cleared : ℚ) / 10⌋ = game.lines_cleared / 10 := by
    have := Rat.floor_intCast_div_natCast game.lines_cleared 10
    simpa using this
  rw [hfloor, hl, hdiv]
  refine ⟨rfl, ?_⟩
  have : 0 ≤ game.lines_cleared / 10 := Int.ediv_nonneg h0 (by decide)
  omega

/-- Claim C6 at a concrete session: after a play that clears one line the level
is still 1. -/
theorem level_invariant_witness :
    line_state.lines_cleared = 1 ∧
    line_state.level = 1 + ⌊(line_state.lines_cleared : ℚ) / 10⌋ ∧ line_state.level ≥ 1 :=
  ⟨by decide!,
    level_invariant line_state
      (reachable_run_commands line_play (game_init PIECE_I PIECE_I) line_state
        (Reachable.init PIECE_I PIECE_I) (by decide!))⟩

/-! ### Rotation -/

/-- Claim C7: in a session that is neither over nor paused, the rotated clone is
tried at the horizontal offsets 0, then +1, then -1; for the first offset `d` in
that order at which it does not collide, `game_rotate_piece` returns true and the
active piece becomes the rotated piece translated by `(d, 0)`, nothing else
changing. -/
theorem rotate_piece_first_free (game : GameState) (d : Int)
    (hover : game.game_over = false) (hpaused : game.paused = false)
    (hfirst : ([0, 1, -1] : List Int).find? (fun d =>
      !game_check_collision (piece_rotate (piece_copy game.current_piece)) game.fixed_blocks d 0)
        = some d) :
    game_rotate_piece game =
      (true, { game with current_piece := piece_move (piece_rotate game.current_piece) d 0 }) := by
  unfold game_rotate_piece
  simp only [hover, hpaused, Bool.false_eq_true, or_self, if_false]
  simp only [List.find?] at hfirst
  cases h0 : game_check_collision (piece_rotate (piece_copy game.current_piece)) game.fixed_blocks 0 0
  · simp only [h0, Bool.not_false, Option.some.injEq] at hfirst
    subst hfirst
    simp [piece_move_zero]
  · cases h1 : game_check_collision (piece_rotate (piece_copy game.current_piece)) game.fixed_blocks 1 0
    · simp only [h0, h1, Bool.not_false, Bool.not_true, Option.some.injEq] at hfirst
      subst hfirst
      simp
    · cases h2 : game_check_collision (piece_rotate (piece_copy game.current_piece)) game.fixed_blocks (-1) 0
      · simp only [h0, h1, h2, Bool.not_false, Bool.not_true, Option.some.injEq] at hfirst
        subst hfirst
        simp
      · simp [h0, h1, h2] at hfirst

/-- Claim C7 at a concrete session: a T piece against the left wall whose rotation
in place collides is rotated and shifted right by one column. -/
theorem rotate_piece_first_free_witness :
    kick_state.game_over = false ∧ kick_state.paused = false ∧
    game_check_collision (piece_rotate (piece_copy kick_state.current_piece))
      kick_state.fixed_blocks 0 0 = true ∧
    game_check_collision (piece_rotate (piece_copy kick_state.current_piece))
      kick_state.fixed_blocks 1 0 = false ∧
    game_rotate_piece kick_state =
      (true, { kick_state with
        current_piece := piece_move (piece_rotate kick_state.current_piece) 1 0 }) :=
  ⟨rfl, rfl, by decide!, by decide!,
    rotate_piece_first_free kick_state 1 rfl rfl (by decide!)⟩

/-- Claim C8: in a session that is neither over nor paused, `game_rotate_piece`
returns false exactly when the rotated clone collides at the offsets `(0, 0)`,
`(1, 0)` and `(-1, 0)`, and then the whole session is unchanged. -/
theorem rotate_piece_rejected (game : GameState)
    (hover : game.game_over = false) (hpaused : game.paused = false) :
    ((game_rotate_piece game).1 = false ↔
      (game_check_collision (piece_rotate (piece_copy game.current_piece))
          game.fixed_blocks 0 0 = true ∧
        game_check_collision (piece_rotate (piece_copy game.current_piece))
          game.fixed_blocks 1 0 = true ∧
        game_check_collision (piece_rotate (piece_copy game.current_piece))
          game.fixed_blocks (-1) 0 = true)) ∧
    ((game_rotate_piece game).1 = false → (game_rotate_piece game).2 = game) := by
  unfold game_rotate_piece
  simp only [hover, hpaused, Bool.false_eq_true, or_self, if_false]
  cases h0 : game_check_collision (piece_rotate (piece_copy game.current_piece)) game.fixed_blocks 0 0 <;>
  cases h1 : game_check_collision (piece_rotate (piece_copy game.current_piece)) game.fixed_blocks 1 0 <;>
  cases h2 : game_check_collision (piece_rotate (piece_copy game.current_piece)) game.fixed_blocks (-1) 0 <;>
  simp

/-- Claim C8 at a concrete session: an I piece lying on the bottom row cannot be
rotated, and the session stays as it is. -/
theorem rotate_piece_rejected_witness :
    (game_rotate_piece stuck_state).1 = false ∧
    ((game_rotate_piece stuck_state).1 = false ↔
      (game_check_collision (piece_rotate (piece_copy stuck_state.current_piece))
          stuck_state.fixed_blocks 0 0 = true ∧
        game_check_collision (piece_rotate (piece_copy stuck_state.current_piece))
          stuck_state.fixed_blocks 1 0 = true ∧
        game_check_collision (piece_rotate (piece_copy stuck_state.current_piece))
          stuck_state.fixed_blocks (-1) 0 = true)) ∧
    ((game_rotate_piece stuck_state).1 = false →
      (game_rotate_piece stuck_state).2 = stuck_state) :=
  ⟨by decide!, rotate_piece_rejected stuck_state rfl rfl⟩

/-- Claim C9, the code at the freshly spawned T piece: the centre is `(4, 3/4)`;
`piece_rotate` truncates the images `(4.75, 0.75)`, `(3.75, -0.25)`, `(3.75, 0.75)`,
`(3.75, 1.75)` to `(4, 0)`, `(3, 0)`, `(3, 0)`, `(3, 1)`, two of which coincide,
whereas rounding gives the four cells `(5, 1)`, `(4, 0)`, `(4, 1)`, `(4, 2)`. -/
theorem rotate_truncates_spawned_T :
    positions (piece_create PIECE_T).blocks.head = [(4, 0), (3, 1), (4, 1), (5, 1)] ∧
    piece_get_center (piece_create PIECE_T) = (4, 3 / 4) ∧
    positions (piece_rotate (piece_create PIECE_T)).blocks.head
      = [(4, 0), (3, 0), (3, 0), (3, 1)] ∧
    positions (piece_rotate_rounded (piece_create PIECE_T)).blocks.head
      = [(5, 1), (4, 0), (4, 1), (4, 2)] ∧
    (piece_rotate (piece_create PIECE_T)).rotation = 1 :=
  ⟨by decide, by decide!, by decide!, by decide!, by decide⟩

/-! ### Distinct grid positions -/

/-- Claim C10, the code on a reachable session: from a start whose first piece is
a T, one rotation and a hard drop leave the grid with two entries at `(3, 18)`. -/
theorem grid_duplicate_reachable :
    Reachable dup_state ∧
    positions dup_state.fixed_blocks.head = [(4, 18), (3, 18), (3, 18), (3, 19)] ∧
    ¬ (positions dup_state.fixed_blocks.head).Nodup := by
  have hrun : run_commands (game_init PIECE_T PIECE_O)
      [Command.rotate, Command.hardDrop PIECE_I] = some dup_state := by decide!
  have hpos : positions dup_state.fixed_blocks.head
      = [(4, 18), (3, 18), (3, 18), (3, 19)] := by decide!
  refine ⟨reachable_run_commands _ _ _ (Reachable.init PIECE_T PIECE_O) hrun, hpos, ?_⟩
  rw [hpos]
  decide

/-! ### Line clearing -/

/-- The counting loop counts the cells of the row. -/
theorem count_row_eq (y : Int) (chain : List Block) :
    count_row y chain = (row_count (positions chain) y : Int) := by
  induction chain with
  | nil => rfl
  | cons current next ih =>
    unfold count_row
    by_cases h : current.y = y
    · rw [if_pos h, ih]
      simp [row_count, positions, List.countP_cons, h]
    · rw [if_neg h, ih]
      simp [row_count, positions, List.countP_cons, h]

/-- A successful scan of `list_remove` takes one node at the position sought out of
the chain. -/
theorem remove_node_perm (x y : Int) : ∀ (chain chain' : List Block),
    remove_node x y chain = some chain' →
    (positions chain).Perm ((x, y) :: positions chain') := by
  intro chain
  induction chain with
  | nil => intro chain' h; simp [remove_node] at h
  | cons current next ih =>
    intro chain' h
    unfold remove_node at h
    by_cases hc : current.x = x ∧ current.y = y
    · rw [if_pos hc] at h
      simp only [Option.some.injEq] at h
      subst h
      simp [positions, hc.1, hc.2]
    · rw [if_neg hc] at h
      cases hr : remove_node x y next with
      | none => simp [hr] at h
      | some rest =>
        simp only [hr, Option.some.injEq] at h
        subst h
        have := ih rest hr
        have h2 : (positions (current :: next)).Perm
            ((current.x, current.y) :: (x, y) :: positions rest) := by
          simpa [positions] using this
        exact h2.trans (List.Perm.swap _ _ _)

/-- The positions of a concatenation. -/
theorem positions_append (a b : List Block) :
    positions (a ++ b) = positions a ++ positions b := by
  simp [positions]

/-- A cell on the cleared row is dropped. -/
theorem kept_cells_cons_on (y : Int) (p : Int × Int) (cells : List (Int × Int)) (h : p.2 = y) :
    kept_cells y (p :: cells) = kept_cells y cells := by
  simp [kept_cells, h]

/-- A cell off the cleared row is kept, shifted if it lies above. -/
theorem kept_cells_cons_off (y : Int) (p : Int × Int) (cells : List (Int × Int)) (h : p.2 ≠ y) :
    kept_cells y (p :: cells) = shift_down y p :: kept_cells y cells := by
  simp [kept_cells, h]

/-- The removal loop leaves, up to order, the visited cells followed by the kept
cells of the pending ones, and lowers the counter by the number of pending nodes
on the row. -/
theorem clear_row_loop_perm (y : Int) : ∀ (pending visited : List Block) (count : Int),
    (positions (clear_row_loop y visited pending count).1).Perm
      (positions visited ++ kept_cells y (positions pending)) ∧
    (clear_row_loop y visited pending count).2 = count - count_row y pending := by
  intro pending
  induction pending with
  | nil =>
    intro visited count
    simp [clear_row_loop, kept_cells, positions, count_row]
  | cons current next ih =>
    intro visited count
    unfold clear_row_loop
    have hpos : positions (current :: next) = (current.x, current.y) :: positions next := rfl
    by_cases h1 : current.y = y
    · rw [if_pos h1, hpos, kept_cells_cons_on y _ _ h1]
      have hcnt : count_row y (current :: next) = count_row y next + 1 := by
        simp [count_row, h1]
      cases hr : remove_node current.x current.y visited with
      | some visited' =>
        simp only []
        obtain ⟨ihp, ihc⟩ := ih (visited' ++ [current]) (count - 1)
        refine ⟨ihp.trans ?_, by rw [ihc, hcnt]; omega⟩
        apply List.Perm.append_right
        have hp := remove_node_perm _ _ _ _ hr
        rw [positions_append]
        have : (positions visited' ++ positions [current]).Perm
            ((current.x, current.y) :: positions visited') := by
          simp [positions]
        exact this.trans hp.symm
      | none =>
        simp only []
        obtain ⟨ihp, ihc⟩ := ih visited (count - 1)
        exact ⟨ihp, by rw [ihc, hcnt]; omega⟩
    · rw [if_neg h1]
      have hcnt : count_row y (current :: next) = count_row y next := by
        simp [count_row, h1]
      rw [hpos, kept_cells_cons_off y _ _ h1, hcnt]
      by_cases h2 : current.y < y
      · rw [if_pos h2]
        obtain ⟨ihp, ihc⟩ := ih (visited ++ [{ current with y := current.y + 1 }]) count
        refine ⟨?_, ihc⟩
        have hs : shift_down y (current.x, current.y) = (current.x, current.y + 1) := by
          simp [shift_down, h2]
        rw [hs]
        simpa [positions_append, positions] using ihp
      · rw [if_neg h2]
        obtain ⟨ihp, ihc⟩ := ih (visited ++ [current]) count
        refine ⟨?_, ihc⟩
        have hs : shift_down y (current.x, current.y) = (current.x, current.y) := by
          simp [shift_down, h2]
        rw [hs]
        simpa [positions_append, positions] using ihp

/-- Clearing a row leaves the kept cells, up to order. -/
theorem clear_row_perm (list : BlockList) (y : Int) :
    (positions (clear_row list y).head).Perm (kept_cells y (positions list.head)) := by
  have := (clear_row_loop_perm y list.head [] list.count).1
  simpa [clear_row, positions] using this

/-- The row count of a list with one more cell. -/
theorem row_count_cons (p : Int × Int) (cells : List (Int × Int)) (r : Int) :
    row_count (p :: cells) r = row_count cells r + (if p.2 = r then 1 else 0) := by
  simp [row_count, List.countP_cons]

/-- The row counts after a clear: a row down to the cleared one takes the count of
the row above it. -/
theorem row_count_kept (y : Int) (cells : List (Int × Int)) (r : Int) :
    row_count (kept_cells y cells) r =
      if r ≤ y then row_count cells (r - 1) else row_count cells r := by
  induction cells with
  | nil => simp [kept_cells, row_count]
  | cons p rest ih =>
    by_cases h1 : p.2 = y
    · rw [kept_cells_cons_on y p rest h1, ih, row_count_cons, row_count_cons]
      by_cases hr : r ≤ y
      · rw [if_pos hr, if_pos hr, if_neg (by omega), Nat.add_zero]
      · rw [if_neg hr, if_neg hr, if_neg (by omega), Nat.add_zero]
    · rw [kept_cells_cons_off y p rest h1, row_count_cons, ih, row_count_cons, row_count_cons]
      by_cases h2 : p.2 < y
      · have hs : (shift_down y p).2 = p.2 + 1 := by simp [shift_down, h2]
        rw [hs]
        by_cases hr : r ≤ y
        · rw [if_pos hr, if_pos hr]
          by_cases h3 : p.2 + 1 = r
          · rw [if_pos h3, if_pos (by omega)]
          · rw [if_neg h3, if_neg (by omega)]
        · rw [if_neg hr, if_neg hr, if_neg (by omega), if_neg (by omega)]
      · have hs : (shift_down y p).2 = p.2 := by simp [shift_down, h2]
        rw [hs]
        by_cases hr : r ≤ y
        · rw [if_pos hr, if_pos hr, if_neg (by omega), if_neg (by omega)]
        · rw [if_neg hr, if_neg hr]

/-- Row counts do not depend on the order of the cells. -/
theorem row_count_perm (a b : List (Int × Int)) (h : a.Perm b) (r : Int) :
    row_count a r = row_count b r := by
  unfold row_count
  exact h.countP_eq _

/-- A grid without negative rows has no cell on a negative row. -/
theorem row_count_of_bounds (cells : List (Int × Int)) (h : ∀ p ∈ cells, 0 ≤ p.2) (r : Int)
    (hr : r < 0) : row_count cells r = 0 := by
  unfold row_count
  rw [List.countP_eq_zero]
  intro p hp
  have := h p hp
  simp only [decide_eq_true_eq]
  omega

/-- No row lies below row 0. -/
theorem full_rows_between_zero (cells : List (Int × Int)) (t : Int) :
    full_rows_between cells 0 t = 0 := by
  simp [full_rows_between]

/-- Counting full rows one row further. -/
theorem full_rows_between_succ (cells : List (Int × Int)) (n : Nat) (t : Int) :
    full_rows_between cells (n + 1) t =
      full_rows_between cells n t +
        (if t < (n : Int) ∧ row_count cells (n : Int) = 10 then 1 else 0) := by
  unfold full_rows_between
  rw [List.range_succ, List.filter_append, List.length_append]
  by_cases h : t < (n : Int) ∧ row_count cells (n : Int) = 10
  · rw [if_pos h]; simp [h]
  · rw [if_neg h]; simp [h]

/-- The full-row count depends on the row counts only. -/
theorem full_rows_between_congr (a b : List (Int × Int)) (h : ∀ r, row_count a r = row_count b r)
    (n : Nat) (t : Int) : full_rows_between a n t = full_rows_between b n t := by
  unfold full_rows_between
  simp only [h]

/-- After a clear of the full row `m`, the full rows below `j + 1` and above `t + 1`
are the former full rows below `j` and above `t`, one row lower. -/
theorem full_rows_between_kept (cells : List (Int × Int)) (m : Nat)
    (hb : ∀ p ∈ cells, 0 ≤ p.2) (t : Int) :
    ∀ j : Nat, j ≤ m →
      full_rows_between (kept_cells m cells) (j + 1) (t + 1) = full_rows_between cells j t := by
  intro j
  induction j with
  | zero =>
    intro _
    rw [full_rows_between_succ, full_rows_between_zero, full_rows_between_zero]
    have h0 : row_count (kept_cells (m : Int) cells) ((0 : Nat) : Int) = 0 := by
      rw [row_count_kept, if_pos (by omega)]
      exact row_count_of_bounds cells hb _ (by omega)
    rw [if_neg (by rw [h0]; omega)]
  | succ j ih =>
    intro hj
    rw [full_rows_between_succ, ih (by omega), full_rows_between_succ cells j t]
    have hk : row_count (kept_cells (m : Int) cells) ((j + 1 : Nat) : Int)
        = row_count cells (j : Int) := by
      rw [row_count_kept, if_pos (by omega)]
      congr 1
      omega
    rw [hk]
    by_cases h : t < (j : Int) ∧ row_count cells (j : Int) = 10
    · rw [if_pos h, if_pos ⟨by omega, h.2⟩]
    · rw [if_neg h, if_neg (fun h' => h ⟨by omega, h'.2⟩)]

/-- The kept cells and the cells of the cleared row make up the grid. -/
theorem kept_cells_length (y : Int) (cells : List (Int × Int)) :
    (kept_cells y cells).length + row_count cells y = cells.length := by
  induction cells with
  | nil => simp [kept_cells, row_count]
  | cons p rest ih =>
    by_cases h : p.2 = y
    · rw [kept_cells_cons_on y p rest h, row_count_cons, if_pos h, List.length_cons]
      omega
    · rw [kept_cells_cons_off y p rest h, row_count_cons, if_neg h, List.length_cons,
        List.length_cons]
      omega

/-- Clearing a row creates no negative row. -/
theorem kept_cells_bounds (y : Int) (cells : List (Int × Int)) (hb : ∀ p ∈ cells, 0 ≤ p.2) :
    ∀ p ∈ kept_cells y cells, 0 ≤ p.2 := by
  intro p hp
  simp only [kept_cells, List.mem_map, List.mem_filter] at hp
  obtain ⟨q, ⟨hq, _⟩, hqp⟩ := hp
  have := hb q hq
  rw [← hqp]
  unfold shift_down
  split_ifs
  · show 0 ≤ q.2 + 1
    omega
  · exact this

/-- Nothing collapses below row 0. -/
theorem collapse_zero (cells : List (Int × Int)) (hb : ∀ p ∈ cells, 0 ≤ p.2) :
    collapse cells 0 = cells := by
  unfold collapse
  have hf : cells.filter (fun p => ¬ (p.2 < ((0 : Nat) : Int) ∧ row_count cells p.2 = 10))
      = cells := by
    rw [List.filter_eq_self]
    intro p hp
    have := hb p hp
    simp only [decide_eq_true_eq]
    omega
  rw [hf]
  conv_rhs => rw [← List.map_id cells]
  apply List.map_congr_left
  intro p hp
  have := hb p hp
  rw [if_neg (by omega)]
  rfl

/-- A row that is not full adds nothing to the collapse. -/
theorem collapse_succ_of_not_full (cells : List (Int × Int)) (m : Nat)
    (hm : row_count cells (m : Int) ≠ 10) :
    collapse cells (m + 1) = collapse cells m := by
  unfold collapse
  have hf : cells.filter (fun p => ¬ (p.2 < ((m + 1 : Nat) : Int) ∧ row_count cells p.2 = 10))
      = cells.filter (fun p => ¬ (p.2 < (m : Int) ∧ row_count cells p.2 = 10)) := by
    apply List.filter_congr
    intro p _
    by_cases hp : p.2 = (m : Int)
    · have h1 : ¬ (p.2 < ((m + 1 : Nat) : Int) ∧ row_count cells p.2 = 10) := by
        rw [hp]; exact fun h => hm h.2
      have h2 : ¬ (p.2 < (m : Int) ∧ row_count cells p.2 = 10) := by
        rw [hp]; exact fun h => hm h.2
      simp only [h1, h2]
    · have : (p.2 < ((m + 1 : Nat) : Int)) ↔ (p.2 < (m : Int)) := by
        constructor <;> intro h <;> omega
      simp only [this]
  rw [hf]
  apply List.map_congr_left
  intro p _
  rw [full_rows_between_succ]
  by_cases h1 : p.2 < (m : Int)
  · rw [if_pos h1, if_pos (by omega), if_neg (fun h => hm h.2), Nat.add_zero]
  · rw [if_neg h1]
    by_cases h2 : p.2 < ((m + 1 : Nat) : Int)
    · rw [if_pos h2, if_neg (fun h => hm h.2)]
      have hp : p.2 = (m : Int) := by omega
      have h0 : full_rows_between cells m p.2 = 0 := by
        unfold full_rows_between
        rw [List.length_eq_zero, List.filter_eq_nil_iff]
        intro q hq
        rw [List.mem_range] at hq
        simp only [decide_eq_true_eq, not_and]
        intro hlt
        omega
      rw [h0]
      simp
    · rw [if_neg h2]

/-- Clearing the full row `m` and collapsing below `m + 1` again is collapsing below
`m + 1` at once. -/
theorem collapse_kept (cells : List (Int × Int)) (m : Nat)
    (hm : row_count cells (m : Int) = 10) (hb : ∀ p ∈ cells, 0 ≤ p.2) :
    collapse (kept_cells (m : Int) cells) (m + 1) = collapse cells (m + 1) := by
  have hrow : ∀ t : Int, t < (m : Int) →
      row_count (kept_cells (m : Int) cells) (t + 1) = row_count cells t := by
    intro t ht
    rw [row_count_kept, if_pos (by omega)]
    congr 1
    omega
  have hbetween : ∀ t : Int, t < (m : Int) →
      full_rows_between cells (m + 1) t
        = full_rows_between (kept_cells (m : Int) cells) (m + 1) (t + 1) + 1 := by
    intro t ht
    rw [full_rows_between_succ, full_rows_between_kept cells m hb t m (le_refl _),
      if_pos ⟨ht, hm⟩]
  unfold collapse
  generalize hfK : (fun p : Int × Int => decide (¬ (p.2 < ((m + 1 : Nat) : Int) ∧
    row_count (kept_cells (m : Int) cells) p.2 = 10))) = fK
  generalize hgK : (fun p : Int × Int => if p.2 < ((m + 1 : Nat) : Int) then
    (p.1, p.2 + (full_rows_between (kept_cells (m : Int) cells) (m + 1) p.2 : Int)) else p) = gK
  unfold kept_cells
  rw [List.filter_map, List.map_map, List.filter_filter]
  subst hfK hgK
  have hf : cells.filter (fun a => ((fun p : Int × Int => decide (¬ (p.2 < ((m + 1 : Nat) : Int) ∧
      row_count (kept_cells (m : Int) cells) p.2 = 10))) ∘ shift_down (m : Int)) a
        && decide (a.2 ≠ (m : Int)))
      = cells.filter (fun p => ¬ (p.2 < ((m + 1 : Nat) : Int) ∧ row_count cells p.2 = 10)) := by
    apply List.filter_congr
    intro p _
    simp only [Function.comp]
    by_cases h1 : p.2 = (m : Int)
    · have h2 : (p.2 < ((m + 1 : Nat) : Int) ∧ row_count cells p.2 = 10) := by
        rw [h1]; exact ⟨by omega, hm⟩
      simp [h1, hm]
    · by_cases h2 : p.2 < (m : Int)
      · have hs : shift_down (m : Int) p = (p.1, p.2 + 1) := by simp [shift_down, h2]
        rw [hs]
        have h3 : (p.2 + 1 < ((m + 1 : Nat) : Int)) := by omega
        have h4 : (p.2 < ((m + 1 : Nat) : Int)) := by omega
        simp only [hrow p.2 h2, h3, h4, true_and, h1, ne_eq, not_false_eq_true, decide_True,
          Bool.and_true]
      · have hs : shift_down (m : Int) p = p := by simp [shift_down, h2]
        rw [hs]
        have h3 : ¬ (p.2 < (m : Int) + 1) := by omega
        simp [h3, h1]
  rw [hf]
  apply List.map_congr_left
  intro p hp
  rw [List.mem_filter] at hp
  simp only [Function.comp]
  by_cases h2 : p.2 < (m : Int)
  · have hs : shift_down (m : Int) p = (p.1, p.2 + 1) := by simp [shift_down, h2]
    rw [hs]
    have h3 : (p.2 + 1 < ((m + 1 : Nat) : Int)) := by omega
    have h4 : (p.2 < ((m + 1 : Nat) : Int)) := by omega
    simp only [h3, h4, if_true, hbetween p.2 h2]
    congr 1
    push_cast
    omega
  · have hs : shift_down (m : Int) p = p := by simp [shift_down, h2]
    rw [hs]
    by_cases h1 : p.2 = (m : Int)
    · exfalso
      have := hp.2
      simp only [decide_eq_true_eq, not_and] at this
      exact this (by omega) (by rw [h1]; exact hm)
    · have h3 : ¬ (p.2 < ((m + 1 : Nat) : Int)) := by omega
      simp only [h3, if_false]

/-- The collapse of a reordered grid is the reordered collapse. -/
theorem collapse_perm (a b : List (Int × Int)) (h : a.Perm b) (n : Nat) :
    (collapse a n).Perm (collapse b n) := by
  unfold collapse
  have hr : ∀ r, row_count a r = row_count b r := row_count_perm a b h
  have hfb : ∀ t, full_rows_between a n t = full_rows_between b n t :=
    full_rows_between_congr a b hr n
  simp only [hr, hfb]
  exact (h.filter _).map _

/-- The line loop started at row `n - 1` on a grid without negative rows, with
fuel for one test per remaining row and one per node: it returns, the number of
removed lines is the number of full rows below `n`, and the cells left are those
of `collapse`, up to order. -/
theorem check_lines_loop_spec : ∀ (fuel n : Nat) (game : GameState) (r : Int),
    (∀ p ∈ positions game.fixed_blocks.head, 0 ≤ p.2) →
    n + 1 + game.fixed_blocks.head.length ≤ fuel →
    ∃ game', check_lines_loop fuel game ((n : Int) - 1) r
        = some (r + (full_rows_between (positions game.fixed_blocks.head) n (-1) : Int), game') ∧
      (positions game'.fixed_blocks.head).Perm (collapse (positions game.fixed_blocks.head) n) := by
  intro fuel
  induction fuel with
  | zero => intro n game r _ hfuel; omega
  | succ fuel ih =>
    intro n game r hb hfuel
    unfold check_lines_loop
    cases n with
    | zero =>
      rw [if_neg (by omega)]
      refine ⟨game, ?_, ?_⟩
      · rw [full_rows_between_zero]; simp
      · rw [collapse_zero _ hb]
    | succ m =>
      rw [if_pos (by omega)]
      have hy : ((m + 1 : Nat) : Int) - 1 = (m : Int) := by omega
      rw [hy]
      simp only [count_row_eq, GRID_WIDTH]
      by_cases hfull : row_count (positions game.fixed_blocks.head) (m : Int) = 10
      · have hfull' : ((row_count (positions game.fixed_blocks.head) (m : Int) : Nat) : Int) = 10 := by
          rw [hfull]; rfl
        rw [if_pos hfull']
        have hperm := clear_row_perm game.fixed_blocks (m : Int)
        have hlen : (clear_row game.fixed_blocks (m : Int)).head.length + 10
            = game.fixed_blocks.head.length := by
          have h1 := hperm.length_eq
          have h2 := kept_cells_length (m : Int) (positions game.fixed_blocks.head)
          rw [hfull] at h2
          simp only [positions, List.length_map] at h1 h2
          omega
        have hb1 : ∀ p ∈ positions (clear_row game.fixed_blocks (m : Int)).head, 0 ≤ p.2 := by
          intro p hp
          exact kept_cells_bounds _ _ hb p (hperm.mem_iff.mp hp)
        have hy1 : (m : Int) + 1 - 1 = ((m + 1 : Nat) : Int) - 1 := by omega
        rw [hy1]
        obtain ⟨game', hrun, hres⟩ := ih (m + 1)
          { game with fixed_blocks := clear_row game.fixed_blocks (m : Int) } (r + 1) hb1
          (by show m + 1 + 1 + (clear_row game.fixed_blocks (m : Int)).head.length ≤ fuel; omega)
        refine ⟨game', ?_, ?_⟩
        · rw [hrun]
          have hcount : full_rows_between (positions (clear_row game.fixed_blocks (m : Int)).head)
              (m + 1) (-1) + 1
              = full_rows_between (positions game.fixed_blocks.head) (m + 1) (-1) := by
            rw [full_rows_between_congr _ _ (row_count_perm _ _ hperm)]
            have h1 := full_rows_between_kept (positions game.fixed_blocks.head) m hb (-2) m
              (le_refl _)
            have h2 : ((-2 : Int) + 1) = -1 := by omega
            rw [h2] at h1
            rw [h1, full_rows_between_succ, if_pos ⟨by omega, hfull⟩]
            have h3 : ∀ j : Nat, full_rows_between (positions game.fixed_blocks.head) j (-2)
                = full_rows_between (positions game.fixed_blocks.head) j (-1) := by
              intro j
              unfold full_rows_between
              congr 1
              apply List.filter_congr
              intro q _
              have e1 : ((-2 : Int) < (q : Int)) := by omega
              have e2 : ((-1 : Int) < (q : Int)) := by omega
              simp only [e1, e2]
            rw [h3]
          show some (r + 1 + (full_rows_between
            (positions (clear_row game.fixed_blocks (m : Int)).head) (m + 1) (-1) : Int), game') = _
          rw [← hcount]
          push_cast
          congr 2
          omega
        · refine hres.trans ?_
          show (collapse (positions (clear_row game.fixed_blocks (m : Int)).head) (m + 1)).Perm _
          rw [← collapse_kept _ m hfull hb]
          exact collapse_perm _ _ hperm (m + 1)
      · have hfull' : ¬ ((row_count (positions game.fixed_blocks.head) (m : Int) : Nat) : Int) = 10 := by
          intro h; apply hfull; exact_mod_cast h
        rw [if_neg hfull']
        have hy1 : (m : Int) - 1 = ((m : Nat) : Int) - 1 := rfl
        obtain ⟨game', hrun, hres⟩ := ih m game r hb (by omega)
        refine ⟨game', ?_, ?_⟩
        · rw [hrun, full_rows_between_succ, if_neg (fun h => hfull h.2), Nat.add_zero]
        · rw [collapse_succ_of_not_full _ m hfull]
          exact hres

/-- Claim C4: on a grid whose entries have pairwise distinct positions with
`0 <= x < 10` and `0 <= y < 20`, `game_check_lines` returns the number of rows that
hold ten entries, and the positions occupied afterwards are exactly the
`(x, y + f(y))` for the entries `(x, y)` of the original grid on rows that are not
full, where `f(y)` is the number of full rows with index greater than `y`. -/
theorem check_lines_spec (game : GameState)
    (_hdistinct : (positions game.fixed_blocks.head).Nodup)
    (hbounds : ∀ b ∈ game.fixed_blocks.head, 0 ≤ b.x ∧ b.x < 10 ∧ 0 ≤ b.y ∧ b.y < 20) :
    ∃ game', game_check_lines game
        = some ((full_row_total (positions game.fixed_blocks.head) : Int), game') ∧
      ∀ p : Int × Int, p ∈ positions game'.fixed_blocks.head ↔
        ∃ b ∈ game.fixed_blocks.head,
          row_count (positions game.fixed_blocks.head) b.y ≠ 10 ∧
          p = (b.x, b.y + (full_rows_above (positions game.fixed_blocks.head) b.y : Int)) := by
  have hb : ∀ p ∈ positions game.fixed_blocks.head, 0 ≤ p.2 := by
    intro p hp
    simp only [positions, List.mem_map] at hp
    obtain ⟨b, hbm, hbp⟩ := hp
    rw [← hbp]
    exact (hbounds b hbm).2.2.1
  obtain ⟨game', hrun, hres⟩ := check_lines_loop_spec
    (20 + 1 + game.fixed_blocks.head.length) 20 game 0 hb (le_refl _)
  have htotal : full_rows_between (positions game.fixed_blocks.head) 20 (-1)
      = full_row_total (positions game.fixed_blocks.head) := by
    unfold full_rows_between full_row_total
    congr 1
    apply List.filter_congr
    intro q _
    have e : ((-1 : Int) < (q : Int)) := by omega
    simp only [e, true_and]
  refine ⟨game', ?_, ?_⟩
  · rw [← htotal]
    have : game_check_lines game
        = check_lines_loop (20 + 1 + game.fixed_blocks.head.length) game (((20 : Nat) : Int) - 1) 0 :=
      rfl
    rw [this, hrun]
    simp
  · intro p
    rw [hres.mem_iff]
    simp only [collapse, List.mem_map, List.mem_filter, decide_eq_true_eq]
    constructor
    · rintro ⟨q, ⟨hq, hkeep⟩, hqp⟩
      simp only [positions, List.mem_map] at hq
      obtain ⟨b, hbm, hbq⟩ := hq
      have hlt : b.y < 20 := (hbounds b hbm).2.2.2
      subst hbq
      refine ⟨b, hbm, ?_, ?_⟩
      · intro hfull
        exact hkeep ⟨by simpa using hlt, hfull⟩
      · rw [← hqp, if_pos (by simpa using hlt)]
        rfl
    · rintro ⟨b, hbm, hnot, hp⟩
      have hlt : b.y < 20 := (hbounds b hbm).2.2.2
      refine ⟨(b.x, b.y), ⟨?_, ?_⟩, ?_⟩
      · simp only [positions, List.mem_map]
        exact ⟨b, hbm, rfl⟩
      · exact fun h => hnot h.2
      · rw [hp, if_pos (by simpa using hlt)]
        rfl

/-- Claim C4 at a concrete grid: rows 18 and 19 are full, row 17 holds two blocks
and row 16 one; the result is 2 and the three blocks end two rows lower. -/
theorem check_lines_spec_witness :
    full_row_total (positions cascade_state.fixed_blocks.head) = 2 ∧
    (game_check_lines cascade_state).map
        (fun res => (res.1, positions res.2.fixed_blocks.head))
      = some (2, [(2, 18), (0, 19), (5, 19)]) ∧
    ∃ game', game_check_lines cascade_state
        = some ((full_row_total (positions cascade_state.fixed_blocks.head) : Int), game') ∧
      ∀ p : Int × Int, p ∈ positions game'.fixed_blocks.head ↔
        ∃ b ∈ cascade_state.fixed_blocks.head,
          row_count (positions cascade_state.fixed_blocks.head) b.y ≠ 10 ∧
          p = (b.x, b.y +
            (full_rows_above (positions cascade_state.fixed_blocks.head) b.y : Int)) :=
  ⟨by decide!, by decide!, check_lines_spec cascade_state (by decide!) (by decide!)⟩

/-! ### The loops return -/

/-- With one unit of fuel per remaining row test and one per node, the line loop
returns, whatever the grid. -/
theorem check_lines_loop_returns : ∀ (fuel n : Nat) (game : GameState) (r : Int),
    n + 1 + game.fixed_blocks.head.length ≤ fuel →
    ∃ res, check_lines_loop fuel game ((n : Int) - 1) r = some res := by
  intro fuel
  induction fuel with
  | zero => intro n game r hfuel; omega
  | succ fuel ih =>
    intro n game r hfuel
    unfold check_lines_loop
    cases n with
    | zero =>
      rw [if_neg (by omega)]
      exact ⟨_, rfl⟩
    | succ m =>
      rw [if_pos (by omega)]
      have hy : ((m + 1 : Nat) : Int) - 1 = (m : Int) := by omega
      rw [hy]
      by_cases hfull : count_row (m : Int) game.fixed_blocks.head = GRID_WIDTH
      · simp only [hfull, if_true]
        have hperm := clear_row_perm game.fixed_blocks (m : Int)
        have hy1 : (m : Int) + 1 - 1 = ((m + 1 : Nat) : Int) - 1 := by omega
        rw [hy1]
        have hlen' : (clear_row game.fixed_blocks (m : Int)).head.length + 1
            ≤ game.fixed_blocks.head.length := by
          have h1 := hperm.length_eq
          have h2 := kept_cells_length (m : Int) (positions game.fixed_blocks.head)
          rw [count_row_eq] at hfull
          simp only [positions, List.length_map, GRID_WIDTH] at h1 h2 hfull
          omega
        exact ih (m + 1) { game with fixed_blocks := clear_row game.fixed_blocks (m : Int) } (r + 1)
          (by show m + 1 + 1 + (clear_row game.fixed_blocks (m : Int)).head.length ≤ fuel; omega)
      · simp only [hfull, if_false]
        exact ih m game r (by omega)

/-- The function `game_check_lines` returns on every session. -/
theorem check_lines_returns (game : GameState) : ∃ res, game_check_lines game = some res :=
  check_lines_loop_returns (20 + 1 + game.fixed_blocks.head.length) 20 game 0 (le_refl _)

/-- More fuel does not change what the line loop returns. -/
theorem check_lines_loop_fuel_mono : ∀ (fuel : Nat) (game : GameState) (y r : Int)
    (res : Int × GameState), check_lines_loop fuel game y r = some res →
    check_lines_loop (fuel + 1) game y r = some res := by
  intro fuel
  induction fuel with
  | zero => intro game y r res h; simp [check_lines_loop] at h
  | succ fuel ih =>
    intro game y r res h
    rw [check_lines_loop] at h
    rw [check_lines_loop]
    by_cases hy : y ≥ 0
    · rw [if_pos hy] at h ⊢
      by_cases hfull : count_row y game.fixed_blocks.head = GRID_WIDTH
      · simp only [hfull, if_true] at h ⊢
        exact ih _ _ _ _ h
      · simp only [hfull, if_false] at h ⊢
        exact ih _ _ _ _ h
    · rw [if_neg hy] at h ⊢
      exact h

/-- A piece with at least one node collides one row down once its first node is
on the bottom row or below. -/
theorem collision_of_first_low (piece : Piece) (fixed_blocks : BlockList) (first : Block)
    (rest : List Block) (hp : piece.blocks.head = first :: rest) (hlow : first.y + 1 ≥ GRID_HEIGHT) :
    game_check_collision piece fixed_blocks 0 1 = true := by
  unfold game_check_collision
  rw [hp, collision_loop_iff]
  exact ⟨first, List.mem_cons_self _ _, Or.inr (Or.inr (Or.inl hlow))⟩

/-- With the fuel of `descent_fuel`, or more, the descent loop of
`game_drop_piece` returns for every piece that has a node. -/
theorem drop_loop_returns : ∀ (fuel : Nat) (game : GameState) (first : Block) (rest : List Block),
    game.current_piece.blocks.head = first :: rest →
    (GRID_HEIGHT - first.y).toNat + 1 ≤ fuel →
    ∃ game', drop_loop fuel game = some game' := by
  intro fuel
  induction fuel with
  | zero => intro game first rest _ hfuel; omega
  | succ fuel ih =>
    intro game first rest hp hfuel
    unfold drop_loop
    by_cases hc : game_check_collision game.current_piece game.fixed_blocks 0 1 = true
    · rw [if_neg (by simpa using hc)]
      exact ⟨game, rfl⟩
    · rw [if_pos hc]
      have hlow : ¬ first.y + 1 ≥ GRID_HEIGHT :=
        fun h => hc (collision_of_first_low _ _ first rest hp h)
      apply ih _ { first with x := first.x + 0, y := first.y + 1 }
        (rest.map (fun current => { current with x := current.x + 0, y := current.y + 1 }))
      · simp [piece_move, hp]
      · show (GRID_HEIGHT - (first.y + 1)).toNat + 1 ≤ fuel
        simp only [GRID_HEIGHT] at hlow hfuel ⊢
        omega

/-- More fuel does not change what the descent loop returns. -/
theorem drop_loop_fuel_mono : ∀ (fuel : Nat) (game game' : GameState),
    drop_loop fuel game = some game' → drop_loop (fuel + 1) game = some game' := by
  intro fuel
  induction fuel with
  | zero => intro game game' h; simp [drop_loop] at h
  | succ fuel ih =>
    intro game game' h
    rw [drop_loop] at h
    rw [drop_loop]
    by_cases hc : ¬ game_check_collision game.current_piece game.fixed_blocks 0 1 = true
    · rw [if_pos hc] at h ⊢
      exact ih _ _ h
    · rw [if_neg hc] at h ⊢
      exact h

/-! ### Sessions that are over or paused -/

/-- Claim C13: in a session with `game_over` true, `game_move_piece` (any offset),
`game_rotate_piece`, `game_drop_piece` and `game_update` (any elapsed time) leave
the whole session unchanged, and move and rotate return false. -/
theorem game_over_noop (game : GameState) (dx dy : Int) (delta_time : ℚ) (type : PieceType)
    (hover : game.game_over = true) :
    game_move_piece game dx dy type = some (false, game) ∧
    game_rotate_piece game = (false, game) ∧
    game_drop_piece game type = some game ∧
    game_update game delta_time type = some game := by
  refine ⟨?_, ?_, ?_, ?_⟩
  · simp [game_move_piece, hover]
  · simp [game_rotate_piece, hover]
  · simp [game_drop_piece, hover]
  · simp [game_update, hover]

/-- Claim C13 at a concrete session that is over. -/
theorem game_over_noop_witness :
    game_move_piece over_state 0 1 PIECE_I = some (false, over_state) ∧
    game_rotate_piece over_state = (false, over_state) ∧
    game_drop_piece over_state PIECE_I = some over_state ∧
    game_update over_state 5 PIECE_I = some over_state :=
  game_over_noop over_state 0 1 5 PIECE_I rfl

/-- Claim C16: in a session with `paused` true and `game_over` false,
`game_move_piece`, `game_rotate_piece`, `game_drop_piece` and `game_update` leave
the whole session unchanged, and move and rotate return false. -/
theorem paused_noop (game : GameState) (dx dy : Int) (delta_time : ℚ) (type : PieceType)
    (hpaused : game.paused = true) (_hover : game.game_over = false) :
    game_move_piece game dx dy type = some (false, game) ∧
    game_rotate_piece game = (false, game) ∧
    game_drop_piece game type = some game ∧
    game_update game delta_time type = some game := by
  refine ⟨?_, ?_, ?_, ?_⟩
  · simp [game_move_piece, hpaused]
  · simp [game_rotate_piece, hpaused]
  · simp [game_drop_piece, hpaused]
  · simp [game_update, hpaused]

/-- Claim C16 at a concrete paused session. -/
theorem paused_noop_witness :
    game_move_piece paused_state 0 1 PIECE_I = some (false, paused_state) ∧
    game_rotate_piece paused_state = (false, paused_state) ∧
    game_drop_piece paused_state PIECE_I = some paused_state ∧
    game_update paused_state 5 PIECE_I = some paused_state :=
  paused_noop paused_state 0 1 5 PIECE_I rfl rfl

/-! ### Reset -/

/-- A created piece has its kind, rotation 0, the spawn cells of its kind and
counter 4. -/
theorem piece_create_layout (type : PieceType) :
    (piece_create type).type = type ∧ (piece_create type).rotation = 0 ∧
    positions (piece_create type).blocks.head = spawn_layout type ∧
    (piece_create type).blocks.count = 4 := by
  cases type <;> exact ⟨rfl, rfl, by decide, by decide⟩

/-- Claim C14: from any session, `game_reset` yields score 0, level 1, line total
0, an empty grid with counter 0, both flags false, fall timer 0, fall speed 1, and
a current and a next piece that are fresh spawns: rotation 0 and the spawn cells
of their kind. -/
theorem reset_restores (game : GameState) (type1 type2 : PieceType) :
    (game_reset game type1 type2).score = 0 ∧
    (game_reset game type1 type2).level = 1 ∧
    (game_reset game type1 type2).lines_cleared = 0 ∧
    (game_reset game type1 type2).fixed_blocks.head = [] ∧
    (game_reset game type1 type2).fixed_blocks.count = 0 ∧
    (game_reset game type1 type2).game_over = false ∧
    (game_reset game type1 type2).paused = false ∧
    (game_reset game type1 type2).fall_timer = 0 ∧
    (game_reset game type1 type2).fall_speed = 1 ∧
    (game_reset game type1 type2).current_piece.type = type1 ∧
    (game_reset game type1 type2).current_piece.rotation = 0 ∧
    positions (game_reset game type1 type2).current_piece.blocks.head = spawn_layout type1 ∧
    (game_reset game type1 type2).next_piece.type = type2 ∧
    (game_reset game type1 type2).next_piece.rotation = 0 ∧
    positions (game_reset game type1 type2).next_piece.blocks.head = spawn_layout type2 := by
  have h1 := piece_create_layout type1
  have h2 := piece_create_layout type2
  exact ⟨rfl, rfl, rfl, rfl, rfl, rfl, rfl, rfl, rfl, h1.1, h1.2.1, h1.2.2.1, h2.1, h2.2.1,
    h2.2.2.1⟩

/-! ### Collision at zero offset -/

/-- Claim C19, as amended: `game_check_collision` at offset `(0, 0)` is true exactly
when some cell of the piece on a row `y >= 0` has the position of a grid entry, or
some cell lies outside `[0, 10) x (-infinity, 20)`. -/
theorem check_collision_zero_iff (piece : Piece) (grid : BlockList) :
    game_check_collision piece grid 0 0 = true ↔
      ∃ b ∈ piece.blocks.head,
        (b.y ≥ 0 ∧ ∃ e ∈ grid.head, e.x = b.x ∧ e.y = b.y) ∨
          b.x < 0 ∨ b.x ≥ 10 ∨ b.y ≥ 20 := by
  unfold game_check_collision
  rw [collision_loop_iff]
  simp only [add_zero, GRID_WIDTH, GRID_HEIGHT]
  constructor
  · rintro ⟨b, hb, h | h | h | h⟩
    · exact ⟨b, hb, Or.inr (Or.inl h)⟩
    · exact ⟨b, hb, Or.inr (Or.inr (Or.inl h))⟩
    · exact ⟨b, hb, Or.inr (Or.inr (Or.inr h))⟩
    · exact ⟨b, hb, Or.inl h⟩
  · rintro ⟨b, hb, h | h | h | h⟩
    · exact ⟨b, hb, Or.inr (Or.inr (Or.inr h))⟩
    · exact ⟨b, hb, Or.inl h⟩
    · exact ⟨b, hb, Or.inr (Or.inl h)⟩
    · exact ⟨b, hb, Or.inr (Or.inr (Or.inl h))⟩

/-- Claim C19 as stated fails: a cell at `(4, -1)` over a grid entry at `(4, -1)`
is no collision, rows above the grid being exempt from the overlap test. -/
theorem check_collision_zero_above_grid :
    ¬ (game_check_collision above_state.current_piece above_state.fixed_blocks 0 0 = true ↔
      ∃ b ∈ above_state.current_piece.blocks.head,
        (∃ e ∈ above_state.fixed_blocks.head, e.x = b.x ∧ e.y = b.y) ∨
          b.x < 0 ∨ b.x ≥ 10 ∨ b.y ≥ 20) := by
  intro h
  have hfalse : game_check_collision above_state.current_piece above_state.fixed_blocks 0 0
      = false := by decide
  have htrue := h.mpr
    ⟨{ x := 4, y := -1, color := piece_get_color PIECE_I }, by decide,
      Or.inl ⟨{ x := 4, y := -1, color := grey }, by decide, rfl, rfl⟩⟩
  rw [hfalse] at htrue
  exact Bool.false_ne_true htrue

/-! ### The O piece -/

/-- Adding the nodes of a chain one by one appends the chain and raises the
counter by its length. -/
theorem foldl_list_add (chain : List Block) : ∀ (list : BlockList),
    chain.foldl (fun list current => list_add list current.x current.y current.color) list
      = { head := list.head ++ chain, count := list.count + chain.length } := by
  induction chain with
  | nil => intro list; simp
  | cons current next ih =>
    intro list
    rw [List.foldl_cons, ih]
    simp only [list_add, List.append_assoc, List.singleton_append, List.length_cons,
      Nat.cast_add, Nat.cast_one]
    congr 1
    omega

/-- The copy of a list has the same chain. -/
theorem list_copy_head (list : BlockList) : (list_copy list).head = list.head := by
  unfold list_copy
  rw [foldl_list_add]
  simp [list_create]

/-- The collision test reads only the chain of the piece. -/
theorem check_collision_congr (piece piece' : Piece) (grid : BlockList) (dx dy : Int)
    (h : piece.blocks.head = piece'.blocks.head) :
    game_check_collision piece grid dx dy = game_check_collision piece' grid dx dy := by
  unfold game_check_collision
  rw [h]

/-- The function `piece_rotate` returns an O piece as it is. -/
theorem piece_rotate_O (piece : Piece) (h : piece.type = PIECE_O) :
    piece_rotate piece = piece := by
  unfold piece_rotate
  rw [if_pos h]

/-- The function `piece_rotate` changes neither the cells nor the rotation counter
of an O piece, and `game_rotate_piece` on a session whose current piece is an O
piece that does not collide where it stands leaves the piece, and the whole
session, unchanged. -/
theorem rotate_O_unchanged (piece : Piece) (game : GameState)
    (hpiece : piece.type = PIECE_O)
    (hactive : game.current_piece.type = PIECE_O)
    (hfree : game_check_collision game.current_piece game.fixed_blocks 0 0 = false) :
    piece_rotate piece = piece ∧
    (game_rotate_piece game).2.current_piece = game.current_piece ∧
    (game_rotate_piece game).2 = game := by
  have hcopy : piece_rotate (piece_copy game.current_piece) = piece_copy game.current_piece :=
    piece_rotate_O _ hactive
  have htest : game_check_collision (piece_rotate (piece_copy game.current_piece))
      game.fixed_blocks 0 0 = false := by
    rw [hcopy, check_collision_congr _ game.current_piece _ _ _ (list_copy_head _)]
    exact hfree
  have hres : (game_rotate_piece game).2 = game := by
    unfold game_rotate_piece
    by_cases h1 : game.game_over = true ∨ game.paused = true
    · rw [if_pos h1]
    · rw [if_neg h1]
      simp only [htest, Bool.false_eq_true, not_false_eq_true, if_true,
        piece_rotate_O _ hactive]
  exact ⟨piece_rotate_O piece hpiece, by rw [hres], hres⟩

/-- The freshly spawned O piece on the empty grid is left as it is. -/
theorem rotate_O_unchanged_witness :
    piece_rotate (piece_create PIECE_O) = piece_create PIECE_O ∧
    (game_rotate_piece (game_init PIECE_O PIECE_T)).2.current_piece
      = (game_init PIECE_O PIECE_T).current_piece ∧
    (game_rotate_piece (game_init PIECE_O PIECE_T)).2 = game_init PIECE_O PIECE_T :=
  rotate_O_unchanged (piece_create PIECE_O) (game_init PIECE_O PIECE_T) rfl rfl (by decide)

/-- Outside the sessions of a play (there the current piece stands free while the
game is not over): an O piece that overlaps a fixed block where it stands and
is free one column to the right is shifted right by `game_rotate_piece`. -/
theorem rotate_O_kicked :
    overlap_state.current_piece.type = PIECE_O ∧
    overlap_state.game_over = false ∧ overlap_state.paused = false ∧
    positions overlap_state.current_piece.blocks.head = [(4, 0), (5, 0), (4, 1), (5, 1)] ∧
    (game_rotate_piece overlap_state).1 = true ∧
    positions (game_rotate_piece overlap_state).2.current_piece.blocks.head
      = [(5, 0), (6, 0), (5, 1), (6, 1)] :=
  ⟨rfl, rfl, rfl, by decide, by decide!, by decide!⟩

/-! ### Game over on spawn -/

/-- The scoring block changes only the score, the line total, the level and the
fall speed. -/
theorem apply_score_frame (game game' : GameState) (lines : Int)
    (h : apply_score game lines = some game') :
    game'.fixed_blocks = game.fixed_blocks ∧ game'.current_piece = game.current_piece ∧
    game'.next_piece = game.next_piece ∧ game'.game_over = game.game_over ∧
    game'.paused = game.paused ∧ game'.fall_timer = game.fall_timer := by
  unfold apply_score at h
  by_cases hl : lines > 0
  · rw [if_pos hl] at h
    cases hp : points[lines.toNat]? with
    | none => simp [hp] at h
    | some p =>
      simp only [hp, Option.some.injEq] at h
      rw [← h]
      exact ⟨rfl, rfl, rfl, rfl, rfl, rfl⟩
  · rw [if_neg hl] at h
    simp only [Option.some.injEq] at h
    rw [← h]
    exact ⟨rfl, rfl, rfl, rfl, rfl, rfl⟩

/-- The stages of a fix that returns. -/
theorem fix_piece_stages (game game' : GameState) (type : PieceType)
    (h : game_fix_piece game type = some game') :
    ∃ lines game1 game2, game_check_lines (transfer_blocks game) = some (lines, game1) ∧
      apply_score game1 lines = some game2 ∧ game' = spawn_next game2 type := by
  unfold game_fix_piece at h
  cases hcl : game_check_lines (transfer_blocks game) with
  | none => simp [hcl] at h
  | some res =>
    obtain ⟨lines, game1⟩ := res
    simp only [hcl] at h
    cases hsc : apply_score game1 lines with
    | none => simp [hsc] at h
    | some game2 =>
      simp only [hsc, Option.some.injEq] at h
      exact ⟨lines, game1, game2, rfl, hsc, h.symm⟩

/-- After a fix the current piece is the former next piece, the next piece is a
fresh spawn and the fall timer is 0. -/
theorem fix_piece_pieces (game game' : GameState) (type : PieceType)
    (h : game_fix_piece game type = some game') :
    game'.current_piece = game.next_piece ∧ game'.next_piece = piece_create type ∧
    game'.fall_timer = 0 ∧ game'.paused = game.paused := by
  obtain ⟨lines, game1, game2, hcl, hsc, hsp⟩ := fix_piece_stages game game' type h
  have hfr := check_lines_frame _ _ _ hcl
  have hf := spawn_next_fields game2 type
  have ha := apply_score_frame _ _ _ hsc
  have h1 : game1.next_piece = game.next_piece := by rw [hfr]; rfl
  have h2 : game1.paused = game.paused := by rw [hfr]; rfl
  rw [hsp]
  exact ⟨by rw [hf.2.1, ha.2.2.1, h1], hf.2.2.1, hf.2.2.2.2.2.2.2.1,
    by rw [hf.2.2.2.2.2.2.1, ha.2.2.2.2.1, h2]⟩

/-- Claim C12: `game_fix_piece` promotes the next piece, sets `game_over` to true
when that piece collides with the grid left by line clearing at offset `(0, 0)`,
and leaves `game_over` as it was when it does not collide. -/
theorem fix_piece_game_over (game : GameState) (type : PieceType) (lines : Int)
    (game1 : GameState)
    (hclear : game_check_lines (transfer_blocks game) = some (lines, game1))
    (hlines : lines ≤ 4) :
    ∃ game', game_fix_piece game type = some game' ∧
      game'.fixed_blocks = game1.fixed_blocks ∧
      game'.current_piece = game.next_piece ∧
      (game_check_collision game.next_piece game1.fixed_blocks 0 0 = true →
        game'.game_over = true) ∧
      (game_check_collision game.next_piece game1.fixed_blocks 0 0 = false →
        game'.game_over = game.game_over) := by
  have hfr := check_lines_frame _ _ _ hclear
  have hnext : game1.next_piece = game.next_piece := by rw [hfr]; rfl
  have hover : game1.game_over = game.game_over := by rw [hfr]; rfl
  have hscore : ∃ game2, apply_score game1 lines = some game2 ∧
      game2.fixed_blocks = game1.fixed_blocks ∧ game2.next_piece = game1.next_piece ∧
      game2.game_over = game1.game_over := by
    unfold apply_score
    by_cases hl : lines > 0
    · rw [if_pos hl]
      have : lines = 1 ∨ lines = 2 ∨ lines = 3 ∨ lines = 4 := by omega
      rcases this with h | h | h | h <;> subst h <;> exact ⟨_, rfl, rfl, rfl, rfl⟩
    · rw [if_neg hl]
      exact ⟨game1, rfl, rfl, rfl, rfl⟩
  obtain ⟨game2, h2, hfb, hnp, hgo⟩ := hscore
  have hf := spawn_next_fields game2 type
  refine ⟨spawn_next game2 type, ?_, ?_, ?_, ?_, ?_⟩
  · unfold game_fix_piece
    rw [hclear]
    simp only [h2]
  · rw [hf.1, hfb]
  · rw [hf.2.1, hnp, hnext]
  · intro hc
    rw [hf.2.2.2.2.2.2.2.2.2, hnp, hnext, hfb, hc]
    rfl
  · intro hc
    rw [hf.2.2.2.2.2.2.2.2.2, hnp, hnext, hfb, hc, hgo, hover]
    rfl

/-- Claim C12 at a concrete session: a block at `(4, 0)` is in the way of the next
piece, an I, and the fix ends the game. -/
theorem fix_piece_game_over_witness :
    game_check_collision blocked_spawn_state.next_piece
      (transfer_blocks blocked_spawn_state).fixed_blocks 0 0 = true ∧
    blocked_spawn_state.game_over = false ∧
    ∃ game', game_fix_piece blocked_spawn_state PIECE_T = some game' ∧
      game'.fixed_blocks = (transfer_blocks blocked_spawn_state).fixed_blocks ∧
      game'.current_piece = blocked_spawn_state.next_piece ∧
      (game_check_collision blocked_spawn_state.next_piece
          (transfer_blocks blocked_spawn_state).fixed_blocks 0 0 = true →
        game'.game_over = true) ∧
      (game_check_collision blocked_spawn_state.next_piece
          (transfer_blocks blocked_spawn_state).fixed_blocks 0 0 = false →
        game'.game_over = blocked_spawn_state.game_over) :=
  ⟨by decide!, rfl,
    fix_piece_game_over blocked_spawn_state PIECE_T 0 (transfer_blocks blocked_spawn_state)
      (by decide!) (by decide)⟩

/-! ### The tick -/

/-- Claim C15: in a session in play, with timers as exact rationals and an elapsed
time `e >= 0`: if `fall_timer + e < fall_speed`, `game_update` only sets the timer
to `fall_timer + e`; otherwise it performs one `game_move_piece(0, 1)` and leaves
the timer at 0.  Either way the current piece stays, descends one row, or is
fixed and replaced by the next piece. -/
theorem update_tick (game : GameState) (e : ℚ) (type : PieceType)
    (hover : game.game_over = false) (hpaused : game.paused = false) (_he : 0 ≤ e) :
    (game.fall_timer + e < game.fall_speed →
      game_update game e type = some { game with fall_timer := game.fall_timer + e }) ∧
    (¬ game.fall_timer + e < game.fall_speed →
      game_update game e type =
        (game_move_piece { game with fall_timer := game.fall_timer + e } 0 1 type).map
          (fun res => { res.2 with fall_timer := 0 })) ∧
    (∀ game', game_update game e type = some game' →
      game'.current_piece = game.current_piece ∨
      game'.current_piece = piece_move game.current_piece 0 1 ∨
      game'.current_piece = game.next_piece) := by
  have hactive : ¬ (game.game_over = true ∨ game.paused = true) := by
    simp [hover, hpaused]
  have hlt : game.fall_timer + e < game.fall_speed →
      game_update game e type = some { game with fall_timer := game.fall_timer + e } := by
    intro h
    unfold game_update
    rw [if_neg hactive]
    dsimp only
    rw [if_neg (not_le.mpr h)]
  have hge : ¬ game.fall_timer + e < game.fall_speed →
      game_update game e type =
        (game_move_piece { game with fall_timer := game.fall_timer + e } 0 1 type).map
          (fun res => { res.2 with fall_timer := 0 }) := by
    intro h
    unfold game_update
    rw [if_neg hactive]
    dsimp only
    rw [if_pos (not_lt.mp h)]
    generalize game_move_piece { game with fall_timer := game.fall_timer + e } 0 1 type = moved
    rcases moved with _ | ⟨b, g⟩ <;> rfl
  refine ⟨hlt, hge, ?_⟩
  intro game' hrun
  by_cases h : game.fall_timer + e < game.fall_speed
  · rw [hlt h] at hrun
    simp only [Option.some.injEq] at hrun
    rw [← hrun]
    exact Or.inl rfl
  · rw [hge h] at hrun
    rcases move_piece_cases { game with fall_timer := game.fall_timer + e } 0 1 type with
      hc | hc | hc
    · rw [hc] at hrun
      simp only [Option.map_some', Option.some.injEq] at hrun
      rw [← hrun]
      exact Or.inl rfl
    · rw [hc] at hrun
      simp only [Option.map_some', Option.some.injEq] at hrun
      rw [← hrun]
      exact Or.inr (Or.inl rfl)
    · rw [hc] at hrun
      cases hf : game_fix_piece { game with fall_timer := game.fall_timer + e } type with
      | none => simp [hf] at hrun
      | some g =>
        simp only [hf, Option.map_some', Option.some.injEq] at hrun
        rw [← hrun]
        exact Or.inr (Or.inr (fix_piece_pieces _ _ _ hf).1)

/-- Claim C15 at a concrete session: an elapsed time of five fall intervals moves
the spawned T piece down by one row only. -/
theorem update_tick_witness :
    ¬ (game_init PIECE_T PIECE_O).fall_timer + 5 < (game_init PIECE_T PIECE_O).fall_speed ∧
    (game_update (game_init PIECE_T PIECE_O) 5 PIECE_I).map
        (fun game' => (positions game'.current_piece.blocks.head, game'.fall_timer))
      = some ([(4, 1), (3, 2), (4, 2), (5, 2)], 0) ∧
    ((game_init PIECE_T PIECE_O).fall_timer + 5 < (game_init PIECE_T PIECE_O).fall_speed →
      game_update (game_init PIECE_T PIECE_O) 5 PIECE_I = some { game_init PIECE_T PIECE_O with
        fall_timer := (game_init PIECE_T PIECE_O).fall_timer + 5 }) ∧
    (¬ (game_init PIECE_T PIECE_O).fall_timer + 5 < (game_init PIECE_T PIECE_O).fall_speed →
      game_update (game_init PIECE_T PIECE_O) 5 PIECE_I =
        (game_move_piece { game_init PIECE_T PIECE_O with
          fall_timer := (game_init PIECE_T PIECE_O).fall_timer + 5 } 0 1 PIECE_I).map
          (fun res => { res.2 with fall_timer := 0 })) ∧
    (∀ game', game_update (game_init PIECE_T PIECE_O) 5 PIECE_I = some game' →
      game'.current_piece = (game_init PIECE_T PIECE_O).current_piece ∨
      game'.current_piece = piece_move (game_init PIECE_T PIECE_O).current_piece 0 1 ∨
      game'.current_piece = (game_init PIECE_T PIECE_O).next_piece) :=
  ⟨by decide!, by decide!,
    update_tick (game_init PIECE_T PIECE_O) 5 PIECE_I rfl rfl (by norm_num)⟩

/-! ### Grids without a full row -/

/-- On a grid without a full row among the rows below `n`, the line loop started
at row `n - 1` returns the state and the line count it was given. -/
theorem check_lines_loop_no_full : ∀ (fuel n : Nat) (game : GameState) (r : Int),
    n + 1 ≤ fuel →
    (∀ y : Int, 0 ≤ y → y < (n : Int) → row_count (positions game.fixed_blocks.head) y ≠ 10) →
    check_lines_loop fuel game ((n : Int) - 1) r = some (r, game) := by
  intro fuel
  induction fuel with
  | zero => intro n game r hfuel; omega
  | succ fuel ih =>
    intro n game r hfuel hnone
    unfold check_lines_loop
    cases n with
    | zero => rw [if_neg (by omega)]
    | succ m =>
      rw [if_pos (by omega)]
      have hy : ((m + 1 : Nat) : Int) - 1 = (m : Int) := by omega
      rw [hy]
      have hm := hnone (m : Int) (by omega) (by omega)
      have hcount : ¬ count_row (m : Int) game.fixed_blocks.head = GRID_WIDTH := by
        rw [count_row_eq]
        intro h
        apply hm
        simp only [GRID_WIDTH] at h
        exact_mod_cast h
      simp only [hcount, if_false]
      exact ih m game r (by omega) (fun y h0 hlt => hnone y h0 (by omega))

/-- Claim C17: on a grid in which no row `0 <= y < 20` holds exactly ten entries,
`game_check_lines` returns 0 and leaves the session, hence the grid with its
entries, positions, colours and order, unchanged. -/
theorem check_lines_no_full (game : GameState)
    (hnone : ∀ y : Int, 0 ≤ y → y < 20 →
      row_count (positions game.fixed_blocks.head) y ≠ 10) :
    game_check_lines game = some (0, game) :=
  check_lines_loop_no_full (20 + 1 + game.fixed_blocks.head.length) 20 game 0 (by omega) hnone

/-- Claim C17 at a concrete grid of four entries. -/
theorem check_lines_no_full_witness :
    positions dup_state.fixed_blocks.head = [(4, 18), (3, 18), (3, 18), (3, 19)] ∧
    game_check_lines dup_state = some (0, dup_state) :=
  ⟨by decide!, check_lines_no_full dup_state (by
    intro y h0 h20
    interval_cases y <;> decide!)⟩

/-! ### Hard drop and ghost row -/

/-- Two moves in a row are one move by the sum of the offsets. -/
theorem piece_move_move (piece : Piece) (a b c d : Int) :
    piece_move (piece_move piece a b) c d = piece_move piece (a + c) (b + d) := by
  simp only [piece_move, List.map_map]
  congr 2
  apply List.map_congr_left
  intro current _
  simp only [Function.comp, add_assoc]

/-- The collision loop on translated nodes is the collision loop on the nodes at
the summed offset. -/
theorem collision_loop_map (grid : BlockList) (a b dx dy : Int) (cells : List Block) :
    collision_loop grid dx dy
        (cells.map (fun current => { current with x := current.x + a, y := current.y + b }))
      = collision_loop grid (a + dx) (b + dy) cells := by
  induction cells with
  | nil => rfl
  | cons current next ih =>
    rw [List.map_cons, collision_loop_cons, collision_loop_cons, ih]
    simp only [add_assoc]

/-- Testing a translated piece at an offset is testing the piece at the summed
offset. -/
theorem check_collision_move (piece : Piece) (grid : BlockList) (a b dx dy : Int) :
    game_check_collision (piece_move piece a b) grid dx dy
      = game_check_collision piece grid (a + dx) (b + dy) := by
  unfold game_check_collision
  exact collision_loop_map grid a b dx dy piece.blocks.head

/-- One more step of the descent. -/
theorem descended_step (game : GameState) (j : Int) :
    { descended game j with
      current_piece := piece_move (descended game j).current_piece 0 1,
      score := (descended game j).score + 2 } = descended game (j + 1) := by
  simp only [descended, piece_move_move, add_zero]
  congr 1
  ring

/-- No step of the descent. -/
theorem descended_zero (game : GameState) : descended game 0 = game := by
  simp [descended, piece_move_zero]

/-- The descent loop from `j` rows down, with `k` the first offset at which one
row further collides: it returns the session `k` rows down. -/
theorem drop_loop_descended (game : GameState) (k : Int) :
    ∀ (fuel : Nat) (j : Int), j ≤ k → (k - j).toNat + 1 ≤ fuel →
    game_check_collision game.current_piece game.fixed_blocks 0 (k + 1) = true →
    (∀ i : Int, j ≤ i → i < k →
      game_check_collision game.current_piece game.fixed_blocks 0 (i + 1) = false) →
    drop_loop fuel (descended game j) = some (descended game k) := by
  intro fuel
  induction fuel with
  | zero => intro j _ hfuel; omega
  | succ fuel ih =>
    intro j hjk hfuel hcollide hleast
    unfold drop_loop
    have htest : game_check_collision (descended game j).current_piece
        (descended game j).fixed_blocks 0 1
        = game_check_collision game.current_piece game.fixed_blocks 0 (j + 1) := by
      simp only [descended, check_collision_move, add_zero]
    rw [htest]
    by_cases hj : j = k
    · subst hj
      rw [hcollide]
      simp
    · have hlt : j < k := by omega
      rw [hleast j (le_refl _) hlt]
      simp only [Bool.false_eq_true, not_false_eq_true, if_true]
      rw [descended_step]
      exact ih (j + 1) (by omega) (by omega) hcollide
        (fun i hi hik => hleast i (by omega) hik)

/-- The probe loop of `game_get_ghost_y` under the same conditions returns `k`. -/
theorem ghost_loop_descended (piece : Piece) (grid : BlockList) (k : Int) :
    ∀ (fuel : Nat) (j : Int), j ≤ k → (k - j).toNat + 1 ≤ fuel →
    game_check_collision piece grid 0 (k + 1) = true →
    (∀ i : Int, j ≤ i → i < k → game_check_collision piece grid 0 (i + 1) = false) →
    ghost_loop piece grid fuel j = some k := by
  intro fuel
  induction fuel with
  | zero => intro j _ hfuel; omega
  | succ fuel ih =>
    intro j hjk hfuel hcollide hleast
    unfold ghost_loop
    by_cases hj : j = k
    · subst hj
      rw [hcollide]
      simp
    · have hlt : j < k := by omega
      rw [hleast j (le_refl _) hlt]
      simp only [Bool.false_eq_true, not_false_eq_true, if_true]
      exact ih (j + 1) (by omega) (by omega) hcollide
        (fun i hi hik => hleast i (by omega) hik)

/-- What the probe loop returns is the first offset, from its start, at which
one row further collides. -/
theorem ghost_loop_some (piece : Piece) (grid : BlockList) :
    ∀ (fuel : Nat) (j k : Int), ghost_loop piece grid fuel j = some k →
    j ≤ k ∧ game_check_collision piece grid 0 (k + 1) = true ∧
    ∀ i : Int, j ≤ i → i < k → game_check_collision piece grid 0 (i + 1) = false := by
  intro fuel
  induction fuel with
  | zero => intro j k h; simp [ghost_loop] at h
  | succ fuel ih =>
    intro j k h
    unfold ghost_loop at h
    cases hc : game_check_collision piece grid 0 (j + 1) with
    | true =>
      simp only [hc, not_true_eq_false, if_false, Option.some.injEq] at h
      subst h
      exact ⟨le_refl _, hc, fun i hi hik => by omega⟩
    | false =>
      simp only [hc, Bool.false_eq_true, not_false_eq_true, if_true] at h
      obtain ⟨h1, h2, h3⟩ := ih (j + 1) k h
      refine ⟨by omega, h2, ?_⟩
      intro i hi hik
      by_cases hij : i = j
      · subst hij; exact hc
      · exact h3 i (by omega) hik

/-- The fuel of `descent_fuel` covers the descent to the first offset at which
one row further collides. -/
theorem descent_fuel_covers (piece : Piece) (grid : BlockList) (k : Int) (hk : 0 ≤ k)
    (hcollide : game_check_collision piece grid 0 (k + 1) = true)
    (hleast : ∀ i : Int, 0 ≤ i → i < k → game_check_collision piece grid 0 (i + 1) = false) :
    (k - 0).toNat + 1 ≤ descent_fuel piece := by
  unfold descent_fuel
  cases hp : piece.blocks.head with
  | nil =>
    unfold game_check_collision at hcollide
    rw [hp] at hcollide
    simp [collision_loop] at hcollide
  | cons first rest =>
    simp only
    by_cases hk0 : k = 0
    · subst hk0; simp
    · have hprev := hleast (k - 1) (by omega) (by omega)
      have hlow : ¬ first.y + (k - 1 + 1) ≥ GRID_HEIGHT := by
        intro hge
        have hcol : game_check_collision piece grid 0 (k - 1 + 1) = true := by
          unfold game_check_collision
          rw [hp, collision_loop_iff]
          exact ⟨first, List.mem_cons_self _ _, Or.inr (Or.inr (Or.inl hge))⟩
        rw [hcol] at hprev
        exact Bool.noConfusion hprev
      simp only [GRID_HEIGHT] at hlow ⊢
      omega

/-- The loop of `game_get_ghost_y` for the least row: the result is at most the
start value and at most every row of the chain, and it is the start value or
the row of some node. -/
theorem min_y_loop_spec (cells : List Block) : ∀ (min_y : Int),
    min_y_loop min_y cells ≤ min_y ∧
    (∀ b ∈ cells, min_y_loop min_y cells ≤ b.y) ∧
    (min_y_loop min_y cells = min_y ∨ ∃ b ∈ cells, b.y = min_y_loop min_y cells) := by
  induction cells with
  | nil => intro min_y; simp [min_y_loop]
  | cons current next ih =>
    intro min_y
    unfold min_y_loop
    by_cases h : current.y < min_y
    · rw [if_pos h]
      obtain ⟨h1, h2, h3⟩ := ih current.y
      refine ⟨by omega, ?_, ?_⟩
      · intro b hb
        rcases List.mem_cons.mp hb with hb | hb
        · rw [hb]; exact h1
        · exact h2 b hb
      · right
        rcases h3 with h3 | ⟨b, hb, hby⟩
        · exact ⟨current, List.mem_cons_self _ _, h3.symm⟩
        · exact ⟨b, List.mem_cons_of_mem _ hb, hby⟩
    · rw [if_neg h]
      obtain ⟨h1, h2, h3⟩ := ih min_y
      refine ⟨h1, ?_, ?_⟩
      · intro b hb
        rcases List.mem_cons.mp hb with hb | hb
        · rw [hb]; omega
        · exact h2 b hb
      · rcases h3 with h3 | ⟨b, hb, hby⟩
        · exact Or.inl h3
        · exact Or.inr ⟨b, List.mem_cons_of_mem _ hb, hby⟩

/-- A hard drop of a session in play is the fix of the session `k` rows down,
`k` being the first offset at which one row further collides. -/
theorem drop_piece_eq (game : GameState) (type : PieceType) (k : Int)
    (hover : game.game_over = false) (hpaused : game.paused = false) (hk : 0 ≤ k)
    (hcollide : game_check_collision game.current_piece game.fixed_blocks 0 (k + 1) = true)
    (hleast : ∀ i : Int, 0 ≤ i → i < k →
      game_check_collision game.current_piece game.fixed_blocks 0 (i + 1) = false) :
    drop_loop (descent_fuel game.current_piece) game = some (descended game k) ∧
    game_drop_piece game type = game_fix_piece (descended game k) type := by
  have hloop : drop_loop (descent_fuel game.current_piece) game = some (descended game k) := by
    have := drop_loop_descended game k (descent_fuel game.current_piece) 0 hk
      (descent_fuel_covers _ _ k hk hcollide hleast) hcollide hleast
    rw [descended_zero] at this
    exact this
  refine ⟨hloop, ?_⟩
  unfold game_drop_piece
  have hactive : ¬ (game.game_over = true ∨ game.paused = true) := by
    simp [hover, hpaused]
  rw [if_neg hactive, hloop]

/-- Claim C20: in a session in play, with `k >= 0` the least offset such that the
current piece collides at `(0, k + 1)`, `game_drop_piece` moves every cell of the
piece down by `k` rows, adds `2 * k` to the score and then fixes the piece, also
when `k = 0`. -/
theorem drop_piece_descends (game : GameState) (type : PieceType) (k : Int)
    (hover : game.game_over = false) (hpaused : game.paused = false) (hk : 0 ≤ k)
    (hcollide : game_check_collision game.current_piece game.fixed_blocks 0 (k + 1) = true)
    (hleast : ∀ i : Int, 0 ≤ i → i < k →
      game_check_collision game.current_piece game.fixed_blocks 0 (i + 1) = false) :
    game_drop_piece game type =
      game_fix_piece { game with
        current_piece := { game.current_piece with
          blocks := { game.current_piece.blocks with
            head := game.current_piece.blocks.head.map
              (fun b => { x := b.x, y := b.y + k, color := b.color }) } },
        score := game.score + 2 * k } type := by
  rw [(drop_piece_eq game type k hover hpaused hk hcollide hleast).2]
  simp only [descended, piece_move, add_zero]

/-- Claim C20 at a concrete session: the spawned T piece drops 18 rows on the empty
grid and the score grows by 36. -/
theorem drop_piece_descends_witness :
    game_check_collision (game_init PIECE_T PIECE_O).current_piece
      (game_init PIECE_T PIECE_O).fixed_blocks 0 (18 + 1) = true ∧
    (game_drop_piece (game_init PIECE_T PIECE_O) PIECE_I).map
        (fun game' => (positions game'.fixed_blocks.head, game'.score))
      = some ([(4, 18), (3, 19), (4, 19), (5, 19)], 36) ∧
    game_drop_piece (game_init PIECE_T PIECE_O) PIECE_I =
      game_fix_piece { game_init PIECE_T PIECE_O with
        current_piece := { (game_init PIECE_T PIECE_O).current_piece with
          blocks := { (game_init PIECE_T PIECE_O).current_piece.blocks with
            head := (game_init PIECE_T PIECE_O).current_piece.blocks.head.map
              (fun b => { x := b.x, y := b.y + 18, color := b.color }) } },
        score := (game_init PIECE_T PIECE_O).score + 2 * 18 } PIECE_I :=
  ⟨by decide, by decide!,
    drop_piece_descends (game_init PIECE_T PIECE_O) PIECE_I 18 rfl rfl (by decide) (by decide)
      (by intro i h0 h18; interval_cases i <;> decide)⟩

/-- With the fuel of `descent_fuel`, or more, the probe loop of
`game_get_ghost_y` returns for every piece that has a node. -/
theorem ghost_loop_returns (piece : Piece) (grid : BlockList) (first : Block)
    (rest : List Block) (hp : piece.blocks.head = first :: rest) :
    ∀ (fuel : Nat) (j : Int), (GRID_HEIGHT - (first.y + j)).toNat + 1 ≤ fuel →
    ∃ k, ghost_loop piece grid fuel j = some k := by
  intro fuel
  induction fuel with
  | zero => intro j hfuel; omega
  | succ fuel ih =>
    intro j hfuel
    unfold ghost_loop
    cases hc : game_check_collision piece grid 0 (j + 1) with
    | true => exact ⟨j, by simp⟩
    | false =>
      simp only [Bool.false_eq_true, not_false_eq_true, if_true]
      have hlow : ¬ first.y + (j + 1) ≥ GRID_HEIGHT := by
        intro hge
        have hcol : game_check_collision piece grid 0 (j + 1) = true := by
          unfold game_check_collision
          rw [hp, collision_loop_iff]
          exact ⟨first, List.mem_cons_self _ _, Or.inr (Or.inr (Or.inl hge))⟩
        rw [hcol] at hc
        exact Bool.noConfusion hc
      apply ih (j + 1)
      simp only [GRID_HEIGHT] at hlow hfuel ⊢
      omega

/-- The function `game_get_ghost_y` returns for every piece that has a node. -/
theorem ghost_y_returns (game : GameState) (h : game.current_piece.blocks.head ≠ []) :
    ∃ ghost_y, game_get_ghost_y game = some ghost_y := by
  cases hp : game.current_piece.blocks.head with
  | nil => exact absurd hp h
  | cons first rest =>
    obtain ⟨k, hk⟩ := ghost_loop_returns game.current_piece game.fixed_blocks first rest hp
      (descent_fuel game.current_piece) 0 (by
        unfold descent_fuel
        rw [hp]
        simp)
    exact ⟨_, by unfold game_get_ghost_y; rw [hk]⟩

/-- In a session in play whose current piece does not collide where it stands,
if `game_get_ghost_y` returns `ghost_y` then the descent of `game_drop_piece`
returns a session whose current piece has its topmost cell on row `ghost_y`. -/
theorem drop_on_ghost_row (game : GameState) (type : PieceType) (ghost_y : Int)
    (hover : game.game_over = false) (hpaused : game.paused = false)
    (hfree : game_check_collision game.current_piece game.fixed_blocks 0 0 = false)
    (hghost : game_get_ghost_y game = some ghost_y) :
    ∃ dropped, drop_loop (descent_fuel game.current_piece) game = some dropped ∧
      game_drop_piece game type = game_fix_piece dropped type ∧
      (transfer_blocks dropped).fixed_blocks.head
        = game.fixed_blocks.head ++ dropped.current_piece.blocks.head ∧
      (∃ b ∈ dropped.current_piece.blocks.head, b.y = ghost_y) ∧
      (∀ b ∈ dropped.current_piece.blocks.head, ghost_y ≤ b.y) := by
  unfold game_get_ghost_y at hghost
  cases hloop : ghost_loop game.current_piece game.fixed_blocks
      (descent_fuel game.current_piece) 0 with
  | none => simp [hloop] at hghost
  | some k =>
    simp only [hloop, Option.some.injEq] at hghost
    obtain ⟨hk, hcollide, hleast⟩ := ghost_loop_some _ _ _ _ _ hloop
    obtain ⟨hdrop, hfix⟩ := drop_piece_eq game type k hover hpaused hk hcollide hleast
    obtain ⟨hle, hmin, hattained⟩ := min_y_loop_spec game.current_piece.blocks.head GRID_HEIGHT
    have hbelow : ∀ b ∈ game.current_piece.blocks.head, b.y < GRID_HEIGHT := by
      intro b hb
      by_contra hge
      have hcol : game_check_collision game.current_piece game.fixed_blocks 0 0 = true := by
        unfold game_check_collision
        rw [collision_loop_iff]
        exact ⟨b, hb, Or.inr (Or.inr (Or.inl (by simp only [add_zero]; omega)))⟩
      rw [hcol] at hfree
      exact Bool.noConfusion hfree
    have hsome : ∃ b ∈ game.current_piece.blocks.head,
        b.y = min_y_loop GRID_HEIGHT game.current_piece.blocks.head := by
      rcases hattained with h20 | h
      · exfalso
        have hne : ∃ b, b ∈ game.current_piece.blocks.head := by
          have hc := hcollide
          unfold game_check_collision at hc
          rw [collision_loop_iff] at hc
          obtain ⟨b, hb, _⟩ := hc
          exact ⟨b, hb⟩
        obtain ⟨b, hb⟩ := hne
        have h1 := hmin b hb
        have h2 := hbelow b hb
        omega
      · exact h
    have hcells : (descended game k).current_piece.blocks.head
        = game.current_piece.blocks.head.map
          (fun b => { b with x := b.x + 0, y := b.y + k }) := rfl
    refine ⟨descended game k, hdrop, hfix, ?_, ?_, ?_⟩
    · simp only [transfer_blocks, foldl_list_add]
      rfl
    · obtain ⟨b, hb, hby⟩ := hsome
      rw [hcells]
      refine ⟨{ b with x := b.x + 0, y := b.y + k }, List.mem_map.mpr ⟨b, hb, rfl⟩, ?_⟩
      show b.y + k = ghost_y
      rw [hby, hghost]
    · intro b hb
      rw [hcells] at hb
      obtain ⟨c, hc, hcb⟩ := List.mem_map.mp hb
      rw [← hcb, ← hghost]
      show min_y_loop GRID_HEIGHT game.current_piece.blocks.head + k ≤ c.y + k
      have := hmin c hc
      omega

/-- Claim C11: in a session in play whose current piece does not collide where it
stands, `game_get_ghost_y` returns when the piece has a cell, and for the value it
returns the descent of `game_drop_piece` returns too, and the cells it then
appends to the grid have that value as their topmost row. -/
theorem drop_lands_on_ghost (game : GameState) (type : PieceType)
    (hover : game.game_over = false) (hpaused : game.paused = false)
    (hfree : game_check_collision game.current_piece game.fixed_blocks 0 0 = false) :
    (game.current_piece.blocks.head ≠ [] → ∃ ghost_y, game_get_ghost_y game = some ghost_y) ∧
    ∀ ghost_y, game_get_ghost_y game = some ghost_y →
      ∃ dropped, drop_loop (descent_fuel game.current_piece) game = some dropped ∧
        game_drop_piece game type = game_fix_piece dropped type ∧
        (transfer_blocks dropped).fixed_blocks.head
          = game.fixed_blocks.head ++ dropped.current_piece.blocks.head ∧
        (∃ b ∈ dropped.current_piece.blocks.head, b.y = ghost_y) ∧
        (∀ b ∈ dropped.current_piece.blocks.head, ghost_y ≤ b.y) :=
  ⟨ghost_y_returns game,
    fun ghost_y hghost => drop_on_ghost_row game type ghost_y hover hpaused hfree hghost⟩

/-- Claim C11 at a concrete session: the ghost row is 17 and the dropped T piece
has its topmost cell on row 17. -/
theorem drop_lands_on_ghost_witness :
    game_get_ghost_y kick_state = some 17 ∧
    (kick_state.current_piece.blocks.head ≠ [] →
      ∃ ghost_y, game_get_ghost_y kick_state = some ghost_y) ∧
    ∀ ghost_y, game_get_ghost_y kick_state = some ghost_y →
      ∃ dropped, drop_loop (descent_fuel kick_state.current_piece) kick_state = some dropped ∧
        game_drop_piece kick_state PIECE_I = game_fix_piece dropped PIECE_I ∧
        (transfer_blocks dropped).fixed_blocks.head
          = kick_state.fixed_blocks.head ++ dropped.current_piece.blocks.head ∧
        (∃ b ∈ dropped.current_piece.blocks.head, b.y = ghost_y) ∧
        (∀ b ∈ dropped.current_piece.blocks.head, ghost_y ≤ b.y) :=
  ⟨by decide!, drop_lands_on_ghost kick_state PIECE_I rfl rfl (by decide!)⟩

/-! ### Blocked sideways moves and the pause toggle -/

/-- Claim C22: in a session in play, a move to an offset at which the current
piece collides, with `dy <= 0`, returns false and leaves the whole session
unchanged. -/
theorem move_piece_blocked_side (game : GameState) (dx dy : Int) (type : PieceType)
    (hover : game.game_over = false) (hpaused : game.paused = false)
    (hblocked : game_check_collision game.current_piece game.fixed_blocks dx dy = true)
    (hdy : dy ≤ 0) :
    game_move_piece game dx dy type = some (false, game) := by
  have hnot : ¬ dy > 0 := by omega
  simp only [game_move_piece, hover, hpaused, hblocked, hnot]
  simp

/-- Claim C22 at a concrete session: a T piece at the left wall cannot move left. -/
theorem move_piece_blocked_side_witness :
    game_check_collision kick_state.current_piece kick_state.fixed_blocks (-1) 0 = true ∧
    game_move_piece kick_state (-1) 0 PIECE_I = some (false, kick_state) :=
  ⟨by decide, move_piece_blocked_side kick_state (-1) 0 PIECE_I rfl rfl (by decide) (by decide)⟩

/-- Claim C25: `game_toggle_pause` negates the paused flag and changes no other
field, and applying it twice gives back the session. -/
theorem toggle_pause_spec (game : GameState) :
    (game_toggle_pause game).paused = !game.paused ∧
    (game_toggle_pause game).fixed_blocks = game.fixed_blocks ∧
    (game_toggle_pause game).current_piece = game.current_piece ∧
    (game_toggle_pause game).next_piece = game.next_piece ∧
    (game_toggle_pause game).score = game.score ∧
    (game_toggle_pause game).level = game.level ∧
    (game_toggle_pause game).lines_cleared = game.lines_cleared ∧
    (game_toggle_pause game).game_over = game.game_over ∧
    (game_toggle_pause game).fall_timer = game.fall_timer ∧
    (game_toggle_pause game).fall_speed = game.fall_speed ∧
    game_toggle_pause (game_toggle_pause game) = game := by
  refine ⟨rfl, rfl, rfl, rfl, rfl, rfl, rfl, rfl, rfl, rfl, ?_⟩
  simp [game_toggle_pause]

/-- Claim C26, as amended: in a session that is over, `handle_input` leaves the
session, the paused flag included, unchanged on the pause key, and on every key
but R. -/
theorem pause_key_ignored_when_over (game : GameState) (running : Bool)
    (type1 type2 : PieceType) (hover : game.game_over = true) :
    handle_input (SDL_KEYDOWN SDLK_p) game running type1 type2 = some (game, running) ∧
    (∀ key : SDL_Keycode, key ≠ SDLK_r →
      ∃ running', handle_input (SDL_KEYDOWN key) game running type1 type2
        = some (game, running')) := by
  refine ⟨?_, ?_⟩
  · simp [handle_input, hover]
  · intro key hkey
    unfold handle_input
    simp only [hover, if_true, hkey, if_false]
    by_cases hesc : key = SDLK_ESCAPE
    · exact ⟨false, by rw [if_pos hesc]⟩
    · exact ⟨running, by rw [if_neg hesc]⟩

/-- Claim C26, as amended, at a concrete session that is over. -/
theorem pause_key_ignored_when_over_witness :
    handle_input (SDL_KEYDOWN SDLK_p) over_state true PIECE_I PIECE_O
      = some (over_state, true) ∧
    (∀ key : SDL_Keycode, key ≠ SDLK_r →
      ∃ running', handle_input (SDL_KEYDOWN key) over_state true PIECE_I PIECE_O
        = some (over_state, running')) :=
  pause_key_ignored_when_over over_state true PIECE_I PIECE_O rfl

/-- Claim C26 as stated fails: `game_toggle_pause` has no test of `game_over` and
sets the paused flag of a session that is over. -/
theorem toggle_pause_when_over :
    over_state.game_over = true ∧ over_state.paused = false ∧
    (game_toggle_pause over_state).paused = true ∧
    game_toggle_pause over_state ≠ over_state :=
  ⟨rfl, rfl, rfl, by decide!⟩

/-! ### Created pieces -/

/-- Claim C24: for each of the seven kinds `piece_create` yields rotation 0 and
four pairwise distinct, edge-connected cells at the listed positions around the
anchor `(4, 0)`, each with the colour of the kind, and the piece does not collide
with the empty grid. -/
theorem piece_create_spec :
    positions (piece_create PIECE_I).blocks.head = [(3, 0), (4, 0), (5, 0), (6, 0)] ∧
    positions (piece_create PIECE_O).blocks.head = [(4, 0), (5, 0), (4, 1), (5, 1)] ∧
    positions (piece_create PIECE_T).blocks.head = [(4, 0), (3, 1), (4, 1), (5, 1)] ∧
    positions (piece_create PIECE_S).blocks.head = [(4, 0), (5, 0), (3, 1), (4, 1)] ∧
    positions (piece_create PIECE_Z).blocks.head = [(3, 0), (4, 0), (4, 1), (5, 1)] ∧
    positions (piece_create PIECE_J).blocks.head = [(3, 0), (3, 1), (4, 1), (5, 1)] ∧
    positions (piece_create PIECE_L).blocks.head = [(5, 0), (3, 1), (4, 1), (5, 1)] ∧
    ∀ type : PieceType,
      (piece_create type).type = type ∧
      (piece_create type).rotation = 0 ∧
      (piece_create type).blocks.head.length = 4 ∧
      (piece_create type).blocks.count = 4 ∧
      (positions (piece_create type).blocks.head).Nodup ∧
      edge_connected (positions (piece_create type).blocks.head) = true ∧
      (∀ b ∈ (piece_create type).blocks.head, b.color = piece_get_color type) ∧
      game_check_collision (piece_create type) list_create 0 0 = false := by
  refine ⟨by decide, by decide, by decide, by decide, by decide, by decide, by decide, ?_⟩
  intro type
  cases type <;>
    exact ⟨rfl, rfl, rfl, by decide, by decide, by decide!, by decide, by decide⟩

/-! ### What a fix does to grid and pieces -/

/-- The scoring block returns for every line count up to 4. -/
theorem apply_score_returns (game : GameState) (lines : Int) (hlines : lines ≤ 4) :
    ∃ game', apply_score game lines = some game' := by
  unfold apply_score
  by_cases hl : lines > 0
  · rw [if_pos hl]
    have : lines = 1 ∨ lines = 2 ∨ lines = 3 ∨ lines = 4 := by omega
    rcases this with h | h | h | h <;> subst h <;> exact ⟨_, rfl⟩
  · rw [if_neg hl]
    exact ⟨game, rfl⟩

/-- A fix returns when line clearing removes at most four lines. -/
theorem fix_piece_returns (game : GameState) (type : PieceType) (lines : Int)
    (game1 : GameState)
    (hclear : game_check_lines (transfer_blocks game) = some (lines, game1))
    (hlines : lines ≤ 4) :
    ∃ game', game_fix_piece game type = some game' := by
  obtain ⟨game2, h2⟩ := apply_score_returns game1 lines hlines
  refine ⟨spawn_next game2 type, ?_⟩
  unfold game_fix_piece
  rw [hclear]
  simp only [h2]

/-- The first loop of `game_fix_piece` appends the nodes of the piece to the chain
of the grid and raises the counter by their number. -/
theorem transfer_blocks_eq (game : GameState) :
    transfer_blocks game = { game with fixed_blocks :=
      { head := game.fixed_blocks.head ++ game.current_piece.blocks.head,
        count := game.fixed_blocks.count + game.current_piece.blocks.head.length } } := by
  simp only [transfer_blocks, foldl_list_add]

/-- Claim C23: the grid that `game_fix_piece` returns is the grid that line clearing
leaves when it is run on the old grid with one entry appended per cell of the
current piece, at the position and with the colour of the cell (in particular,
when no row of the grid so extended is full, the returned grid is the old one
followed by the nodes of the piece); afterwards the current piece is the former
next piece, the next piece is a fresh spawn of the drawn kind (rotation 0, spawn
cells of the kind) and the fall timer is 0. -/
theorem fix_piece_transfers (game : GameState) (type : PieceType) (lines : Int)
    (game1 : GameState)
    (hclear : game_check_lines { game with fixed_blocks :=
        { head := game.fixed_blocks.head ++ game.current_piece.blocks.head,
          count := game.fixed_blocks.count + game.current_piece.blocks.head.length } }
      = some (lines, game1))
    (hlines : lines ≤ 4) :
    ∃ game', game_fix_piece game type = some game' ∧
      game'.fixed_blocks = game1.fixed_blocks ∧
      ((∀ y : Int, 0 ≤ y → y < 20 →
          row_count (positions (game.fixed_blocks.head ++ game.current_piece.blocks.head)) y
            ≠ 10) →
        game'.fixed_blocks.head = game.fixed_blocks.head ++ game.current_piece.blocks.head ∧
        game'.fixed_blocks.count
          = game.fixed_blocks.count + game.current_piece.blocks.head.length) ∧
      game'.current_piece = game.next_piece ∧
      game'.next_piece.type = type ∧
      game'.next_piece.rotation = 0 ∧
      positions game'.next_piece.blocks.head = spawn_layout type ∧
      game'.fall_timer = 0 := by
  rw [← transfer_blocks_eq] at hclear
  obtain ⟨game', hfix⟩ := fix_piece_returns game type lines game1 hclear hlines
  obtain ⟨lines', game1', game2, hcl, hsc, hsp⟩ := fix_piece_stages game game' type hfix
  rw [hclear] at hcl
  simp only [Option.some.injEq, Prod.mk.injEq] at hcl
  obtain ⟨hl, hg⟩ := hcl
  subst hl
  subst hg
  have hgrid : game'.fixed_blocks = game1.fixed_blocks := by
    rw [hsp, (spawn_next_fields game2 type).1, (apply_score_frame _ _ _ hsc).1]
  obtain ⟨h1, h2, h3, _⟩ := fix_piece_pieces game game' type hfix
  have hl := piece_create_layout type
  refine ⟨game', hfix, hgrid, ?_, h1, ?_, ?_, ?_, h3⟩
  · intro hnone
    have hsame := check_lines_loop_no_full
      (20 + 1 + (transfer_blocks game).fixed_blocks.head.length) 20 (transfer_blocks game) 0
      (by omega) (by
        rw [transfer_blocks_eq]
        exact hnone)
    have hsame' : game_check_lines (transfer_blocks game) = some (0, transfer_blocks game) :=
      hsame
    rw [hclear] at hsame'
    simp only [Option.some.injEq, Prod.mk.injEq] at hsame'
    rw [hgrid, hsame'.2, transfer_blocks_eq]
    exact ⟨rfl, rfl⟩
  · rw [h2]; exact hl.1
  · rw [h2]; exact hl.2.1
  · rw [h2]; exact hl.2.2.1

/-- Claim C23 at a concrete session: a T piece resting on the floor is fixed; the
grid returned holds its four nodes. -/
theorem fix_piece_transfers_witness :
    (game_fix_piece landed_state PIECE_Z).map (fun game' => positions game'.fixed_blocks.head)
      = some [(4, 18), (3, 19), (4, 19), (5, 19)] ∧
    ∃ game', game_fix_piece landed_state PIECE_Z = some game' ∧
      game'.fixed_blocks = (transfer_blocks landed_state).fixed_blocks ∧
      ((∀ y : Int, 0 ≤ y → y < 20 →
          row_count (positions
            (landed_state.fixed_blocks.head ++ landed_state.current_piece.blocks.head)) y
            ≠ 10) →
        game'.fixed_blocks.head
          = landed_state.fixed_blocks.head ++ landed_state.current_piece.blocks.head ∧
        game'.fixed_blocks.count
          = landed_state.fixed_blocks.count + landed_state.current_piece.blocks.head.length) ∧
      game'.current_piece = landed_state.next_piece ∧
      game'.next_piece.type = PIECE_Z ∧
      game'.next_piece.rotation = 0 ∧
      positions game'.next_piece.blocks.head = spawn_layout PIECE_Z ∧
      game'.fall_timer = 0 :=
  ⟨by decide!,
    fix_piece_transfers landed_state PIECE_Z 0 (transfer_blocks landed_state) (by decide!)
      (by decide)⟩

/-! ### The ghost row -/

/-- For any session whose current piece has four cells, `game_get_ghost_y` returns
`m + k`, where `m` is the least of 20 and the rows of the cells (the search
starts from `GRID_HEIGHT`) and `k >= 0` is the least offset such that the piece
collides at `(0, k + 1)`. -/
theorem ghost_y_spec (game : GameState)
    (hfour : game.current_piece.blocks.head.length = 4) :
    ∃ m k : Int,
      game_get_ghost_y game = some (m + k) ∧
      m ≤ 20 ∧ (∀ b ∈ game.current_piece.blocks.head, m ≤ b.y) ∧
      (m = 20 ∨ ∃ b ∈ game.current_piece.blocks.head, b.y = m) ∧
      0 ≤ k ∧
      game_check_collision game.current_piece game.fixed_blocks 0 (k + 1) = true ∧
      ∀ i : Int, 0 ≤ i → i < k →
        game_check_collision game.current_piece game.fixed_blocks 0 (i + 1) = false := by
  have hne : game.current_piece.blocks.head ≠ [] := by
    intro h
    rw [h] at hfour
    simp at hfour
  obtain ⟨ghost_y, hghost⟩ := ghost_y_returns game hne
  have hg := hghost
  unfold game_get_ghost_y at hg
  cases hloop : ghost_loop game.current_piece game.fixed_blocks
      (descent_fuel game.current_piece) 0 with
  | none => simp [hloop] at hg
  | some k =>
    obtain ⟨hk, hcollide, hleast⟩ := ghost_loop_some _ _ _ _ _ hloop
    obtain ⟨hle, hmin, hattained⟩ := min_y_loop_spec game.current_piece.blocks.head GRID_HEIGHT
    refine ⟨min_y_loop GRID_HEIGHT game.current_piece.blocks.head, k, ?_, hle, hmin,
      ?_, hk, hcollide, hleast⟩
    · unfold game_get_ghost_y
      rw [hloop]
    · rcases hattained with h | h
      · exact Or.inl h
      · obtain ⟨b, hb, hby⟩ := h
        exact Or.inr ⟨b, hb, hby⟩

/-- The ghost row of a T piece at the left wall is `0 + 17`. -/
theorem ghost_y_spec_witness :
    game_get_ghost_y kick_state = some 17 ∧
    ∃ m k : Int,
      game_get_ghost_y kick_state = some (m + k) ∧
      m ≤ 20 ∧ (∀ b ∈ kick_state.current_piece.blocks.head, m ≤ b.y) ∧
      (m = 20 ∨ ∃ b ∈ kick_state.current_piece.blocks.head, b.y = m) ∧
      0 ≤ k ∧
      game_check_collision kick_state.current_piece kick_state.fixed_blocks 0 (k + 1) = true ∧
      ∀ i : Int, 0 ≤ i → i < k →
        game_check_collision kick_state.current_piece kick_state.fixed_blocks 0 (i + 1)
          = false :=
  ⟨by decide!, ghost_y_spec kick_state rfl⟩

/-- Outside the sessions of a play (there every cell of a piece is above the
floor): for a piece whose four cells are on row 25 the least row is 25 and
`k = 0`, but `game_get_ghost_y` returns 20. -/
theorem ghost_y_below_floor :
    sunk_state.current_piece.blocks.head.length = 4 ∧
    (∀ b ∈ sunk_state.current_piece.blocks.head, b.y = 25) ∧
    game_check_collision sunk_state.current_piece sunk_state.fixed_blocks 0 (0 + 1) = true ∧
    game_get_ghost_y sunk_state = some 20 ∧
    game_get_ghost_y sunk_state ≠ some (25 + 0) :=
  ⟨rfl, by decide, by decide, by decide!, by decide!⟩

/-! ### Rotation and distinct cells -/

/-- Claim C27, the code at the freshly spawned T piece: its four cells are pairwise
distinct, after `piece_rotate` two of them coincide, and `game_rotate_piece` on
the initial session succeeds and leaves the current piece with these cells. -/
theorem rotate_collapses_spawned_T :
    (positions (piece_create PIECE_T).blocks.head).Nodup ∧
    ¬ (positions (piece_rotate (piece_create PIECE_T)).blocks.head).Nodup ∧
    (game_rotate_piece (game_init PIECE_T PIECE_O)).1 = true ∧
    positions (game_rotate_piece (game_init PIECE_T PIECE_O)).2.current_piece.blocks.head
      = [(4, 0), (3, 0), (3, 0), (3, 1)] := by
  have h : positions (piece_rotate (piece_create PIECE_T)).blocks.head
      = [(4, 0), (3, 0), (3, 0), (3, 1)] := by decide!
  refine ⟨by decide, ?_, by decide!, by decide!⟩
  rw [h]
  decide

/-! ### Line clearing and colours -/

/-- The smallest grid on which line clearing keeps the wrong node: a red block at
`(3, 18)` precedes the grey full row 19 in the list; the red block is shifted to
`(3, 19)` first and is then the first match of `list_remove(3, 19)`, so the grey
node of the full row survives in its place. -/
theorem check_lines_swaps_colour :
    (positions swap_state.fixed_blocks.head).Nodup ∧
    row_count (positions swap_state.fixed_blocks.head) 19 = 10 ∧
    swap_state.fixed_blocks.head.head? = some { x := 3, y := 18, color := red } ∧
    (game_check_lines swap_state).map (fun res => (res.1, res.2.fixed_blocks.head))
      = some (1, [{ x := 3, y := 19, color := grey }]) :=
  ⟨by decide, by decide, rfl, by decide!⟩

/-- Claim C28, the code in play: before the last drop of `tuck_play` the I piece
lies on row 17 above the O pieces; the drop fills rows 18 and 19, both are
cleared, and of the four I cells that should remain on row 19 two are replaced
by nodes of an O piece, with the colour of the O piece. -/
theorem check_lines_swaps_colour_in_play :
    Reachable tuck_before ∧
    game_drop_piece tuck_before PIECE_T = game_fix_piece (descended tuck_before 18) PIECE_T ∧
    (positions tuck_full.fixed_blocks.head).Nodup ∧
    row_count (positions tuck_full.fixed_blocks.head) 19 = 10 ∧
    row_count (positions tuck_full.fixed_blocks.head) 18 = 10 ∧
    tuck_full.fixed_blocks.head.filter (fun b => b.y ≠ 18 ∧ b.y ≠ 19)
      = blocks_at (piece_get_color PIECE_I) [(0, 17), (1, 17), (2, 17), (3, 17)] ∧
    (game_check_lines tuck_full).map (fun res => (res.1, res.2.fixed_blocks.head))
      = some (2,
          blocks_at (piece_get_color PIECE_I) [(0, 19), (1, 19)] ++
          blocks_at (piece_get_color PIECE_O) [(2, 19), (3, 19)]) := by
  have hrun : run_commands (game_init PIECE_O PIECE_I) tuck_play.dropLast = some tuck_before := by
    decide!
  exact ⟨reachable_run_commands _ _ _ (Reachable.init PIECE_O PIECE_I) hrun, by decide!,
    by decide!, by decide!, by decide!, by decide!, by decide!⟩

/-! ### The play invariant -/

/-- A piece that does not collide where it stands has its cells in bounds. -/
theorem cells_in_bounds_of_free (piece : Piece) (grid : BlockList)
    (h : game_check_collision piece grid 0 0 = false) : GridInBounds piece.blocks.head := by
  intro b hb
  have hnot : ¬ game_check_collision piece grid 0 0 = true := by rw [h]; exact Bool.false_ne_true
  unfold game_check_collision at hnot
  rw [collision_loop_iff] at hnot
  simp only [add_zero, GRID_WIDTH, GRID_HEIGHT] at hnot
  refine ⟨?_, ?_, ?_⟩
  · by_contra hc
    exact hnot ⟨b, hb, Or.inl (by omega)⟩
  · by_contra hc
    exact hnot ⟨b, hb, Or.inr (Or.inl (by omega))⟩
  · by_contra hc
    exact hnot ⟨b, hb, Or.inr (Or.inr (Or.inl (by omega)))⟩

/-- Clearing a row below the floor line keeps the grid in bounds. -/
theorem clear_row_in_bounds (list : BlockList) (y : Int) (hy : y < 20)
    (h : GridInBounds list.head) : GridInBounds (clear_row list y).head := by
  intro b hb
  have hmem : (b.x, b.y) ∈ positions (clear_row list y).head :=
    List.mem_map.mpr ⟨b, hb, rfl⟩
  rw [(clear_row_perm list y).mem_iff] at hmem
  simp only [kept_cells, List.mem_map, List.mem_filter, positions] at hmem
  obtain ⟨p, ⟨⟨c, hc, hcp⟩, _⟩, hshift⟩ := hmem
  obtain ⟨h1, h2, h3⟩ := h c hc
  subst hcp
  unfold shift_down at hshift
  by_cases hlt : c.y < y
  · rw [if_pos hlt] at hshift
    simp only [Prod.mk.injEq] at hshift
    refine ⟨by omega, by omega, by omega⟩
  · rw [if_neg hlt] at hshift
    simp only [Prod.mk.injEq] at hshift
    refine ⟨by omega, by omega, by omega⟩

/-- The line loop keeps the grid in bounds. -/
theorem check_lines_loop_in_bounds (fuel : Nat) :
    ∀ (game : GameState) (y r : Int) (res : Int × GameState), y < 20 →
      GridInBounds game.fixed_blocks.head →
      check_lines_loop fuel game y r = some res →
      GridInBounds res.2.fixed_blocks.head := by
  induction fuel with
  | zero => intro game y r res _ _ h; simp [check_lines_loop] at h
  | succ fuel ih =>
    intro game y r res hy hb h
    unfold check_lines_loop at h
    by_cases hy0 : y ≥ 0
    · rw [if_pos hy0] at h
      by_cases hc : count_row y game.fixed_blocks.head = GRID_WIDTH
      · simp only [hc, if_true] at h
        exact ih _ _ _ _ (by omega) (clear_row_in_bounds _ _ hy hb) h
      · simp only [hc, if_false] at h
        exact ih _ _ _ _ (by omega) hb h
    · rw [if_neg hy0] at h
      simp only [Option.some.injEq] at h
      rw [← h]
      exact hb

/-- A fix of a piece that does not collide where it stands, on a grid in bounds,
leaves a session that satisfies the play invariant. -/
theorem fix_piece_inv (game game' : GameState) (type : PieceType)
    (hgrid : GridInBounds game.fixed_blocks.head)
    (hfree : game_check_collision game.current_piece game.fixed_blocks 0 0 = false)
    (h : game_fix_piece game type = some game') : PlayInv game' := by
  obtain ⟨lines, game1, game2, hcl, hsc, hsp⟩ := fix_piece_stages game game' type h
  have hcells := cells_in_bounds_of_free _ _ hfree
  have htrans : GridInBounds (transfer_blocks game).fixed_blocks.head := by
    simp only [transfer_blocks, foldl_list_add]
    intro b hb
    rcases List.mem_append.mp hb with hb | hb
    · exact hgrid b hb
    · exact hcells b hb
  have h1 : GridInBounds game1.fixed_blocks.head :=
    check_lines_loop_in_bounds _ _ _ _ _ (by simp [GRID_HEIGHT]) htrans hcl
  have ha := apply_score_frame _ _ _ hsc
  have hf := spawn_next_fields game2 type
  rw [hsp]
  refine ⟨?_, ?_⟩
  · rw [hf.1, ha.1]; exact h1
  · intro hover
    rw [hf.2.2.2.2.2.2.2.2.2] at hover
    rw [hf.1, hf.2.1]
    cases hc : game_check_collision game2.next_piece game2.fixed_blocks 0 0 with
    | false => rfl
    | true => rw [hc] at hover; simp at hover

/-- Moving keeps the play invariant. -/
theorem move_piece_inv (game game' : GameState) (dx dy : Int) (type : PieceType) (b : Bool)
    (hinv : PlayInv game) (h : game_move_piece game dx dy type = some (b, game')) :
    PlayInv game' := by
  unfold game_move_piece at h
  by_cases h1 : game.game_over = true ∨ game.paused = true
  · rw [if_pos h1] at h
    simp only [Option.some.injEq, Prod.mk.injEq] at h
    rw [← h.2]; exact hinv
  · rw [if_neg h1] at h
    have hover : game.game_over = false := by
      cases hg : game.game_over with
      | false => rfl
      | true => exact absurd (Or.inl hg) h1
    by_cases h2 : ¬ game_check_collision game.current_piece game.fixed_blocks dx dy = true
    · rw [if_pos h2] at h
      simp only [Option.some.injEq, Prod.mk.injEq] at h
      rw [← h.2]
      refine ⟨hinv.1, fun _ => ?_⟩
      show game_check_collision (piece_move game.current_piece dx dy) game.fixed_blocks 0 0 = false
      rw [check_collision_move]
      simp only [add_zero]
      cases hc : game_check_collision game.current_piece game.fixed_blocks dx dy with
      | false => rfl
      | true => exact absurd hc h2
    · rw [if_neg h2] at h
      by_cases h3 : dy > 0
      · rw [if_pos h3] at h
        cases hf : game_fix_piece game type with
        | none => simp [hf] at h
        | some g =>
          simp only [hf, Option.some.injEq, Prod.mk.injEq] at h
          rw [← h.2]
          exact fix_piece_inv _ _ _ hinv.1 (hinv.2 hover) hf
      · rw [if_neg h3] at h
        simp only [Option.some.injEq, Prod.mk.injEq] at h
        rw [← h.2]; exact hinv

/-- The rotation of a piece reads only its chain and its kind. -/
theorem piece_rotate_head_congr (piece piece' : Piece)
    (hhead : piece.blocks.head = piece'.blocks.head) (htype : piece.type = piece'.type) :
    (piece_rotate piece).blocks.head = (piece_rotate piece').blocks.head := by
  unfold piece_rotate
  by_cases h : piece.type = PIECE_O
  · rw [if_pos h, if_pos (htype ▸ h)]
    exact hhead
  · rw [if_neg h, if_neg (htype ▸ h)]
    simp only [piece_get_center, hhead]

/-- The rotated copy has the cells of the rotated piece. -/
theorem piece_rotate_copy_head (piece : Piece) :
    (piece_rotate (piece_copy piece)).blocks.head = (piece_rotate piece).blocks.head :=
  piece_rotate_head_congr _ _ (list_copy_head _) rfl

/-- Rotating keeps the play invariant. -/
theorem rotate_piece_inv (game : GameState) (hinv : PlayInv game) :
    PlayInv (game_rotate_piece game).2 := by
  have hcongr : ∀ dx : Int,
      game_check_collision (piece_rotate (piece_copy game.current_piece)) game.fixed_blocks dx 0
        = game_check_collision (piece_rotate game.current_piece) game.fixed_blocks dx 0 :=
    fun dx => check_collision_congr _ _ _ _ _ (piece_rotate_copy_head _)
  unfold game_rotate_piece
  by_cases h1 : game.game_over = true ∨ game.paused = true
  · rw [if_pos h1]; exact hinv
  · rw [if_neg h1]
    dsimp only
    by_cases h2 : ¬ game_check_collision (piece_rotate (piece_copy game.current_piece))
        game.fixed_blocks 0 0 = true
    · rw [if_pos h2]
      refine ⟨hinv.1, fun _ => ?_⟩
      show game_check_collision (piece_rotate game.current_piece) game.fixed_blocks 0 0 = false
      rw [← hcongr]
      cases hc : game_check_collision (piece_rotate (piece_copy game.current_piece))
          game.fixed_blocks 0 0 with
      | false => rfl
      | true => exact absurd hc h2
    · rw [if_neg h2]
      by_cases h3 : ¬ game_check_collision (piece_rotate (piece_copy game.current_piece))
          game.fixed_blocks 1 0 = true
      · rw [if_pos h3]
        refine ⟨hinv.1, fun _ => ?_⟩
        show game_check_collision (piece_move (piece_rotate game.current_piece) 1 0)
          game.fixed_blocks 0 0 = false
        rw [check_collision_move]
        simp only [add_zero]
        rw [← hcongr]
        cases hc : game_check_collision (piece_rotate (piece_copy game.current_piece))
            game.fixed_blocks 1 0 with
        | false => rfl
        | true => exact absurd hc h3
      · rw [if_neg h3]
        by_cases h4 : ¬ game_check_collision (piece_rotate (piece_copy game.current_piece))
            game.fixed_blocks (-1) 0 = true
        · rw [if_pos h4]
          refine ⟨hinv.1, fun _ => ?_⟩
          show game_check_collision (piece_move (piece_rotate game.current_piece) (-1) 0)
            game.fixed_blocks 0 0 = false
          rw [check_collision_move]
          simp only [add_zero]
          rw [← hcongr]
          cases hc : game_check_collision (piece_rotate (piece_copy game.current_piece))
              game.fixed_blocks (-1) 0 with
          | false => rfl
          | true => exact absurd hc h4
        · rw [if_neg h4]; exact hinv

/-- The descent loop keeps the grid and the flags, and a piece that does not
collide where it stands still does not after the descent. -/
theorem drop_loop_free (fuel : Nat) : ∀ (game game' : GameState),
    game_check_collision game.current_piece game.fixed_blocks 0 0 = false →
    drop_loop fuel game = some game' →
    game'.fixed_blocks = game.fixed_blocks ∧ game'.game_over = game.game_over ∧
    game_check_collision game'.current_piece game'.fixed_blocks 0 0 = false := by
  induction fuel with
  | zero => intro game game' _ h; simp [drop_loop] at h
  | succ fuel ih =>
    intro game game' hfree h
    unfold drop_loop at h
    by_cases h1 : ¬ game_check_collision game.current_piece game.fixed_blocks 0 1 = true
    · rw [if_pos h1] at h
      have hstep : game_check_collision (piece_move game.current_piece 0 1)
          game.fixed_blocks 0 0 = false := by
        rw [check_collision_move]
        simp only [add_zero]
        cases hc : game_check_collision game.current_piece game.fixed_blocks 0 1 with
        | false => rfl
        | true => exact absurd hc h1
      exact ih { game with
        current_piece := piece_move game.current_piece 0 1,
        score := game.score + 2 } game' hstep h
    · rw [if_neg h1] at h
      simp only [Option.some.injEq] at h
      rw [← h]
      exact ⟨rfl, rfl, hfree⟩

/-- A hard drop keeps the play invariant. -/
theorem drop_piece_inv (game game' : GameState) (type : PieceType)
    (hinv : PlayInv game) (h : game_drop_piece game type = some game') : PlayInv game' := by
  unfold game_drop_piece at h
  by_cases h1 : game.game_over = true ∨ game.paused = true
  · rw [if_pos h1] at h
    simp only [Option.some.injEq] at h; rw [← h]; exact hinv
  · rw [if_neg h1] at h
    have hover : game.game_over = false := by
      cases hg : game.game_over with
      | false => rfl
      | true => exact absurd (Or.inl hg) h1
    cases hd : drop_loop (descent_fuel game.current_piece) game with
    | none => simp [hd] at h
    | some g =>
      simp only [hd] at h
      obtain ⟨hg1, _, hg3⟩ := drop_loop_free _ _ _ (hinv.2 hover) hd
      exact fix_piece_inv _ _ _ (by rw [hg1]; exact hinv.1) hg3 h

/-- A tick keeps the play invariant. -/
theorem update_inv (game game' : GameState) (delta_time : ℚ) (type : PieceType)
    (hinv : PlayInv game) (h : game_update game delta_time type = some game') :
    PlayInv game' := by
  unfold game_update at h
  by_cases h1 : game.game_over = true ∨ game.paused = true
  · rw [if_pos h1] at h
    simp only [Option.some.injEq] at h; rw [← h]; exact hinv
  · rw [if_neg h1] at h
    dsimp only at h
    by_cases h2 : game.fall_timer + delta_time ≥ game.fall_speed
    · rw [if_pos h2] at h
      cases hm : game_move_piece { game with fall_timer := game.fall_timer + delta_time } 0 1 type with
      | none => simp [hm] at h
      | some res =>
        obtain ⟨b, g⟩ := res
        simp only [hm, Option.some.injEq] at h
        have := move_piece_inv _ _ _ _ _ _
          (show PlayInv { game with fall_timer := game.fall_timer + delta_time } from hinv) hm
        rw [← h]; exact this
    · rw [if_neg h2] at h
      simp only [Option.some.injEq] at h; rw [← h]; exact hinv

/-- A freshly created piece on the empty grid satisfies the play invariant. -/
theorem fresh_inv (type : PieceType) :
    game_check_collision (piece_create type) list_create 0 0 = false := by
  cases type <;> decide

/-- Every command keeps the play invariant. -/
theorem run_command_inv (game game' : GameState) (command : Command)
    (hinv : PlayInv game) (h : run_command game command = some game') : PlayInv game' := by
  cases command with
  | move dx dy type =>
    simp only [run_command, Option.map_eq_some'] at h
    obtain ⟨⟨b, g⟩, hm, hg⟩ := h
    subst hg
    exact move_piece_inv _ _ _ _ _ _ hinv hm
  | rotate =>
    simp only [run_command, Option.some.injEq] at h
    rw [← h]; exact rotate_piece_inv _ hinv
  | hardDrop type => exact drop_piece_inv _ _ _ hinv h
  | tick delta_time type => exact update_inv _ _ _ _ hinv h
  | togglePause =>
    simp only [run_command, Option.some.injEq] at h
    rw [← h]; exact hinv
  | reset type1 type2 =>
    simp only [run_command, Option.some.injEq] at h
    rw [← h]
    exact ⟨fun b hb => by simp [game_reset, list_clear] at hb, fun _ => fresh_inv type1⟩

/-- Every reachable session satisfies the play invariant. -/
theorem reachable_inv (game : GameState) (h : Reachable game) : PlayInv game := by
  induction h with
  | init type1 type2 =>
    exact ⟨fun b hb => by simp [game_init, list_create] at hb, fun _ => fresh_inv type1⟩
  | step game game' command _ hrun ih => exact run_command_inv _ _ _ ih hrun

/-- Claim C29: in every session reachable from `game_init` by move, rotate, hard
drop, tick, pause toggle and reset commands, with any spawned kinds, if
`game_over` is false the current piece does not collide with the grid at offset
`(0, 0)`. -/
theorem active_piece_free (game : GameState) (hreach : Reachable game)
    (hover : game.game_over = false) :
    game_check_collision game.current_piece game.fixed_blocks 0 0 = false :=
  (reachable_inv game hreach).2 hover

/-- Claim C29 at a concrete session: after a play that clears a line the new
current piece stands free. -/
theorem active_piece_free_witness :
    line_state.game_over = false ∧
    game_check_collision line_state.current_piece line_state.fixed_blocks 0 0 = false :=
  ⟨by decide!,
    active_piece_free line_state
      (reachable_run_commands line_play (game_init PIECE_I PIECE_I) line_state
        (Reachable.init PIECE_I PIECE_I) (by decide!)) (by decide!)⟩

/-- Claim C30: in every session reachable from `game_init` by move, rotate, hard
drop, tick, pause toggle and reset commands, every grid entry has `0 <= x < 10`
and `y < 20`. -/
theorem grid_in_bounds (game : GameState) (hreach : Reachable game) :
    ∀ b ∈ game.fixed_blocks.head, 0 ≤ b.x ∧ b.x < 10 ∧ b.y < 20 :=
  (reachable_inv game hreach).1

/-- Claim C30 at a concrete session: the four entries left by a rotated and
dropped T piece. -/
theorem grid_in_bounds_witness :
    dup_state.fixed_blocks.head.length = 4 ∧
    ∀ b ∈ dup_state.fixed_blocks.head, 0 ≤ b.x ∧ b.x < 10 ∧ b.y < 20 :=
  ⟨by decide!,
    grid_in_bounds dup_state
      (reachable_run_commands [Command.rotate, Command.hardDrop PIECE_I]
        (game_init PIECE_T PIECE_O) dup_state (Reachable.init PIECE_T PIECE_O) (by decide!))⟩

/-! ### Removing a list entry -/

/-- The scan of `list_remove` finds a node exactly when the chain splits at a
first node at `(x, y)`, which is the one it unlinks. -/
theorem remove_node_some (x y : Int) : ∀ (chain rest : List Block),
    remove_node x y chain = some rest →
    ∃ front e back, chain = front ++ e :: back ∧ e.x = x ∧ e.y = y ∧
      (∀ b ∈ front, ¬ (b.x = x ∧ b.y = y)) ∧ rest = front ++ back := by
  intro chain
  induction chain with
  | nil => intro rest h; simp [remove_node] at h
  | cons current next ih =>
    intro rest h
    unfold remove_node at h
    by_cases hc : current.x = x ∧ current.y = y
    · rw [if_pos hc] at h
      refine ⟨[], current, next, rfl, hc.1, hc.2, by simp, ?_⟩
      simpa using (Option.some.inj h).symm
    · rw [if_neg hc] at h
      cases hr : remove_node x y next with
      | none => rw [hr] at h; simp at h
      | some rest1 =>
        rw [hr] at h
        obtain ⟨front, e, back, h1, h2, h3, h4, h5⟩ := ih rest1 hr
        refine ⟨current :: front, e, back, by rw [h1]; rfl, h2, h3, ?_, ?_⟩
        · intro b hb
          rcases List.mem_cons.mp hb with hb | hb
          · rw [hb]; exact hc
          · exact h4 b hb
        · have := (Option.some.inj h).symm
          rw [this, h5]; rfl

/-- The scans of `list_remove` and `list_find` succeed together. -/
theorem remove_node_isSome (x y : Int) : ∀ (chain : List Block),
    (remove_node x y chain).isSome = (find_node x y chain).isSome := by
  intro chain
  induction chain with
  | nil => rfl
  | cons current next ih =>
    unfold remove_node find_node
    by_cases hc : current.x = x ∧ current.y = y
    · rw [if_pos hc, if_pos hc]; rfl
    · rw [if_neg hc, if_neg hc, ← ih]
      cases remove_node x y next <;> rfl

/-- Claim C38: `list_remove` returns true exactly when `list_find` finds an entry
at `(x, y)`; it then deletes the first such entry in list order, keeps all other
entries in order and lowers the count by one; when it returns false the list is
unchanged. -/
theorem list_remove_spec (list : BlockList) (x y : Int) :
    ((list_remove list x y).1 = true ↔ (list_find list x y).isSome = true) ∧
    ((list_remove list x y).1 = true →
      ∃ front e back, list.head = front ++ e :: back ∧ e.x = x ∧ e.y = y ∧
        (∀ b ∈ front, ¬ (b.x = x ∧ b.y = y)) ∧
        (list_remove list x y).2 = { head := front ++ back, count := list.count - 1 }) ∧
    ((list_remove list x y).1 = false → (list_remove list x y).2 = list) := by
  have hs := remove_node_isSome x y list.head
  unfold list_remove list_find
  cases hr : remove_node x y list.head with
  | none =>
    rw [hr] at hs
    refine ⟨?_, ?_, ?_⟩
    · simp only []
      rw [← hs]; simp
    · intro h; simp at h
    · intro _; rfl
  | some rest =>
    rw [hr] at hs
    refine ⟨?_, ?_, ?_⟩
    · simp only []
      rw [← hs]; simp
    · intro _
      obtain ⟨front, e, back, h1, h2, h3, h4, h5⟩ := remove_node_some x y _ _ hr
      exact ⟨front, e, back, h1, h2, h3, h4, by simp only []; rw [h5]⟩
    · intro h; simp at h

/-! ### The ghost probes -/

/-- The descent loop of the renderer from `j` rows down, with `k` the first
offset at which one row further collides: it returns the piece `k` rows down. -/
theorem ghost_descent_moved (piece : Piece) (grid : BlockList) (k : Int) :
    ∀ (fuel : Nat) (j : Int), j ≤ k → (k - j).toNat + 1 ≤ fuel →
    game_check_collision piece grid 0 (k + 1) = true →
    (∀ i : Int, j ≤ i → i < k → game_check_collision piece grid 0 (i + 1) = false) →
    ghost_descent grid fuel (piece_move piece 0 j) = some (piece_move piece 0 k) := by
  intro fuel
  induction fuel with
  | zero => intro j _ hfuel; omega
  | succ fuel ih =>
    intro j hjk hfuel hcollide hleast
    unfold ghost_descent
    have htest : game_check_collision (piece_move piece 0 j) grid 0 1
        = game_check_collision piece grid 0 (j + 1) := by
      rw [check_collision_move, add_zero]
    rw [htest]
    by_cases hj : j = k
    · subst hj
      rw [hcollide]
      simp
    · have hlt : j < k := by omega
      rw [hleast j (le_refl _) hlt]
      simp only [Bool.false_eq_true, not_false_eq_true, if_true]
      rw [piece_move_move, add_zero]
      exact ih (j + 1) (by omega) (by omega) hcollide
        (fun i hi hik => hleast i (by omega) hik)

/-- The copy of a piece has the fuel of the piece. -/
theorem descent_fuel_copy (piece : Piece) :
    descent_fuel (piece_copy piece) = descent_fuel piece := by
  unfold descent_fuel piece_copy
  simp only [list_copy_head]

/-- Claim C39: testing a piece translated by `(a, b)` at offset `(dx, dy)` gives the
result of testing the original piece at `(a + dx, b + dy)`; hence, for a piece
with a cell, the clone-and-move probe of `render_ghost_piece` and the offset
probe of `game_get_ghost_y` stop after the same number of rows: the ghost that
is drawn is the copy moved down by the offset that `game_get_ghost_y` adds to
the least row. -/
theorem ghost_probes_agree (piece : Piece) (grid : BlockList) (a b dx dy : Int)
    (game : GameState) (hcell : game.current_piece.blocks.head ≠ []) :
    game_check_collision (piece_move piece a b) grid dx dy
      = game_check_collision piece grid (a + dx) (b + dy) ∧
    ∃ k : Int,
      ghost_loop game.current_piece game.fixed_blocks (descent_fuel game.current_piece) 0
        = some k ∧
      game_get_ghost_y game
        = some (min_y_loop GRID_HEIGHT game.current_piece.blocks.head + k) ∧
      ghost_descent game.fixed_blocks (descent_fuel game.current_piece)
          (piece_copy game.current_piece)
        = some (piece_move (piece_copy game.current_piece) 0 k) ∧
      render_ghost_piece game
        = some ((piece_move game.current_piece 0 k).blocks.head.filter
            (fun current => current.y ≥ 0)) := by
  refine ⟨check_collision_move piece grid a b dx dy, ?_⟩
  cases hp : game.current_piece.blocks.head with
  | nil => exact absurd hp hcell
  | cons first rest =>
    obtain ⟨k, hk⟩ := ghost_loop_returns game.current_piece game.fixed_blocks first rest hp
      (descent_fuel game.current_piece) 0 (by
        unfold descent_fuel
        rw [hp]
        simp)
    obtain ⟨hk0, hcollide, hleast⟩ := ghost_loop_some _ _ _ _ _ hk
    have hhead : (piece_copy game.current_piece).blocks.head = game.current_piece.blocks.head :=
      list_copy_head _
    have hcopy : ∀ d : Int, game_check_collision (piece_copy game.current_piece)
        game.fixed_blocks 0 d = game_check_collision game.current_piece game.fixed_blocks 0 d :=
      fun d => check_collision_congr _ _ _ _ _ hhead
    have hdesc : ghost_descent game.fixed_blocks (descent_fuel game.current_piece)
        (piece_copy game.current_piece)
        = some (piece_move (piece_copy game.current_piece) 0 k) := by
      have := ghost_descent_moved (piece_copy game.current_piece) game.fixed_blocks k
        (descent_fuel game.current_piece) 0 hk0
        (descent_fuel_covers _ _ k hk0 hcollide hleast)
        (by rw [hcopy]; exact hcollide)
        (fun i hi hik => by rw [hcopy]; exact hleast i hi hik)
      rw [piece_move_zero] at this
      exact this
    refine ⟨k, hk, ?_, hdesc, ?_⟩
    · unfold game_get_ghost_y
      simp only [hk, hp]
    · unfold render_ghost_piece
      rw [hdesc]
      simp only [piece_move, hhead]

/-- Claim C39 at a concrete session: the spawned T piece on the empty grid; both
probes descend 18 rows. -/
theorem ghost_probes_agree_witness :
    (game_init PIECE_T PIECE_O).current_piece.blocks.head ≠ [] ∧
    game_get_ghost_y (game_init PIECE_T PIECE_O) = some 18 ∧
    (render_ghost_piece (game_init PIECE_T PIECE_O)).map positions
      = some [(4, 18), (3, 19), (4, 19), (5, 19)] ∧
    (game_check_collision (piece_move (piece_create PIECE_T) 0 18)
        (game_init PIECE_T PIECE_O).fixed_blocks 0 1
      = game_check_collision (piece_create PIECE_T)
        (game_init PIECE_T PIECE_O).fixed_blocks (0 + 0) (18 + 1) ∧
    ∃ k : Int,
      ghost_loop (game_init PIECE_T PIECE_O).current_piece
          (game_init PIECE_T PIECE_O).fixed_blocks
          (descent_fuel (game_init PIECE_T PIECE_O).current_piece) 0 = some k ∧
      game_get_ghost_y (game_init PIECE_T PIECE_O)
        = some (min_y_loop GRID_HEIGHT (game_init PIECE_T PIECE_O).current_piece.blocks.head
            + k) ∧
      ghost_descent (game_init PIECE_T PIECE_O).fixed_blocks
          (descent_fuel (game_init PIECE_T PIECE_O).current_piece)
          (piece_copy (game_init PIECE_T PIECE_O).current_piece)
        = some (piece_move (piece_copy (game_init PIECE_T PIECE_O).current_piece) 0 k) ∧
      render_ghost_piece (game_init PIECE_T PIECE_O)
        = some ((piece_move (game_init PIECE_T PIECE_O).current_piece 0 k).blocks.head.filter
            (fun current => current.y ≥ 0))) :=
  ⟨by decide, by decide!, by decide!,
    ghost_probes_agree (piece_create PIECE_T) (game_init PIECE_T PIECE_O).fixed_blocks 0 18 0 1
      (game_init PIECE_T PIECE_O) (by decide)⟩

/-! ### Bound on the descent -/

/-- Claim C34: when the active piece has a cell, the descent loops of
`game_drop_piece` and `game_get_ghost_y` return, both after the same number `k`
of rows (with the fuel of the model or more), and `k` is at most
`max(0, GRID_HEIGHT - 1 - maxY)`, `maxY` being the largest row of the piece. -/
theorem descent_bounded (game : GameState) (hcell : game.current_piece.blocks.head ≠ []) :
    ∃ k : Int, 0 ≤ k ∧
      (∀ fuel : Nat, descent_fuel game.current_piece ≤ fuel →
        ghost_loop game.current_piece game.fixed_blocks fuel 0 = some k ∧
        drop_loop fuel game = some (descended game k)) ∧
      ∀ maxY : Int, (∃ b ∈ game.current_piece.blocks.head, b.y = maxY) →
        (∀ b ∈ game.current_piece.blocks.head, b.y ≤ maxY) →
        k ≤ max 0 (GRID_HEIGHT - 1 - maxY) := by
  cases hp : game.current_piece.blocks.head with
  | nil => exact absurd hp hcell
  | cons first rest =>
    obtain ⟨k, hk⟩ := ghost_loop_returns game.current_piece game.fixed_blocks first rest hp
      (descent_fuel game.current_piece) 0 (by
        unfold descent_fuel
        rw [hp]
        simp)
    obtain ⟨hk0, hcollide, hleast⟩ := ghost_loop_some _ _ _ _ _ hk
    have hfuel := descent_fuel_covers _ _ k hk0 hcollide hleast
    refine ⟨k, hk0, ?_, ?_⟩
    · intro fuel hle
      refine ⟨ghost_loop_descended _ _ k fuel 0 hk0 (le_trans hfuel hle) hcollide hleast, ?_⟩
      have := drop_loop_descended game k fuel 0 hk0 (le_trans hfuel hle) hcollide hleast
      rw [descended_zero] at this
      exact this
    · rintro maxY ⟨b, hb, hby⟩ _
      by_cases hk1 : k = 0
      · rw [hk1]; exact le_max_left _ _
      · have hprev := hleast (k - 1) (by omega) (by omega)
        have hlow : ¬ b.y + (k - 1 + 1) ≥ GRID_HEIGHT := by
          intro hge
          have hcol : game_check_collision game.current_piece game.fixed_blocks 0 (k - 1 + 1)
              = true := by
            unfold game_check_collision
            rw [collision_loop_iff]
            exact ⟨b, by rw [hp]; exact hb, Or.inr (Or.inr (Or.inl hge))⟩
          rw [hcol] at hprev
          exact Bool.noConfusion hprev
        apply le_max_of_le_right
        simp only [GRID_HEIGHT] at hlow ⊢
        omega

/-- Claim C34 at a concrete session: the spawned T piece on the empty grid, whose
largest row is 1, descends 18 rows. -/
theorem descent_bounded_witness :
    (game_init PIECE_T PIECE_O).current_piece.blocks.head ≠ [] ∧
    ghost_loop (game_init PIECE_T PIECE_O).current_piece
      (game_init PIECE_T PIECE_O).fixed_blocks
      (descent_fuel (game_init PIECE_T PIECE_O).current_piece) 0 = some 18 ∧
    ∃ k : Int, 0 ≤ k ∧
      (∀ fuel : Nat, descent_fuel (game_init PIECE_T PIECE_O).current_piece ≤ fuel →
        ghost_loop (game_init PIECE_T PIECE_O).current_piece
          (game_init PIECE_T PIECE_O).fixed_blocks fuel 0 = some k ∧
        drop_loop fuel (game_init PIECE_T PIECE_O)
          = some (descended (game_init PIECE_T PIECE_O) k)) ∧
      ∀ maxY : Int, (∃ b ∈ (game_init PIECE_T PIECE_O).current_piece.blocks.head, b.y = maxY) →
        (∀ b ∈ (game_init PIECE_T PIECE_O).current_piece.blocks.head, b.y ≤ maxY) →
        k ≤ max 0 (GRID_HEIGHT - 1 - maxY) :=
  ⟨by decide, by decide, descent_bounded (game_init PIECE_T PIECE_O) (by decide)⟩

/-! ### Line counts on every grid -/

/-- Counting the cells of rows up to `y` that satisfy a row test `f`, row `y`
passing it: the cells kept by a clear of row `y` that satisfy the shifted test
`g`, plus the cells of row `y`. -/
theorem countP_kept_cells (y : Int) (f g : Int → Bool) (hfy : f y = true)
    (hg : ∀ r : Int, r ≤ y → g r = f (r - 1)) (cells : List (Int × Int)) :
    cells.countP (fun p => decide (p.2 ≤ y) && f p.2)
      = (kept_cells y cells).countP (fun p => decide (p.2 ≤ y) && g p.2)
        + row_count cells y := by
  induction cells with
  | nil => simp [kept_cells, row_count]
  | cons p rest ih =>
    by_cases h1 : p.2 = y
    · rw [kept_cells_cons_on y p rest h1, row_count_cons, if_pos h1, List.countP_cons, ih]
      have : (decide (p.2 ≤ y) && f p.2) = true := by
        rw [h1, hfy]; simp
      rw [if_pos this]
      omega
    · rw [kept_cells_cons_off y p rest h1, row_count_cons, if_neg h1, List.countP_cons,
        List.countP_cons, ih]
      have hsame : (decide (p.2 ≤ y) && f p.2)
          = (decide ((shift_down y p).2 ≤ y) && g (shift_down y p).2) := by
        by_cases h2 : p.2 < y
        · have hs : (shift_down y p).2 = p.2 + 1 := by simp [shift_down, h2]
          rw [hs, hg (p.2 + 1) (by omega)]
          have e1 : decide (p.2 ≤ y) = true := by simp; omega
          have e2 : decide (p.2 + 1 ≤ y) = true := by simp; omega
          rw [e1, e2]
          simp
        · have hs : (shift_down y p).2 = p.2 := by simp [shift_down, h2]
          rw [hs]
          have e1 : decide (p.2 ≤ y) = false := by simp; omega
          rw [e1]
          simp
      rw [hsame]
      omega

/-- The cells on full rows do not depend on the order of the cells. -/
theorem full_row_cells_perm (a b : List (Int × Int)) (h : a.Perm b) (y : Int) :
    full_row_cells a y = full_row_cells b y := by
  unfold full_row_cells
  have hf : (fun p : Int × Int => decide (p.2 ≤ y ∧ row_count a p.2 = 10))
      = (fun p : Int × Int => decide (p.2 ≤ y ∧ row_count b p.2 = 10)) := by
    funext p
    rw [row_count_perm a b h]
  rw [hf]
  exact h.countP_eq _

/-- A clear of the full row `y` removes ten cells from the cells on full rows up
to `y`. -/
theorem full_row_cells_kept (y : Int) (cells : List (Int × Int))
    (hfull : row_count cells y = 10) :
    full_row_cells cells y = full_row_cells (kept_cells y cells) y + 10 := by
  unfold full_row_cells
  have := countP_kept_cells y (fun r => decide (row_count cells r = 10))
    (fun r => decide (row_count (kept_cells y cells) r = 10)) (by simp [hfull])
    (by
      intro r hr
      dsimp only
      rw [row_count_kept, if_pos hr]) cells
  rw [hfull] at this
  simpa [Bool.decide_and] using this

/-- Leaving a row that is not full does not change the cells on full rows. -/
theorem full_row_cells_pred (y : Int) (cells : List (Int × Int))
    (hnot : row_count cells y ≠ 10) :
    full_row_cells cells y = full_row_cells cells (y - 1) := by
  unfold full_row_cells
  apply List.countP_congr
  intro p _
  simp only [decide_eq_true_eq]
  constructor
  · rintro ⟨h1, h2⟩
    refine ⟨?_, h2⟩
    by_contra hc
    have : p.2 = y := by omega
    rw [this] at h2
    exact hnot h2
  · rintro ⟨h1, h2⟩
    exact ⟨by omega, h2⟩

/-- What the line loop returns: the lines it was given plus a number `k` of
removed rows, ten times `k` being at most the number of cells on full rows up
to the start row; the chain and the counter are `10 * k` shorter. -/
theorem check_lines_loop_count : ∀ (fuel : Nat) (game : GameState) (y r : Int)
    (res : Int × GameState), check_lines_loop fuel game y r = some res →
    ∃ k : Nat, res.1 = r + (k : Int) ∧
      10 * k ≤ full_row_cells (positions game.fixed_blocks.head) y ∧
      res.2.fixed_blocks.head.length + 10 * k = game.fixed_blocks.head.length ∧
      res.2.fixed_blocks.count = game.fixed_blocks.count - 10 * (k : Int) := by
  intro fuel
  induction fuel with
  | zero => intro game y r res h; simp [check_lines_loop] at h
  | succ fuel ih =>
    intro game y r res h
    unfold check_lines_loop at h
    by_cases hy : y ≥ 0
    · rw [if_pos hy] at h
      by_cases hfull : count_row y game.fixed_blocks.head = GRID_WIDTH
      · simp only [hfull, if_true] at h
        rw [show y + 1 - 1 = y by omega] at h
        obtain ⟨k, h1, h2, h3, h4⟩ := ih _ _ _ _ h
        have hperm := clear_row_perm game.fixed_blocks y
        have hrow : row_count (positions game.fixed_blocks.head) y = 10 := by
          rw [count_row_eq] at hfull
          simp only [GRID_WIDTH] at hfull
          exact_mod_cast hfull
        have hcells := full_row_cells_kept y _ hrow
        have hp := full_row_cells_perm _ _ hperm y
        have hlen := hperm.length_eq
        have hkl := kept_cells_length y (positions game.fixed_blocks.head)
        have hcnt : (clear_row game.fixed_blocks y).count = game.fixed_blocks.count - 10 := by
          have := (clear_row_loop_perm y game.fixed_blocks.head [] game.fixed_blocks.count).2
          rw [hfull] at this
          simpa [clear_row, GRID_WIDTH] using this
        rw [hrow] at hkl
        simp only [] at h2 h3 h4
        rw [hp] at h2
        have hl1 : (positions (clear_row game.fixed_blocks y).head).length
            = (clear_row game.fixed_blocks y).head.length := by simp [positions]
        have hl2 : (positions game.fixed_blocks.head).length
            = game.fixed_blocks.head.length := by simp [positions]
        refine ⟨k + 1, ?_, ?_, ?_, ?_⟩
        · rw [h1]; push_cast; omega
        · omega
        · omega
        · rw [h4, hcnt]; push_cast; omega
      · simp only [hfull, if_false] at h
        obtain ⟨k, h1, h2, h3, h4⟩ := ih _ _ _ _ h
        have hrow : row_count (positions game.fixed_blocks.head) y ≠ 10 := by
          intro hc
          apply hfull
          rw [count_row_eq, hc]
          rfl
        rw [← full_row_cells_pred y _ hrow] at h2
        exact ⟨k, h1, h2, h3, h4⟩
    · rw [if_neg hy] at h
      have := (Option.some.inj h).symm
      subst this
      exact ⟨0, by simp, by simp, by simp, by simp⟩

/-- Claim C33: on every grid, duplicates and negative rows included,
`game_check_lines` returns, with the fuel of the model or more; the number `k`
it returns is a natural number with `k * GRID_WIDTH` at most the number of
entries, and the grid is left with exactly `k * GRID_WIDTH` fewer entries, in
the chain and in the counter. -/
theorem check_lines_count (game : GameState) :
    ∃ (k : Nat) (game' : GameState),
      (∀ extra : Nat,
        check_lines_loop (GRID_HEIGHT.toNat + 1 + game.fixed_blocks.head.length + extra) game
          (GRID_HEIGHT - 1) 0 = some ((k : Int), game')) ∧
      game_check_lines game = some ((k : Int), game') ∧
      (k : Int) * GRID_WIDTH ≤ (game.fixed_blocks.head.length : Int) ∧
      (game'.fixed_blocks.head.length : Int)
        = (game.fixed_blocks.head.length : Int) - (k : Int) * GRID_WIDTH ∧
      game'.fixed_blocks.count = game.fixed_blocks.count - (k : Int) * GRID_WIDTH := by
  obtain ⟨res, hres⟩ := check_lines_returns game
  obtain ⟨k, h1, _, h3, h4⟩ := check_lines_loop_count _ _ _ _ _ hres
  obtain ⟨lines, game'⟩ := res
  simp only [zero_add] at h1
  subst h1
  refine ⟨k, game', ?_, hres, ?_, ?_, ?_⟩
  · intro extra
    induction extra with
    | zero => exact hres
    | succ n ihn => exact check_lines_loop_fuel_mono _ _ _ _ _ ihn
  · simp only [GRID_WIDTH] at *
    omega
  · simp only [GRID_WIDTH] at *
    omega
  · simp only [GRID_WIDTH] at *
    rw [h4]; ring

/-- What the line loop leaves: the rows below the start row keep their count, and
no row from 0 to the start row holds exactly ten cells. -/
theorem check_lines_loop_leaves : ∀ (fuel : Nat) (game : GameState) (y r : Int)
    (res : Int × GameState), check_lines_loop fuel game y r = some res →
    (∀ q : Int, y < q → row_count (positions res.2.fixed_blocks.head) q
      = row_count (positions game.fixed_blocks.head) q) ∧
    (∀ q : Int, 0 ≤ q → q ≤ y → row_count (positions res.2.fixed_blocks.head) q ≠ 10) := by
  intro fuel
  induction fuel with
  | zero => intro game y r res h; simp [check_lines_loop] at h
  | succ fuel ih =>
    intro game y r res h
    unfold check_lines_loop at h
    by_cases hy : y ≥ 0
    · rw [if_pos hy] at h
      by_cases hfull : count_row y game.fixed_blocks.head = GRID_WIDTH
      · simp only [hfull, if_true] at h
        rw [show y + 1 - 1 = y by omega] at h
        obtain ⟨h1, h2⟩ := ih _ _ _ _ h
        refine ⟨?_, h2⟩
        intro q hq
        rw [h1 q hq]
        simp only []
        rw [row_count_perm _ _ (clear_row_perm game.fixed_blocks y), row_count_kept,
          if_neg (by omega)]
      · simp only [hfull, if_false] at h
        obtain ⟨h1, h2⟩ := ih _ _ _ _ h
        refine ⟨fun q hq => h1 q (by omega), ?_⟩
        intro q hq0 hqy
        by_cases hq : q = y
        · rw [hq, h1 y (by omega)]
          intro hc
          apply hfull
          rw [count_row_eq, hc]
          rfl
        · exact h2 q hq0 (by omega)
    · rw [if_neg hy] at h
      have := (Option.some.inj h).symm
      subst this
      exact ⟨fun _ _ => rfl, fun q h0 hq => by omega⟩

/-- Claim C35: on every grid, `game_check_lines` returns and leaves no row `y` with
`0 <= y < GRID_HEIGHT` that holds exactly `GRID_WIDTH` entries. -/
theorem check_lines_leaves_no_full (game : GameState) :
    ∃ (lines : Int) (game' : GameState), game_check_lines game = some (lines, game') ∧
      ∀ y : Int, 0 ≤ y → y < GRID_HEIGHT →
        (row_count (positions game'.fixed_blocks.head) y : Int) ≠ GRID_WIDTH := by
  obtain ⟨res, hres⟩ := check_lines_returns game
  obtain ⟨_, h2⟩ := check_lines_loop_leaves _ _ _ _ _ hres
  obtain ⟨lines, game'⟩ := res
  refine ⟨lines, game', hres, ?_⟩
  intro y h0 hy hc
  simp only [GRID_HEIGHT, GRID_WIDTH] at hy hc h2
  exact h2 y h0 (by omega) (by exact_mod_cast hc)

/-- Counting with a disjunction of two tests. -/
theorem countP_or_le (p q : Int × Int → Bool) (cells : List (Int × Int)) :
    cells.countP (fun c => p c || q c) ≤ cells.countP p + cells.countP q := by
  induction cells with
  | nil => simp
  | cons c rest ih =>
    rw [List.countP_cons, List.countP_cons, List.countP_cons]
    cases hp : p c <;> cases hq : q c <;> simp <;> omega

/-- The cells that share a full row with one of the given cells number at most
ten for each given cell. -/
theorem countP_rows_le (cells : List (Int × Int)) : ∀ (given : List (Int × Int)),
    cells.countP (fun p => given.any (fun c => decide (p.2 = c.2 ∧ row_count cells c.2 = 10)))
      ≤ 10 * given.length := by
  intro given
  induction given with
  | nil => simp
  | cons c rest ih =>
    have hor := countP_or_le (fun p => decide (p.2 = c.2 ∧ row_count cells c.2 = 10))
      (fun p => rest.any (fun c => decide (p.2 = c.2 ∧ row_count cells c.2 = 10))) cells
    have hone : cells.countP (fun p => decide (p.2 = c.2 ∧ row_count cells c.2 = 10)) ≤ 10 := by
      by_cases hc : row_count cells c.2 = 10
      · have : cells.countP (fun p => decide (p.2 = c.2 ∧ row_count cells c.2 = 10))
            = row_count cells c.2 := by
          unfold row_count
          apply List.countP_congr
          intro p _
          simp only [decide_eq_true_eq]
          exact ⟨fun h => h.1, fun h => ⟨h, hc⟩⟩
        rw [this, hc]
      · have : cells.countP (fun p => decide (p.2 = c.2 ∧ row_count cells c.2 = 10)) = 0 := by
          rw [List.countP_eq_zero]
          intro p _
          simp [hc]
        rw [this]
        omega
    simp only [List.any_cons, List.length_cons]
    omega

/-- Adding cells to a grid without a full row up to `y`: the cells on full rows
up to `y` number at most ten for each added cell. -/
theorem full_row_cells_append (grid added : List (Int × Int)) (y : Int)
    (hnone : ∀ q : Int, q ≤ y → row_count grid q ≠ 10) :
    full_row_cells (grid ++ added) y ≤ 10 * added.length := by
  refine le_trans ?_ (countP_rows_le (grid ++ added) added)
  unfold full_row_cells
  apply List.countP_mono_left
  intro p _ hp
  simp only [decide_eq_true_eq] at hp
  simp only [List.any_eq_true, decide_eq_true_eq]
  obtain ⟨hpy, hfull⟩ := hp
  by_contra hno
  have hzero : row_count added p.2 = 0 := by
    unfold row_count
    rw [List.countP_eq_zero]
    intro c hc
    simp only [decide_eq_true_eq]
    intro hcp
    exact hno ⟨c, hc, hcp.symm, by rw [hcp]; exact hfull⟩
  have hsum : row_count (grid ++ added) p.2 = row_count grid p.2 + row_count added p.2 := by
    unfold row_count
    exact List.countP_append _ _ _
  rw [hsum, hzero] at hfull
  exact hnone p.2 hpy hfull

/-- Claim C31: when no row `y < GRID_HEIGHT` of the grid, visible or above, holds
exactly `GRID_WIDTH` entries and the active piece has four cells, the line
count that `game_check_lines` returns inside `game_fix_piece` is between 0 and
4, so that the read of the point table is in range and the fix returns. -/
theorem fix_lines_at_most_four (game : GameState) (type : PieceType)
    (hnone : ∀ y : Int, y < GRID_HEIGHT →
      (row_count (positions game.fixed_blocks.head) y : Int) ≠ GRID_WIDTH)
    (hfour : game.current_piece.blocks.head.length = 4) :
    ∃ (lines : Int) (game1 : GameState),
      game_check_lines (transfer_blocks game) = some (lines, game1) ∧
      0 ≤ lines ∧ lines ≤ 4 ∧
      (∃ p, points[lines.toNat]? = some p) ∧
      ∃ game', game_fix_piece game type = some game' := by
  obtain ⟨res, hres⟩ := check_lines_returns (transfer_blocks game)
  obtain ⟨k, h1, h2, _, _⟩ := check_lines_loop_count _ _ _ _ _ hres
  obtain ⟨lines, game1⟩ := res
  simp only [zero_add] at h1
  have hpos : positions (transfer_blocks game).fixed_blocks.head
      = positions game.fixed_blocks.head ++ positions game.current_piece.blocks.head := by
    unfold transfer_blocks
    simp only [foldl_list_add, positions_append]
  have hle := full_row_cells_append (positions game.fixed_blocks.head)
    (positions game.current_piece.blocks.head) (GRID_HEIGHT - 1) (by
      intro q hq hc
      apply hnone q (by omega)
      rw [hc]; rfl)
  rw [hpos] at h2
  have hlen : (positions game.current_piece.blocks.head).length = 4 := by
    simp [positions, hfour]
  rw [hlen] at hle
  have hk : k ≤ 4 := by omega
  have hl4 : lines ≤ 4 := by rw [h1]; omega
  refine ⟨lines, game1, hres, by rw [h1]; omega, hl4, ?_, fix_piece_returns game type lines game1 hres hl4⟩
  have : lines.toNat < points.length := by
    simp only [points, List.length_cons, List.length_nil]
    omega
  exact ⟨points[lines.toNat], List.getElem?_eq_getElem this⟩

/-- Claim C31 at a concrete session: rows 16 to 19 hold nine cells each, the upright
I piece completes all four, and the line count is 4. -/
theorem fix_lines_at_most_four_witness :
    tetris_state.current_piece.blocks.head.length = 4 ∧
    (game_check_lines (transfer_blocks tetris_state)).map Prod.fst = some 4 ∧
    ∃ (lines : Int) (game1 : GameState),
      game_check_lines (transfer_blocks tetris_state) = some (lines, game1) ∧
      0 ≤ lines ∧ lines ≤ 4 ∧
      (∃ p, points[lines.toNat]? = some p) ∧
      ∃ game', game_fix_piece tetris_state PIECE_T = some game' :=
  ⟨by decide, by decide!,
    fix_lines_at_most_four tetris_state PIECE_T
      (by
        intro y _
        have hrows : ∀ p ∈ positions tetris_state.fixed_blocks.head, 16 ≤ p.2 ∧ p.2 ≤ 19 := by
          decide!
        by_cases h : 16 ≤ y ∧ y ≤ 19
        · obtain ⟨h1, h2⟩ := h
          interval_cases y <;> decide!
        · have hz : row_count (positions tetris_state.fixed_blocks.head) y = 0 := by
            unfold row_count
            rw [List.countP_eq_zero]
            intro p hp
            have := hrows p hp
            simp only [decide_eq_true_eq]
            omega
          rw [hz]
          decide)
      (by decide)⟩

/-! ### Transitions of the game-over flag -/

/-- A move either leaves `game_over` as it is or is a blocked move with `dy > 0`
in a session in play, whose result is that of `game_fix_piece`. -/
theorem move_piece_game_over (game : GameState) (dx dy : Int) (type : PieceType)
    (res : Bool × GameState) (h : game_move_piece game dx dy type = some res) :
    res.2.game_over = game.game_over ∨
    (fix_step game (Command.move dx dy type) ∧ game_fix_piece game type = some res.2) := by
  unfold game_move_piece at h
  by_cases h1 : game.game_over = true ∨ game.paused = true
  · rw [if_pos h1] at h
    rw [← Option.some.inj h]
    exact Or.inl rfl
  · rw [if_neg h1] at h
    by_cases h2 : ¬ game_check_collision game.current_piece game.fixed_blocks dx dy = true
    · rw [if_pos h2] at h
      rw [← Option.some.inj h]
      exact Or.inl rfl
    · rw [if_neg h2] at h
      by_cases h3 : dy > 0
      · rw [if_pos h3] at h
        right
        cases hf : game_fix_piece game type with
        | none => rw [hf] at h; simp at h
        | some game' =>
          rw [hf] at h
          rw [← Option.some.inj h]
          refine ⟨⟨?_, ?_, ?_, h3⟩, rfl⟩
          · cases hg : game.game_over
            · rfl
            · exact absurd (Or.inl hg) h1
          · cases hg : game.paused
            · rfl
            · exact absurd (Or.inr hg) h1
          · simpa using h2
      · rw [if_neg h3] at h
        rw [← Option.some.inj h]
        exact Or.inl rfl

/-- A command other than the reset either leaves `game_over` as it is or is a
step that fixes a piece, its result being that of `game_fix_piece` on some
session. -/
theorem run_command_game_over (game game' : GameState) (command : Command)
    (hc : is_reset command = false) (h : run_command game command = some game') :
    game'.game_over = game.game_over ∨
    (fix_step game command ∧
      ∃ game0 type, game_fix_piece game0 type = some game') := by
  cases command with
  | move dx dy type =>
    simp only [run_command] at h
    cases hm : game_move_piece game dx dy type with
    | none => rw [hm] at h; simp at h
    | some res =>
      rw [hm] at h
      have hres : res.2 = game' := Option.some.inj h
      rcases move_piece_game_over game dx dy type res hm with hsame | ⟨hfix, hres2⟩
      · rw [← hres]; exact Or.inl hsame
      · rw [hres] at hres2
        exact Or.inr ⟨hfix, game, type, hres2⟩
  | rotate =>
    simp only [run_command, Option.some.injEq] at h
    rw [← h]
    left
    rcases rotate_piece_cases game with hr | ⟨d, hr | hr⟩ <;> rw [hr]
  | hardDrop type =>
    simp only [run_command] at h
    unfold game_drop_piece at h
    by_cases h1 : game.game_over = true ∨ game.paused = true
    · rw [if_pos h1] at h
      rw [← Option.some.inj h]
      exact Or.inl rfl
    · rw [if_neg h1] at h
      right
      refine ⟨⟨?_, ?_⟩, ?_⟩
      · cases hg : game.game_over
        · rfl
        · exact absurd (Or.inl hg) h1
      · cases hg : game.paused
        · rfl
        · exact absurd (Or.inr hg) h1
      · cases hd : drop_loop (descent_fuel game.current_piece) game with
        | none => rw [hd] at h; simp at h
        | some game1 =>
          rw [hd] at h
          exact ⟨game1, type, h⟩
  | tick delta_time type =>
    simp only [run_command] at h
    unfold game_update at h
    by_cases h1 : game.game_over = true ∨ game.paused = true
    · rw [if_pos h1] at h
      rw [← Option.some.inj h]
      exact Or.inl rfl
    · rw [if_neg h1] at h
      dsimp only at h
      by_cases h2 : game.fall_timer + delta_time ≥ game.fall_speed
      · rw [if_pos h2] at h
        cases hm : game_move_piece { game with fall_timer := game.fall_timer + delta_time }
            0 1 type with
        | none => rw [hm] at h; simp at h
        | some res =>
          rw [hm] at h
          obtain ⟨b, game2⟩ := res
          simp only [Option.some.injEq] at h
          rcases move_piece_game_over _ 0 1 type _ hm with hsame | ⟨hfix, hres2⟩
          · left
            rw [← h]
            exact hsame
          · right
            obtain ⟨f1, f2, f3, _⟩ := hfix
            refine ⟨⟨f1, f2, h2, f3⟩,
              { game with fall_timer := game.fall_timer + delta_time }, type, ?_⟩
            simp only [] at hres2
            rw [hres2, ← h]
            have ht := (fix_piece_pieces _ _ _ hres2).2.2.1
            cases game2
            simp only [] at ht
            subst ht
            rfl
      · rw [if_neg h2] at h
        rw [← Option.some.inj h]
        exact Or.inl rfl
  | togglePause =>
    simp only [run_command, Option.some.injEq] at h
    rw [← h]
    exact Or.inl rfl
  | reset type1 type2 => simp [is_reset] at hc

/-- Claim C32: over a sequence of move, rotate, hard-drop, tick and pause-toggle
commands, a session that is over stays over; a session that is not over and
ends over passed through a step that fixes a piece (a blocked move with
`dy > 0`, a hard drop, or a tick whose descent is blocked), taken in a session
not yet over and leading to the result of `game_fix_piece`; and `game_reset`
sets `game_over` to false. -/
theorem game_over_transitions (game game' : GameState) (commands : List Command)
    (hcommands : ∀ c ∈ commands, is_reset c = false)
    (hrun : run_commands game commands = some game') :
    (game.game_over = true → game'.game_over = true) ∧
    (game.game_over = false → game'.game_over = true →
      ∃ (before : List Command) (command : Command) (after : List Command)
        (game1 game2 : GameState),
        commands = before ++ command :: after ∧
        run_commands game before = some game1 ∧ game1.game_over = false ∧
        run_command game1 command = some game2 ∧ game2.game_over = true ∧
        fix_step game1 command ∧
        ∃ game0 type, game_fix_piece game0 type = some game2) ∧
    ∀ type1 type2, (game_reset game' type1 type2).game_over = false := by
  refine ⟨?_, ?_, fun _ _ => rfl⟩
  · revert game
    induction commands with
    | nil =>
      intro game hrun hover
      simp only [run_commands, Option.some.injEq] at hrun
      rw [← hrun]; exact hover
    | cons c rest ih =>
      intro game hrun hover
      simp only [run_commands] at hrun
      cases hstep : run_command game c with
      | none => rw [hstep] at hrun; simp at hrun
      | some game1 =>
        rw [hstep] at hrun
        apply ih (fun c hc => hcommands c (List.mem_cons_of_mem _ hc)) game1 hrun
        rcases run_command_game_over game game1 c (hcommands c (List.mem_cons_self _ _)) hstep
          with hsame | ⟨hfix, _⟩
        · rw [hsame]; exact hover
        · cases c with
          | move dx dy type => rw [hfix.1] at hover; exact Bool.noConfusion hover
          | hardDrop type => rw [hfix.1] at hover; exact Bool.noConfusion hover
          | tick delta_time type => rw [hfix.1] at hover; exact Bool.noConfusion hover
          | rotate => exact hfix.elim
          | togglePause => exact hfix.elim
          | reset type1 type2 => exact hfix.elim
  · revert game
    induction commands with
    | nil =>
      intro game hrun hfalse htrue
      simp only [run_commands, Option.some.injEq] at hrun
      rw [← hrun, hfalse] at htrue
      exact Bool.noConfusion htrue
    | cons c rest ih =>
      intro game hrun hfalse htrue
      simp only [run_commands] at hrun
      cases hstep : run_command game c with
      | none => rw [hstep] at hrun; simp at hrun
      | some game1 =>
        rw [hstep] at hrun
        cases hover1 : game1.game_over with
        | false =>
          obtain ⟨before, command, after, g1, g2, e1, e2, e3, e4, e5, e6, e7⟩ :=
            ih (fun c hc => hcommands c (List.mem_cons_of_mem _ hc)) game1 hrun hover1 htrue
          refine ⟨c :: before, command, after, g1, g2, by rw [e1]; rfl, ?_, e3, e4, e5, e6, e7⟩
          simp only [run_commands, hstep]
          exact e2
        | true =>
          rcases run_command_game_over game game1 c (hcommands c (List.mem_cons_self _ _)) hstep
            with hsame | ⟨hfix, hres⟩
          · rw [hsame, hfalse] at hover1
            exact Bool.noConfusion hover1
          · exact ⟨[], c, rest, game, game1, rfl, rfl, hfalse, hstep, hover1, hfix, hres⟩

/-- Claim C32 at a concrete play: on a grid with a block where the next piece
spawns, a hard drop ends the game, and the move and the pause toggle that
follow leave it over. -/
theorem game_over_transitions_witness :
    blocked_spawn_state.game_over = false ∧
    ((run_commands blocked_spawn_state
        [Command.hardDrop PIECE_T, Command.move 1 0 PIECE_T, Command.togglePause]).getD
      blocked_spawn_state).game_over = true ∧
    ((blocked_spawn_state.game_over = true →
      ((run_commands blocked_spawn_state
        [Command.hardDrop PIECE_T, Command.move 1 0 PIECE_T, Command.togglePause]).getD
      blocked_spawn_state).game_over = true) ∧
    (blocked_spawn_state.game_over = false →
      ((run_commands blocked_spawn_state
        [Command.hardDrop PIECE_T, Command.move 1 0 PIECE_T, Command.togglePause]).getD
      blocked_spawn_state).game_over = true →
      ∃ (before : List Command) (command : Command) (after : List Command)
        (game1 game2 : GameState),
        [Command.hardDrop PIECE_T, Command.move 1 0 PIECE_T, Command.togglePause]
          = before ++ command :: after ∧
        run_commands blocked_spawn_state before = some game1 ∧ game1.game_over = false ∧
        run_command game1 command = some game2 ∧ game2.game_over = true ∧
        fix_step game1 command ∧
        ∃ game0 type, game_fix_piece game0 type = some game2) ∧
    ∀ type1 type2,
      (game_reset ((run_commands blocked_spawn_state
        [Command.hardDrop PIECE_T, Command.move 1 0 PIECE_T, Command.togglePause]).getD
      blocked_spawn_state) type1 type2).game_over = false) :=
  ⟨by decide, by decide!,
    game_over_transitions blocked_spawn_state
      ((run_commands blocked_spawn_state
        [Command.hardDrop PIECE_T, Command.move 1 0 PIECE_T, Command.togglePause]).getD
      blocked_spawn_state)
      [Command.hardDrop PIECE_T, Command.move 1 0 PIECE_T, Command.togglePause]
      (by decide) (by decide!)⟩

/-! ### Hard drop and repeated moves -/

/-- The line loop does not read the score. -/
theorem check_lines_loop_add_score (bonus : Int) : ∀ (fuel : Nat) (game : GameState) (y r : Int),
    check_lines_loop fuel (add_score bonus game) y r
      = (check_lines_loop fuel game y r).map (fun res => (res.1, add_score bonus res.2)) := by
  intro fuel
  induction fuel with
  | zero => intro game y r; rfl
  | succ fuel ih =>
    intro game y r
    rw [check_lines_loop, check_lines_loop]
    by_cases hy : y ≥ 0
    · rw [if_pos hy, if_pos hy]
      have hgrid : (add_score bonus game).fixed_blocks = game.fixed_blocks := rfl
      rw [hgrid]
      by_cases hfull : count_row y game.fixed_blocks.head = GRID_WIDTH
      · simp only [hfull, if_true]
        exact ih { game with fixed_blocks := clear_row game.fixed_blocks y } _ _
      · simp only [hfull, if_false]
        exact ih game _ _
    · rw [if_neg hy, if_neg hy]
      rfl

/-- The scoring block adds to the score it finds. -/
theorem apply_score_add_score (bonus : Int) (game : GameState) (lines : Int) :
    apply_score (add_score bonus game) lines = (apply_score game lines).map (add_score bonus) := by
  unfold apply_score
  by_cases hl : lines > 0
  · rw [if_pos hl, if_pos hl]
    cases hp : points[lines.toNat]? with
    | none => rfl
    | some p =>
      simp only [Option.map_some', add_score, Option.some.injEq]
      congr 1
      ring
  · rw [if_neg hl, if_neg hl]
    rfl

/-- The spawn does not read the score. -/
theorem spawn_next_add_score (bonus : Int) (game : GameState) (type : PieceType) :
    spawn_next (add_score bonus game) type = add_score bonus (spawn_next game type) := by
  unfold spawn_next add_score
  dsimp only
  cases game_check_collision game.next_piece game.fixed_blocks 0 0 <;> rfl

/-- A fix of a session with more points is the fix of the session, with the
points added. -/
theorem fix_piece_add_score (bonus : Int) (game : GameState) (type : PieceType) :
    game_fix_piece (add_score bonus game) type
      = (game_fix_piece game type).map (add_score bonus) := by
  unfold game_fix_piece
  have htransfer : transfer_blocks (add_score bonus game)
      = add_score bonus (transfer_blocks game) := rfl
  have hlines : game_check_lines (add_score bonus (transfer_blocks game))
      = (game_check_lines (transfer_blocks game)).map
          (fun res => (res.1, add_score bonus res.2)) :=
    check_lines_loop_add_score bonus _ _ _ _
  rw [htransfer, hlines]
  cases game_check_lines (transfer_blocks game) with
  | none => rfl
  | some res =>
    obtain ⟨lines, game1⟩ := res
    simp only [Option.map_some']
    rw [apply_score_add_score]
    cases apply_score game1 lines with
    | none => rfl
    | some game2 =>
      simp only [Option.map_some']
      rw [spawn_next_add_score]

/-- Repeated single-row moves from `j` rows down, with `k` the first offset at
which one row further collides: the piece is fixed `k` rows down. -/
theorem repeated_descent_lowered (game : GameState) (type : PieceType) (k : Int)
    (hover : game.game_over = false) (hpaused : game.paused = false) :
    ∀ (fuel : Nat) (j : Int), j ≤ k → (k - j).toNat + 1 ≤ fuel →
    game_check_collision game.current_piece game.fixed_blocks 0 (k + 1) = true →
    (∀ i : Int, j ≤ i → i < k →
      game_check_collision game.current_piece game.fixed_blocks 0 (i + 1) = false) →
    repeated_descent type fuel (lowered game j) = game_fix_piece (lowered game k) type := by
  intro fuel
  induction fuel with
  | zero => intro j _ hfuel; omega
  | succ fuel ih =>
    intro j hjk hfuel hcollide hleast
    unfold repeated_descent
    have htest : game_check_collision (lowered game j).current_piece
        (lowered game j).fixed_blocks 0 1
        = game_check_collision game.current_piece game.fixed_blocks 0 (j + 1) := by
      simp only [lowered, check_collision_move, add_zero]
    have hactive : ¬ ((lowered game j).game_over = true ∨ (lowered game j).paused = true) := by
      simp [lowered, hover, hpaused]
    unfold game_move_piece
    rw [if_neg hactive, htest]
    by_cases hj : j = k
    · subst hj
      rw [hcollide]
      simp only [not_true_eq_false, if_false, gt_iff_lt, zero_lt_one, if_true]
      cases game_fix_piece (lowered game j) type <;> rfl
    · have hlt : j < k := by omega
      rw [hleast j (le_refl _) hlt]
      simp only [Bool.false_eq_true, not_false_eq_true, if_true]
      have hstep : { lowered game j with
          current_piece := piece_move (lowered game j).current_piece 0 1 }
          = lowered game (j + 1) := by
        simp only [lowered, piece_move_move, add_zero]
      rw [hstep]
      exact ih (j + 1) (by omega) (by omega) hcollide
        (fun i hi hik => hleast i (by omega) hik)

/-- Single-row moves of a piece without a node never stop. -/
theorem repeated_descent_empty (type : PieceType) : ∀ (fuel : Nat) (game : GameState),
    game.game_over = false → game.paused = false → game.current_piece.blocks.head = [] →
    repeated_descent type fuel game = none := by
  intro fuel
  induction fuel with
  | zero => intro game _ _ _; rfl
  | succ fuel ih =>
    intro game hover hpaused hempty
    unfold repeated_descent game_move_piece
    have hactive : ¬ (game.game_over = true ∨ game.paused = true) := by
      simp [hover, hpaused]
    have hfree : game_check_collision game.current_piece game.fixed_blocks 0 1 = false := by
      unfold game_check_collision
      rw [hempty]
      rfl
    rw [if_neg hactive, hfree]
    simp only [Bool.false_eq_true, not_false_eq_true, if_true]
    exact ih { game with current_piece := piece_move game.current_piece 0 1 } hover hpaused
      (by simp [piece_move, hempty])

/-- Claim C36: in a session in play, for a fixed kind of the next spawn,
`game_drop_piece` gives the session that repeating `game_move_piece(0, 1)` until
it first returns false gives, except for the score, which is higher by 2 for
each of the `k` rows descended; both fix the piece `k` rows down.  (For a piece
without a cell neither returns.) -/
theorem drop_refines_repeated_moves (game : GameState) (type : PieceType)
    (hover : game.game_over = false) (hpaused : game.paused = false) :
    (game.current_piece.blocks.head = [] ∧ game_drop_piece game type = none ∧
      ∀ fuel : Nat, repeated_descent type fuel game = none) ∨
    ∃ k : Int, 0 ≤ k ∧
      ghost_loop game.current_piece game.fixed_blocks (descent_fuel game.current_piece) 0
        = some k ∧
      ∀ fuel : Nat, k.toNat + 1 ≤ fuel →
        repeated_descent type fuel game
          = game_fix_piece { game with current_piece := piece_move game.current_piece 0 k } type ∧
        game_drop_piece game type
          = (repeated_descent type fuel game).map
              (fun game' => { game' with score := game'.score + 2 * k }) := by
  cases hp : game.current_piece.blocks.head with
  | nil =>
    left
    refine ⟨rfl, ?_, fun fuel => repeated_descent_empty type fuel game hover hpaused hp⟩
    unfold game_drop_piece
    have hactive : ¬ (game.game_over = true ∨ game.paused = true) := by
      simp [hover, hpaused]
    rw [if_neg hactive]
    unfold descent_fuel
    rw [hp]
    rfl
  | cons first rest =>
    right
    obtain ⟨k, hk⟩ := ghost_loop_returns game.current_piece game.fixed_blocks first rest hp
      (descent_fuel game.current_piece) 0 (by
        unfold descent_fuel
        rw [hp]
        simp)
    obtain ⟨hk0, hcollide, hleast⟩ := ghost_loop_some _ _ _ _ _ hk
    refine ⟨k, hk0, hk, ?_⟩
    intro fuel hfuel
    have hrep := repeated_descent_lowered game type k hover hpaused fuel 0 hk0
      (by simpa using hfuel) hcollide hleast
    have hzero : lowered game 0 = game := by
      simp [lowered, piece_move_zero]
    rw [hzero] at hrep
    refine ⟨hrep, ?_⟩
    rw [(drop_piece_eq game type k hover hpaused hk0 hcollide hleast).2, hrep]
    exact fix_piece_add_score (2 * k) (lowered game k) type

/-- Claim C36 at a concrete session: the spawned T piece on the empty grid; the
hard drop scores 36, eighteen single-row moves and the blocked nineteenth
score 0, and the sessions are otherwise the same. -/
theorem drop_refines_repeated_moves_witness :
    (game_drop_piece (game_init PIECE_T PIECE_O) PIECE_I).map
        (fun game' => (positions game'.fixed_blocks.head, game'.score))
      = some ([(4, 18), (3, 19), (4, 19), (5, 19)], 36) ∧
    (repeated_descent PIECE_I 19 (game_init PIECE_T PIECE_O)).map
        (fun game' => (positions game'.fixed_blocks.head, game'.score))
      = some ([(4, 18), (3, 19), (4, 19), (5, 19)], 0) ∧
    (((game_init PIECE_T PIECE_O).current_piece.blocks.head = [] ∧
      game_drop_piece (game_init PIECE_T PIECE_O) PIECE_I = none ∧
      ∀ fuel : Nat, repeated_descent PIECE_I fuel (game_init PIECE_T PIECE_O) = none) ∨
    ∃ k : Int, 0 ≤ k ∧
      ghost_loop (game_init PIECE_T PIECE_O).current_piece
          (game_init PIECE_T PIECE_O).fixed_blocks
          (descent_fuel (game_init PIECE_T PIECE_O).current_piece) 0 = some k ∧
      ∀ fuel : Nat, k.toNat + 1 ≤ fuel →
        repeated_descent PIECE_I fuel (game_init PIECE_T PIECE_O)
          = game_fix_piece { game_init PIECE_T PIECE_O with
              current_piece := piece_move (game_init PIECE_T PIECE_O).current_piece 0 k }
              PIECE_I ∧
        game_drop_piece (game_init PIECE_T PIECE_O) PIECE_I
          = (repeated_descent PIECE_I fuel (game_init PIECE_T PIECE_O)).map
              (fun game' => { game' with score := game'.score + 2 * k })) :=
  ⟨by decide!, by decide!,
    drop_refines_repeated_moves (game_init PIECE_T PIECE_O) PIECE_I rfl rfl⟩

/-! ### Blocked diagonal moves -/

/-- Claim C37 as stated fails: the T piece stands against the left wall at the top
of the empty grid and can descend (no collision at `(0, 1)`);
`game_move_piece(game, -1, 1)` is blocked by the wall alone and fixes the piece
where it stands, on rows 0 and 1, promoting the next piece. -/
theorem diagonal_move_fixes_afloat :
    Reachable wall_state ∧
    wall_state.game_over = false ∧ wall_state.paused = false ∧
    wall_state.fixed_blocks.head = [] ∧
    positions wall_state.current_piece.blocks.head = [(1, 0), (0, 1), (1, 1), (2, 1)] ∧
    game_check_collision wall_state.current_piece wall_state.fixed_blocks 0 1 = false ∧
    game_check_collision wall_state.current_piece wall_state.fixed_blocks (-1) 0 = true ∧
    game_check_collision wall_state.current_piece wall_state.fixed_blocks (-1) 1 = true ∧
    game_move_piece wall_state (-1) 1 PIECE_I
      = (game_fix_piece wall_state PIECE_I).map (fun game' => (false, game')) ∧
    (game_move_piece wall_state (-1) 1 PIECE_I).map
        (fun res => (res.1, positions res.2.fixed_blocks.head,
          positions res.2.current_piece.blocks.head))
      = some (false, [(1, 0), (0, 1), (1, 1), (2, 1)], [(4, 0), (5, 0), (4, 1), (5, 1)]) := by
  have hrun : run_commands (game_init PIECE_T PIECE_O)
      [Command.move (-1) 0 PIECE_I, Command.move (-1) 0 PIECE_I, Command.move (-1) 0 PIECE_I]
      = some wall_state := by
    decide!
  exact ⟨reachable_run_commands _ _ _ (Reachable.init PIECE_T PIECE_O) hrun, by decide!,
    by decide!, by decide!, by decide!, by decide!, by decide!, by decide!, by decide!,
    by decide!⟩

/-- Claim C37, as amended: in a session in play, for `dy > 0`, `game_move_piece`
fixes the current piece only if the piece collides at offset `(dx, dy)` (for
`dx = 0`, `dy = 1`: only if it cannot descend), and then it does: on a collision
the result is that of `game_fix_piece` with the value false, also when the move
is blocked by its horizontal component alone; without a collision the piece is
translated and nothing is fixed. -/
theorem move_piece_fixes_iff (game : GameState) (dx dy : Int) (type : PieceType)
    (hover : game.game_over = false) (hpaused : game.paused = false) (hdy : dy > 0) :
    (game_check_collision game.current_piece game.fixed_blocks dx dy = true →
      game_move_piece game dx dy type
        = (game_fix_piece game type).map (fun game' => (false, game'))) ∧
    (game_check_collision game.current_piece game.fixed_blocks dx dy = false →
      game_move_piece game dx dy type
        = some (true, { game with current_piece := piece_move game.current_piece dx dy })) := by
  have hactive : ¬ (game.game_over = true ∨ game.paused = true) := by
    simp [hover, hpaused]
  have hblocked : game_check_collision game.current_piece game.fixed_blocks dx dy = true →
      game_move_piece game dx dy type
        = (game_fix_piece game type).map (fun game' => (false, game')) := by
    intro hc
    unfold game_move_piece
    rw [if_neg hactive, if_neg (by simp [hc]), if_pos hdy]
    cases game_fix_piece game type <;> rfl
  have hfree : game_check_collision game.current_piece game.fixed_blocks dx dy = false →
      game_move_piece game dx dy type
        = some (true, { game with current_piece := piece_move game.current_piece dx dy }) := by
    intro hc
    unfold game_move_piece
    rw [if_neg hactive, if_pos (by simp [hc])]
  exact ⟨hblocked, hfree⟩

/-- Claim C37, as amended, at a concrete session: the T piece against the left
wall is fixed by the blocked move `(-1, 1)`. -/
theorem move_piece_fixes_iff_witness :
    game_check_collision wall_state.current_piece wall_state.fixed_blocks (-1) 1 = true ∧
    ((game_check_collision wall_state.current_piece wall_state.fixed_blocks (-1) 1 = true →
      game_move_piece wall_state (-1) 1 PIECE_I
        = (game_fix_piece wall_state PIECE_I).map (fun game' => (false, game'))) ∧
    (game_check_collision wall_state.current_piece wall_state.fixed_blocks (-1) 1 = false →
      game_move_piece wall_state (-1) 1 PIECE_I
        = some (true,
            { wall_state with current_piece := piece_move wall_state.current_piece (-1) 1 }))) :=
  ⟨by decide!, move_piece_fixes_iff wall_state (-1) 1 PIECE_I (by decide!) (by decide!) (by decide)⟩

/-! ### The O piece in a play -/

end Tetris
